import Mathlib

/-!
# LinDB Go client: write pipeline

A shallow embedding of the asynchronous writer (`api/write.go`,
`api/write_options.go`), of the connection-oriented client
(`client/buffer.go`, `client/client.go`, `client/sender.go`), of the
configuration and the address manager (`config/config.go`,
`config/address.go`) and of the PUT helper (`internal/http/client.go`), with
the properties of the retry queue, the HTTP send step, the batching task, the
writer's options and shutdown, the point buffer, the client front end and its
frames, the sender, the node selection and the discovery poll stated and
proved over it.

Conventions of the embedding

* Go `int` values are `Int`; lengths are `Nat` and are cast where the source
  compares them with an `int`.
* A Go `[]byte` or `string` is a list of byte values (`Bytes`).
* A goroutine's local variables are a record that is passed from step to step.
* Collaborators outside the repository (the HTTP transport, the gzip writer,
  the protobuf encoder, the clock) are parameters.
-/

set_option autoImplicit false
set_option linter.dupNamespace false

/-- A Go byte slice or string: its bytes in order. -/
abbrev Bytes := List Nat

/-- The bytes of a Go string literal. -/
def goString (s : String) : Bytes := s.toUTF8.toList.map UInt8.toNat

/-- How a Go call ends: it returns a value, panics, or never returns because it
waits on a channel or a mutex that is not released. -/
inductive Outcome (α : Type) where
  | returned (a : α)
  | panicked
  | blocked
  deriving DecidableEq, Repr

namespace api

/-! ## Data model of `api/write.go` -/

/-- Go `error` values seen by the writer. The two package variables are
constructors of their own, since Go compares errors by identity: an error
built by `errors.New(string(b))` is never equal to one of them, whatever its
text. -/
inductive Error where
  /-- The package variable `errTooManyRetryRequests`. -/
  | errTooManyRetryRequests
  /-- The package variable `errTooManyRetry`. -/
  | errTooManyRetry
  /-- The value of `errors.New(string(b))`. -/
  | new (text : Bytes)
  /-- An error raised by a library call (transport, body read, gzip writer). -/
  | lib (text : Bytes)
  deriving DecidableEq, Repr

/-- The method `Error()` of an error value: its message. -/
def Error.Error : Error → Bytes
  | .errTooManyRetryRequests => goString "too many retry requests, drop current request"
  | .errTooManyRetry => goString "max retry attempt"
  | .new text => text
  | .lib text => text

/-- The writer's options (`api/write_options.go`). A nil tag map is `none`. -/
structure WriteOptions where
  batchSize : Int
  flushInterval : Int
  useGZip : Bool
  defaultTags : Option (List (String × String))
  maxRetries : Int
  retryBufferLimit : Int
  deriving DecidableEq, Repr

/-- The function `DefaultWriteOptions`. -/
def DefaultWriteOptions : WriteOptions where
  batchSize := 1000
  flushInterval := 1000
  useGZip := true
  defaultTags := none
  maxRetries := 3
  retryBufferLimit := 100

/-- The method `SetBatchSize`. -/
def WriteOptions.SetBatchSize (opt : WriteOptions) (batchSize : Int) : WriteOptions :=
  { opt with batchSize := batchSize }

/-- The method `BatchSize`. -/
def WriteOptions.BatchSize (opt : WriteOptions) : Int := opt.batchSize

/-- The method `SetFlushInterval`. -/
def WriteOptions.SetFlushInterval (opt : WriteOptions) (interval : Int) : WriteOptions :=
  { opt with flushInterval := interval }

/-- The method `FlushInterval`. -/
def WriteOptions.FlushInterval (opt : WriteOptions) : Int := opt.flushInterval

/-- The method `SetUseGZip`. -/
def WriteOptions.SetUseGZip (opt : WriteOptions) (useGZip : Bool) : WriteOptions :=
  { opt with useGZip := useGZip }

/-- The method `UseGZip`. -/
def WriteOptions.UseGZip (opt : WriteOptions) : Bool := opt.useGZip

/-- The assignment `m[key] = value` on a Go map kept as an association list. -/
def mapAssign (m : List (String × String)) (key value : String) : List (String × String) :=
  if m.any (fun e => e.1 = key) then
    m.map (fun e => if e.1 = key then (key, value) else e)
  else m ++ [(key, value)]

/-- The method `AddDefaultTag`. -/
def WriteOptions.AddDefaultTag (opt : WriteOptions) (key value : String) : WriteOptions :=
  match opt.defaultTags with
  | none => { opt with defaultTags := some (mapAssign [] key value) }
  | some m => { opt with defaultTags := some (mapAssign m key value) }

/-- The method `DefaultTags`. -/
def WriteOptions.DefaultTags (opt : WriteOptions) : Option (List (String × String)) :=
  opt.defaultTags

/-- The method `SetMaxRetries`. -/
def WriteOptions.SetMaxRetries (opt : WriteOptions) (maxRetries : Int) : WriteOptions :=
  { opt with maxRetries := maxRetries }

/-- The method `MaxRetries`. -/
def WriteOptions.MaxRetries (opt : WriteOptions) : Int := opt.maxRetries

/-- The method `SetRetryBufferLimit`. -/
def WriteOptions.SetRetryBufferLimit (opt : WriteOptions) (retryBufferLimit : Int) :
    WriteOptions :=
  { opt with retryBufferLimit := retryBufferLimit }

/-- The method `RetryBufferLimit`. -/
def WriteOptions.RetryBufferLimit (opt : WriteOptions) : Int := opt.retryBufferLimit

/-- An HTTP response as `write.send` reads it: the status code, the bytes of
the body, and the error (if any) that reading the body runs into. -/
structure Response where
  StatusCode : Int
  Body : Bytes
  readErr : Option Error
  deriving DecidableEq, Repr

/-- The call `io.ReadAll(resp.Body)`. -/
def ReadAll (resp : Response) : Except Error Bytes :=
  match resp.readErr with
  | some err => .error err
  | none => .ok resp.Body

/-- What the writer's collaborators do. `σ` is the state of everything outside
the send task's own variables (server, connection pool, gzip buffer, read
positions of request bodies); `ρ` is the type of request bodies
(`io.Reader` values).

* `Do data s` is `w.client.Do(req)` for the request built by `write.send`
  around the body `data`.
* `compress data s` is `w.compress(data)`: the gzip stream of `data` when a
  gzip writer is configured, a buffer over `data` otherwise. -/
structure Env (σ ρ : Type) where
  Do : ρ → σ → Except Error Response × σ
  compress : Bytes → σ → Except Error ρ × σ

/-- The struct `retryReq`: a request body waiting to be sent again. -/
structure retryReq (ρ : Type) where
  data : ρ
  attempts : Int
  deriving DecidableEq, Repr

/-- The variables of the send task (`sendProc`).

* `retryBuffers` is the local slice of that name.
* `errs` lists the errors passed to `emitErr`, oldest first.
* `sent` lists the request bodies passed to `w.send`, oldest first.
* `world` is the state of the collaborators. -/
structure SendState (σ ρ : Type) where
  retryBuffers : List (retryReq ρ)
  errs : List Error
  sent : List ρ
  world : σ

variable {σ ρ : Type}

/-- The method `write.send`: one PUT request with body `data`. It returns the
error (`none` is Go's nil) and the collaborators' new state. The endpoint is
one that parses: the method drops the error of `http.NewRequestWithContext`,
and with an endpoint that does not parse the request is nil and setting its
headers panics; that case is left out here. -/
def write.send (env : Env σ ρ) (data : ρ) (s : σ) : Option Error × σ :=
  match env.Do data s with
  | (.error err, s1) => (some err, s1)
  | (.ok resp, s1) =>
    if resp.StatusCode >= 400 then
      match ReadAll resp with
      | .error err => (some err, s1)
      | .ok b => (some (Error.new b), s1)
    else (none, s1)

/-- The method `write.emitErr` as the send task calls it: the error is offered
to the error channel. The record keeps every offered error; whether a reader
takes it is up to the consumer. -/
def write.emitErr (err : Error) (st : SendState σ ρ) : SendState σ ρ :=
  { st with errs := st.errs ++ [err] }

/-- The closure `retry` of `sendProc`. -/
def sendProc.retry (opts : WriteOptions) (data : ρ) (attempt : Int)
    (st : SendState σ ρ) : SendState σ ρ :=
  if attempt >= opts.MaxRetries then
    write.emitErr Error.errTooManyRetry st
  else if (st.retryBuffers.length : Int) > opts.RetryBufferLimit then
    write.emitErr Error.errTooManyRetryRequests st
  else
    { st with retryBuffers := st.retryBuffers ++ [{ data := data, attempts := attempt + 1 }] }

/-- The closure `send` of `sendProc`: the returned flag and the new state. -/
def sendProc.send (env : Env σ ρ) (opts : WriteOptions) (data : Bytes)
    (st : SendState σ ρ) : Bool × SendState σ ρ :=
  if data.length = 0 then (false, st)
  else
    match env.compress data st.world with
    | (.error err, s1) => (true, write.emitErr err { st with world := s1 })
    | (.ok reqData, s1) =>
      match write.send env reqData s1 with
      | (some err, s2) =>
        (false, sendProc.retry opts reqData 0
          (write.emitErr err { st with world := s2, sent := st.sent ++ [reqData] }))
      | (none, s2) => (true, { st with world := s2, sent := st.sent ++ [reqData] })

/-- The body of the loop over `messages` in the closure `sendRetryReq`. -/
def sendProc.sendRetryReq.body (env : Env σ ρ) (opts : WriteOptions) (needRetry : Bool)
    (st : SendState σ ρ) (msg : retryReq ρ) : SendState σ ρ :=
  match write.send env msg.data st.world with
  | (some err, s1) =>
    let st1 := write.emitErr err { st with world := s1, sent := st.sent ++ [msg.data] }
    if needRetry then sendProc.retry opts msg.data msg.attempts st1 else st1
  | (none, s1) => { st with world := s1, sent := st.sent ++ [msg.data] }

/-- The closure `sendRetryReq` of `sendProc`. -/
def sendProc.sendRetryReq (env : Env σ ρ) (opts : WriteOptions) (needRetry : Bool)
    (st : SendState σ ρ) : SendState σ ρ :=
  if st.retryBuffers.length > 0 then
    let messages := st.retryBuffers
    messages.foldl (sendProc.sendRetryReq.body env opts needRetry)
      { st with retryBuffers := [] }
  else st

/-- The case `data := <-w.sendCh` of the loop of `sendProc`. -/
def sendProc.onData (env : Env σ ρ) (opts : WriteOptions)
    (st : SendState σ ρ) (data : Bytes) : SendState σ ρ :=
  match sendProc.send env opts data st with
  | (true, st1) => sendProc.sendRetryReq env opts true st1
  | (false, st1) => st1

/-- The case `<-w.stopSendCh` of the loop of `sendProc`: `pending` are the
payloads still received from `w.sendCh`. -/
def sendProc.onStop (env : Env σ ρ) (opts : WriteOptions)
    (st : SendState σ ρ) (pending : List Bytes) : SendState σ ρ :=
  sendProc.sendRetryReq env opts false
    (pending.foldl (fun s data => (sendProc.send env opts data s).2) st)

/-- The method `write.sendProc`: `live` are the payloads received from
`w.sendCh` before the stop signal is taken (a receive from the closed channel
yields the empty payload), `pending` those received after it. The result is
the state with which the task returns. -/
def write.sendProc (env : Env σ ρ) (opts : WriteOptions) (live pending : List Bytes)
    (world : σ) : SendState σ ρ :=
  sendProc.onStop env opts
    (live.foldl (sendProc.onData env opts)
      { retryBuffers := [], errs := [], sent := [], world := world })
    pending

/-! ### Concrete collaborators used to evaluate the send task -/

/-- A writer without gzip whose server answers every request with the status
`code` and the body `body`: request bodies are the payloads themselves. -/
def fixedServer (code : Int) (body : Bytes) : Env Unit Bytes where
  Do := fun _ s => (.ok { StatusCode := code, Body := body, readErr := none }, s)
  compress := fun data s => (.ok data, s)

/-- A server that answers with `resp`, whatever the request. -/
def respondsWith (resp : Response) : Env Unit Bytes where
  Do := fun _ s => (.ok resp, s)
  compress := fun data s => (.ok data, s)

/-- A server that fails the requests whose body is `bad` with status 500 and
accepts all others with status 200. -/
def rejects (bad : Bytes) : Env Unit Bytes where
  Do := fun data s =>
    (.ok { StatusCode := if data = bad then 500 else 200, Body := [], readErr := none }, s)
  compress := fun data s => (.ok data, s)

/-- The options of `TestWriteData_Failure` with the given retry settings:
batch size 1, the other options at their defaults. -/
def failureOptions (maxRetries retryBufferLimit : Int) : WriteOptions :=
  ((DefaultWriteOptions.SetMaxRetries maxRetries).SetBatchSize 1).SetRetryBufferLimit
    retryBufferLimit

/-- The state of the send task with the queue `q` and nothing emitted or
sent yet. -/
def queueOnly (q : List (retryReq Bytes)) : SendState Unit Bytes :=
  { retryBuffers := q, errs := [], sent := [], world := () }

/-! ## Points and `AddPoint` -/

/-- Modelled from the spec: the field type of `api/fields.go`, which is not
among the sources; only its presence in a point matters here. -/
structure Field where
  name : String
  deriving DecidableEq, Repr

/-- Modelled from the spec: the struct `Point` of `api/point.go`, which is not
among the sources ("namespace, metric name, tag map, timestamp, ordered field
list"). -/
structure Point where
  namespace_ : String
  name : String
  tags : List (String × String)
  timestamp : Int
  fields : List Field
  deriving DecidableEq, Repr

/-- Modelled from the spec: the method `Point.Valid` of `api/point.go`, which
is not among the sources: "valid only if metric name is non-empty AND at least
one field is present". -/
def Point.Valid (p : Point) : Bool :=
  p.name ≠ "" && p.fields.length ≠ 0

/-- A buffered Go channel: the queued values (oldest first), the capacity, and
whether `close` has been called on it. -/
structure Chan (α : Type) where
  queue : List α
  cap : Nat
  closed : Bool
  deriving DecidableEq, Repr

/-- The fields of the struct `write` that the producer side touches.

* `bufferCh` is the channel of that name.
* `reported` lists the errors offered to `errCh` by the producer side.
* `sendChClosed`, `errChClosed`, `stopBatchChClosed` and `stopSendChClosed`
  say whether `close` has been called on the channel of that name.
* `closed` is the field of that name.
* `closes` lists the names of the channels on which `close` was called,
  oldest first. -/
structure write where
  writeOptions : WriteOptions
  bufferCh : Chan Point
  reported : List Error
  sendChClosed : Bool
  errChClosed : Bool
  stopBatchChClosed : Bool
  stopSendChClosed : Bool
  closed : Bool
  closes : List String
  deriving DecidableEq, Repr

/-- The method `write.AddPoint`. `ctxDone` says whether `ctx.Done()` is ready,
and `pick` is the choice `select` makes when both of its cases are ready
(`true` takes `ctx.Done()`). A send on a closed channel panics; a send on an
open channel is ready when the queue has room. -/
def write.AddPoint (w : write) (ctxDone pick : Bool) (point : Option Point) : Outcome write :=
  match point with
  | none => .returned w
  | some p =>
    if !p.Valid then .returned w
    else
      let sendReady := w.bufferCh.closed || decide (w.bufferCh.queue.length < w.bufferCh.cap)
      if ctxDone && (pick || !sendReady) then .returned w
      else if !sendReady then .blocked
      else if w.bufferCh.closed then .panicked
      else .returned { w with bufferCh := { w.bufferCh with queue := w.bufferCh.queue ++ [p] } }

/-- The function `NewWrite`, as far as the producer side goes: every channel
is open and empty, `bufferCh` has room for `batchSize + 1` points, and
`closed` is false. The options are such that the writer starts:
`batchSize >= -1` (making a channel with a negative capacity panics) and
`flushInterval > 0` (the ticker of the batching task panics otherwise); the
two panics are left out here. -/
def NewWrite (writeOptions : WriteOptions) : write where
  writeOptions := writeOptions
  bufferCh := { queue := [], cap := (writeOptions.BatchSize + 1).toNat, closed := false }
  reported := []
  sendChClosed := false
  errChClosed := false
  stopBatchChClosed := false
  stopSendChClosed := false
  closed := false
  closes := []

/-- The method `write.Close`, called while no other call of `Close` holds the
mutex. The builtin `close` panics on a channel that is closed already.
`bufferDone` and `sendDone` say whether the batching task and the send task
hand their completion signal to `doneCh`; while a signal is missing the call
waits for it. The batching task signals after it has taken every point left
in `bufferCh`. -/
def write.Close (w : write) (bufferDone sendDone : Bool) : Outcome write :=
  if w.closed then .returned w
  else if w.closed then .returned w
  else if w.stopBatchChClosed then .panicked
  else if w.bufferCh.closed then .panicked
  else if !bufferDone then .blocked
  else if w.stopSendChClosed then .panicked
  else if w.sendChClosed then .panicked
  else if !sendDone then .blocked
  else if w.errChClosed then .panicked
  else .returned
    { w with stopBatchChClosed := true
             bufferCh := { w.bufferCh with queue := [], closed := true }
             stopSendChClosed := true
             sendChClosed := true
             errChClosed := true
             closed := true
             closes := w.closes ++
               ["stopBatchCh", "bufferCh", "stopSendCh", "sendCh", "errCh"] }

/-- The writer that `NewWrite` makes from the default options, after its first
`Close` has returned. -/
def closedWriter : write :=
  { NewWrite DefaultWriteOptions with
    bufferCh := { queue := [], cap := 1001, closed := true }
    sendChClosed := true
    errChClosed := true
    stopBatchChClosed := true
    stopSendChClosed := true
    closed := true
    closes := ["stopBatchCh", "bufferCh", "stopSendCh", "sendCh", "errCh"] }

/-- The outcome of a run of calls of `Close` after the outcome `o`: each call
comes with what the two tasks do during it; nothing runs after a panic or in
a call that never returns. -/
def write.CloseAgain (o : Outcome write) (calls : List (Bool × Bool)) : Outcome write :=
  calls.foldl (fun o b =>
    match o with
    | .returned w => w.Close b.1 b.2
    | .panicked => .panicked
    | .blocked => .blocked) o

/-- The number of payloads of `payloads` that the send task tries to send:
the non-empty ones. -/
def attempted (payloads : List Bytes) : Nat :=
  payloads.countP (fun data => data.length ≠ 0)

/-- The state of a send task in the scenario where every request is refused
with the response body `body`, after the payloads `payloads`: `rs` are the
request bodies that `w.compress` made, one for each non-empty payload and in
their order; `w.send` was called once with each of them, each is queued with
the attempt count 1, and one `errors.New(body)` was emitted for each. -/
structure Refused {σ ρ : Type} (env : Env σ ρ) (body : Bytes) (payloads : List Bytes)
    (rs : List ρ) (st : SendState σ ρ) : Prop where
  made : List.Forall₂ (fun r d => ∃ s s1, env.compress d s = (.ok r, s1)) rs
    (payloads.filter (fun d => d.length ≠ 0))
  queue : st.retryBuffers = rs.map (fun r => { data := r, attempts := 1 })
  errs : st.errs = List.replicate rs.length (Error.new body)
  sent : st.sent = rs

/-- The state of a send task in whose record the payload `bad` has been sent
`n` times, with `k` exhaustion errors emitted and the retry queue `q`. -/
structure Tracked (bad : Bytes) (n k : Nat) (q : List (retryReq Bytes))
    (st : SendState Unit Bytes) : Prop where
  queue : st.retryBuffers = q
  sends : st.sent.count bad = n
  exhausted : st.errs.count Error.errTooManyRetry = k

/-! ## The batching task: `batchPoint`, `flushBuffer`, `bufferProc` -/

/-- What the batching task asks of the row builder of the LinDB libraries
(`series.RowBuilder`) and of the field writer of `api/fields.go`, which is not
among the sources. `B` is the type of builder states.

* `create` is the state of `series.CreateRowBuilder()`, which is also the state
  that `Reset()` leaves.
* `AddNameSpace`, `AddMetricName`, `AddTimestamp` are the methods of those names.
* `AddTag b key value` is `builder.AddTag(key, value)`: the new state, or the
  error.
* `writeField f b` is `f.write(builder)`: the new state, or the error.
* `Build b` is `builder.Build()`: the row, or the error. -/
structure RowBuilder (B : Type) where
  create : B
  AddNameSpace : B → String → B
  AddMetricName : B → String → B
  AddTimestamp : B → Int → B
  AddTag : B → String → String → Except Error B
  writeField : Field → B → Except Error B
  Build : B → Except Error Bytes

/-- A `[]byte` value that views the memory of the buffer `w.buf`: the first
`len` bytes of the array number `arr` of the store. -/
structure Slice where
  arr : Nat
  len : Nat
  deriving DecidableEq, Repr

/-- The bytes a slice shows in the store `store`. -/
def Slice.bytes (store : List Bytes) (s : Slice) : Bytes :=
  (store.getD s.arr []).take s.len

/-- The method `Reset` of `bytes.Buffer`: the length becomes 0 and the array is
kept. -/
def Buffer.Reset (buf : Slice) : Slice := { buf with len := 0 }

/-- The method `Write` of `bytes.Buffer` on a buffer that was never read from.
`store` lists the arrays allocated so far. When the array of the buffer has
room after its length, `p` is copied into that array; otherwise a new array is
allocated (64 bytes for a first small write, else at least twice the old
capacity), the contents are copied over, and the old array is left alone. The
runtime may round the capacity of a new array up to a size class; the new
array here has the least capacity it can get, and nothing below depends on how
much room a new array has. -/
def Buffer.Write (store : List Bytes) (buf : Slice) (p : Bytes) : List Bytes × Slice :=
  let a := store.getD buf.arr []
  if p.length ≤ a.length - buf.len then
    (store.set buf.arr (a.take buf.len ++ p ++ a.drop (buf.len + p.length)),
      { buf with len := buf.len + p.length })
  else
    let cap := if a.length = 0 ∧ p.length ≤ 64 then 64
      else max (buf.len + p.length) (2 * a.length)
    (store ++ [a.take buf.len ++ p ++ List.replicate (cap - (buf.len + p.length)) 0],
      { arr := store.length, len := buf.len + p.length })

/-- The method `Bytes` of `bytes.Buffer` on a buffer that was never read from:
the slice of the buffer itself, not a copy. -/
def Buffer.Bytes (buf : Slice) : Slice := buf

/-- A value sent over `w.sendCh`: the slice `data`, the bytes it showed when it
was sent, and the points whose rows it held then. -/
structure Handoff where
  data : Slice
  bytes : Bytes
  points : List Point
  deriving DecidableEq, Repr

/-- The fields of the struct `write` that the batching task owns, with what it
has sent out.

* `builder`, `batchedSize` are the fields of those names; `buf` is the buffer
  `w.buf`, whose memory is in `store`.
* `batch` lists the points whose rows were written to `w.buf` since the last
  flush.
* `sendCh` lists the values sent over `w.sendCh`, oldest first.
* `errs` lists the errors passed to `emitErr`, oldest first. -/
structure Batcher (B : Type) where
  builder : B
  store : List Bytes
  buf : Slice
  batchedSize : Int
  batch : List Point
  sendCh : List Handoff
  errs : List Error

variable {B : Type}

/-- The bytes that `w.buf` holds. -/
def Batcher.content (w : Batcher B) : Bytes := w.buf.bytes w.store

/-- The batching fields of the writer that `NewWrite` makes: a fresh builder and
an empty buffer without memory. -/
def newBatcher (rb : RowBuilder B) : Batcher B :=
  { builder := rb.create, store := [[]], buf := { arr := 0, len := 0 }, batchedSize := 0,
    batch := [], sendCh := [], errs := [] }

/-- The method `write.emitErr` as the batching task calls it. -/
def Batcher.emitErr (err : Error) (w : Batcher B) : Batcher B :=
  { w with errs := w.errs ++ [err] }

/-- The closure `addTag` of `batchPoint`, over the tags in the order the `range`
loop visits them. -/
def batchPoint.addTag (rb : RowBuilder B) : List (String × String) → B → Except Error B
  | [], b => .ok b
  | (k, v) :: rest, b =>
    match rb.AddTag b k v with
    | .error err => .error err
    | .ok b1 => batchPoint.addTag rb rest b1

/-- The loop of `batchPoint` over the fields of the point. -/
def batchPoint.writeFields (rb : RowBuilder B) : List Field → B → Except Error B
  | [], b => .ok b
  | f :: rest, b =>
    match rb.writeField f b with
    | .error err => .error err
    | .ok b1 => batchPoint.writeFields rb rest b1

/-- The part of `batchPoint` that builds the row of a point, from the builder
state `b`: the row, or the first error. -/
def batchPoint.row (rb : RowBuilder B) (opts : WriteOptions) (b : B) (point : Point) :
    Except Error Bytes :=
  let b1 := rb.AddNameSpace b point.namespace_
  let b2 := rb.AddMetricName b1 point.name
  let b3 := rb.AddTimestamp b2 point.timestamp
  match batchPoint.addTag rb (opts.DefaultTags.getD []) b3 with
  | .error err => .error err
  | .ok b4 =>
    match batchPoint.addTag rb point.tags b4 with
    | .error err => .error err
    | .ok b5 =>
      match batchPoint.writeFields rb point.fields b5 with
      | .error err => .error err
      | .ok b6 => rb.Build b6

/-- The method `write.batchPoint`: the error it returns and the fields it
leaves. The deferred `Reset` runs on every return after the nil check. -/
def write.batchPoint (rb : RowBuilder B) (opts : WriteOptions) (w : Batcher B)
    (point : Option Point) : Option Error × Batcher B :=
  match point with
  | none => (none, w)
  | some p =>
    match batchPoint.row rb opts w.builder p with
    | .error err => (some err, { w with builder := rb.create })
    | .ok data =>
      let r := Buffer.Write w.store w.buf data
      (none, { w with builder := rb.create, store := r.1, buf := r.2,
                      batchedSize := w.batchedSize + 1, batch := w.batch ++ [p] })

/-- The method `write.flushBuffer`. The send on `w.sendCh` completes when the
send task takes the value. -/
def write.flushBuffer (w : Batcher B) : Batcher B :=
  if w.batchedSize = 0 then w
  else
    let data := Buffer.Bytes w.buf
    { w with buf := Buffer.Reset w.buf, batchedSize := 0, batch := [],
             sendCh := w.sendCh ++
               [{ data := data, bytes := data.bytes w.store, points := w.batch }] }

/-- What the loop of `bufferProc` receives before the stop signal: a point from
`w.bufferCh` (nil when the channel is closed) or a tick of the flush timer. -/
inductive Event where
  | point (p : Option Point)
  | tick
  deriving DecidableEq, Repr

/-- The cases `point := <-w.bufferCh` and `<-ticker.C` of the loop of
`bufferProc`. -/
def bufferProc.onEvent (rb : RowBuilder B) (opts : WriteOptions) (w : Batcher B) :
    Event → Batcher B
  | .point p =>
    match write.batchPoint rb opts w p with
    | (some err, w1) => Batcher.emitErr err w1
    | (none, w1) => if w1.batchedSize >= opts.BatchSize then write.flushBuffer w1 else w1
  | .tick => write.flushBuffer w

/-- One round of the loop over the pending points in the case `<-w.stopBatchCh`
of `bufferProc`. -/
def bufferProc.drain (rb : RowBuilder B) (opts : WriteOptions) (w : Batcher B)
    (p : Option Point) : Batcher B :=
  match write.batchPoint rb opts w p with
  | (some err, w1) => Batcher.emitErr err w1
  | (none, w1) => w1

/-- The case `<-w.stopBatchCh` of the loop of `bufferProc`: `pending` are the
points still in `w.bufferCh`. -/
def bufferProc.onStop (rb : RowBuilder B) (opts : WriteOptions) (w : Batcher B)
    (pending : List (Option Point)) : Batcher B :=
  write.flushBuffer (pending.foldl (bufferProc.drain rb opts) w)

/-- The method `write.bufferProc`: `events` is what the loop receives before it
takes the stop signal, `pending` the points left in `w.bufferCh` then. The
result is the state with which the task returns. -/
def write.bufferProc (rb : RowBuilder B) (opts : WriteOptions) (events : List Event)
    (pending : List (Option Point)) (w : Batcher B) : Batcher B :=
  bufferProc.onStop rb opts (events.foldl (bufferProc.onEvent rb opts) w) pending

/-- The arrival of the points `points`, one after the other, with no tick in
between. -/
def arrivals (points : List Point) : List Event :=
  points.map (fun p => Event.point (some p))

/-- The rows of the points `points` one after the other, each built from a
fresh builder (a point whose row fails adds nothing). -/
def rows (rb : RowBuilder B) (opts : WriteOptions) (points : List Point) : Bytes :=
  (points.map (fun p =>
    match batchPoint.row rb opts rb.create p with
    | .ok data => data
    | .error _ => [])).flatten

/-- A stand-in for the row builder in the examples: builder states are the
bytes written so far, names and tags add their lengths, and a tag with an empty
key or value and a field with an empty name are rejected. -/
def lineBuilder : RowBuilder Bytes where
  create := []
  AddNameSpace := fun b s => b ++ [s.length]
  AddMetricName := fun b s => b ++ [s.length]
  AddTimestamp := fun b t => b ++ [t.toNat % 256]
  AddTag := fun b k v =>
    if k = "" ∨ v = "" then .error (Error.lib [1]) else .ok (b ++ [k.length, v.length])
  writeField := fun f b =>
    if f.name = "" then .error (Error.lib [2]) else .ok (b ++ [f.name.length])
  Build := fun b => .ok b

/-- A point for the examples: the metric `name` at the time `t`, one field. -/
def samplePoint (name : String) (t : Int) : Point :=
  { namespace_ := "ns", name := name, tags := [], timestamp := t, fields := [{ name := "f" }] }

/-- The default options with the batch size `n` and no gzip. -/
def batchOptions (n : Int) : WriteOptions :=
  (DefaultWriteOptions.SetBatchSize n).SetUseGZip false

/-- The state of the batching task between two steps of its loop: the buffer
points into the store, the builder is fresh, `batchedSize` counts the points of
the batch, the buffer holds their rows in order, and each of them had its row
built. -/
structure Good {B : Type} (rb : RowBuilder B) (opts : WriteOptions) (w : Batcher B) :
    Prop where
  arr : w.buf.arr < w.store.length
  len : w.buf.len ≤ (w.store.getD w.buf.arr []).length
  fresh : w.builder = rb.create
  count : w.batchedSize = w.batch.length
  content : w.content = rows rb opts w.batch
  built : ∀ p ∈ w.batch, ∃ data, batchPoint.row rb opts rb.create p = .ok data

/-- Every value sent over `w.sendCh` held at least one point, every one of its
points had its row built, and it showed the rows of its points when it was
sent. -/
def Sealed {B : Type} (rb : RowBuilder B) (opts : WriteOptions) (w : Batcher B) : Prop :=
  ∀ h ∈ w.sendCh, h.points ≠ [] ∧ h.bytes = rows rb opts h.points ∧
    ∀ p ∈ h.points, ∃ data, batchPoint.row rb opts rb.create p = .ok data

/-- A point for the examples whose tag has an empty value, as in the case
"wrong point tags" of `TestAddWrongPoint`. -/
def wrongPoint : Point :=
  { namespace_ := "ns", name := "cpu", tags := [("key", "")], timestamp := 5,
    fields := [{ name := "f" }] }

/-- The state of the batching task between two steps of its loop, as far as the
size of the batch goes: the count is the number of points of the batch, the
batch is below the batch size, and no payload sent so far held more points
than the batch size. -/
structure Bounded {B : Type} (opts : WriteOptions) (w : Batcher B) : Prop where
  count : w.batchedSize = w.batch.length
  below : (w.batch.length : Int) < opts.batchSize
  sent : ∀ h ∈ w.sendCh, (h.points.length : Int) ≤ opts.batchSize


/-! ## Chains of option setters -/

/-- One call of a setter of `WriteOptions`, with its arguments. -/
inductive Setter where
  | SetBatchSize (batchSize : Int)
  | SetFlushInterval (interval : Int)
  | SetUseGZip (useGZip : Bool)
  | AddDefaultTag (key value : String)
  | SetMaxRetries (maxRetries : Int)
  | SetRetryBufferLimit (retryBufferLimit : Int)
  deriving DecidableEq, Repr

/-- The options after one setter call on `opt`. -/
def WriteOptions.call (opt : WriteOptions) : Setter → WriteOptions
  | .SetBatchSize batchSize => opt.SetBatchSize batchSize
  | .SetFlushInterval interval => opt.SetFlushInterval interval
  | .SetUseGZip useGZip => opt.SetUseGZip useGZip
  | .AddDefaultTag key value => opt.AddDefaultTag key value
  | .SetMaxRetries maxRetries => opt.SetMaxRetries maxRetries
  | .SetRetryBufferLimit retryBufferLimit => opt.SetRetryBufferLimit retryBufferLimit

/-- The options after a chain of setter calls, first call first, as in
`opt.SetUseGZip(false).SetBatchSize(2000)`. -/
def WriteOptions.chain (opt : WriteOptions) (calls : List Setter) : WriteOptions :=
  calls.foldl WriteOptions.call opt

/-- The value that the last call of `calls` selected by `pick` carries, if
there is such a call. -/
def lastSet {α : Type} (pick : Setter → Option α) (calls : List Setter) : Option α :=
  calls.foldl (fun acc c => match pick c with
    | some v => some v
    | none => acc) none

/-- The argument of a `SetBatchSize` call. -/
def Setter.batchSize : Setter → Option Int
  | .SetBatchSize batchSize => some batchSize
  | _ => none

/-- The argument of a `SetFlushInterval` call. -/
def Setter.flushInterval : Setter → Option Int
  | .SetFlushInterval interval => some interval
  | _ => none

/-- The argument of a `SetUseGZip` call. -/
def Setter.useGZip : Setter → Option Bool
  | .SetUseGZip useGZip => some useGZip
  | _ => none

/-- The argument of a `SetMaxRetries` call. -/
def Setter.maxRetries : Setter → Option Int
  | .SetMaxRetries maxRetries => some maxRetries
  | _ => none

/-- The argument of a `SetRetryBufferLimit` call. -/
def Setter.retryBufferLimit : Setter → Option Int
  | .SetRetryBufferLimit retryBufferLimit => some retryBufferLimit
  | _ => none

/-- The value of an `AddDefaultTag` call for the key `key`. -/
def Setter.tag (key : String) : Setter → Option String
  | .AddDefaultTag k value => if k = key then some value else none
  | _ => none

/-- The map read `m[key]` on a Go map kept as an association list. -/
def mapLookup (m : List (String × String)) (key : String) : Option String :=
  (m.find? (fun e => e.1 = key)).map (fun e => e.2)

/-- The read `opt.DefaultTags()[key]`; a nil map has no entry. -/
def WriteOptions.tag (opt : WriteOptions) (key : String) : Option String :=
  match opt.DefaultTags with
  | none => none
  | some m => mapLookup m key

/-- The keys of a Go map kept as an association list are pairwise distinct. -/
def mapKeysDistinct (m : Option (List (String × String))) : Prop :=
  match m with
  | none => True
  | some m => (m.map (fun e => e.1)).Nodup


/-! ## The states of the send task -/

/-- The states that the variables of the send task go through when it starts
with the collaborators in the state `world`: the state at the start, the state
after each call of the closure `send` (whatever the payload), and the state
after each iteration of the loop of `sendRetryReq` (the first `k` entries of
`messages` done), for either value of `needRetry`. -/
inductive sendProc.Reaches (env : Env σ ρ) (opts : WriteOptions) (world : σ) :
    SendState σ ρ → Prop where
  | start : sendProc.Reaches env opts world
      { retryBuffers := [], errs := [], sent := [], world := world }
  | send (st : SendState σ ρ) (data : Bytes) :
      sendProc.Reaches env opts world st →
      sendProc.Reaches env opts world (sendProc.send env opts data st).2
  | redrive (st : SendState σ ρ) (needRetry : Bool) (k : Nat) :
      sendProc.Reaches env opts world st →
      sendProc.Reaches env opts world
        ((st.retryBuffers.take k).foldl (sendProc.sendRetryReq.body env opts needRetry)
          { st with retryBuffers := [] })


/-! ## Request bodies as `bytes.Buffer` readers -/

/-- The memory behind the request bodies of the writer. A request body is a
`*bytes.Buffer`, kept as its number in `buffers`.

* `buffers` holds the unread bytes of every `bytes.Buffer` made so far; the
  buffer number 0 is `w.gzipBuf`.
* `requests` lists, oldest first, the body that each request carried: the
  unread bytes of its reader at the time `w.send` made the request. -/
structure Readers where
  buffers : List Bytes
  requests : List Bytes
  deriving DecidableEq, Repr

/-- The memory of a new writer: `w.gzipBuf` is empty, no request was made. -/
def Readers.start : Readers := { buffers := [[]], requests := [] }

/-- A transport and a server: for the request number `i` (from 0) with the
body `body`, the number of bytes that are read from the body before the
request ends, and how it ends. -/
abbrev Transport := Nat → Bytes → Nat × Except Error Response

/-- The collaborators of the send task with request bodies kept as readers.

* `Do r s` makes the request whose body is the buffer `r`: the request
  carries the unread bytes of `r`, and the bytes that the transport reads are
  gone from `r` afterwards.
* `compress data s` with a gzip writer (`gzip` is the compression function)
  appends the stream of `data` to `w.gzipBuf` and returns that buffer; without
  one it returns a new buffer over `data`. -/
def buffered (gzip : Option (Bytes → Bytes)) (transport : Transport) : Env Readers Nat where
  Do := fun r s =>
    let body := s.buffers.getD r []
    let out := transport s.requests.length body
    (out.2, { buffers := s.buffers.set r (body.drop out.1), requests := s.requests ++ [body] })
  compress := fun data s =>
    match gzip with
    | some gz => (.ok 0, { s with buffers := s.buffers.set 0 (s.buffers.getD 0 [] ++ gz data) })
    | none => (.ok s.buffers.length, { s with buffers := s.buffers ++ [data] })

/-- A server that reads every request body to its end and answers the request
number `i` with the status `codes[i]`, or 200 past the end of `codes`. -/
def readsAll (codes : List Int) : Transport :=
  fun i body => (body.length, .ok { StatusCode := codes.getD i 200, Body := [], readErr := none })

/-- A server that reads every request body to its end and answers every
request with the status `code` and the body `body`. -/
def answersAll (code : Int) (body : Bytes) : Transport :=
  fun _ request =>
    (request.length, .ok { StatusCode := code, Body := body, readErr := none })

/-- A broker that cannot be reached for the first `failures` requests (nothing
is read from their bodies) and that reads and accepts every later request. -/
def unreachable (failures : Nat) : Transport :=
  fun i body =>
    if i < failures then (0, .error (Error.lib [100, 105, 97, 108]))
    else (body.length, .ok { StatusCode := 200, Body := [], readErr := none })

/-- A stand-in for the gzip writer in the examples: the stream of `data` is
`data` behind the two marker bytes 31 and 139. -/
def marked (data : Bytes) : Bytes := 31 :: 139 :: data

end api

namespace config

/-- The struct `ClientConfig` (`config/config.go`). -/
structure ClientConfig where
  BrokerURL : String
  SyncAddressInterval : Int
  SyncAddressTimeout : Int
  DialTimeout : Int
  RetryLimit : Int
  BufferSize : Int
  DatabaseLimit : Int
  deriving DecidableEq, Repr

/-- The function `NewDefaultConfig`. -/
def NewDefaultConfig : ClientConfig where
  BrokerURL := ""
  SyncAddressInterval := 60
  SyncAddressTimeout := 5
  DialTimeout := 1
  RetryLimit := 2
  BufferSize := 1024
  DatabaseLimit := 30

/-- The struct `models.Node` of the LinDB libraries, with the members
`BuildAddress` reads. -/
structure Node where
  IP : String
  TCPPort : Int
  deriving DecidableEq, Repr

/-! ## Data model of `config/address.go` -/

/-- The errors of package `config`. -/
inductive Error where
  /-- The package variable `errNoAvailableNode`. -/
  | errNoAvailableNode
  /-- The value of `fmt.Errorf(...)` with the formatted text `text`. -/
  | errorf (text : String)
  /-- An error raised by a library call (HTTP client, body read, JSON or TOML
  decoder). -/
  | lib (text : String)
  deriving DecidableEq, Repr

/-- The method `Error()` of an error value: its message. -/
def Error.Error : Error → String
  | .errNoAvailableNode => "no available node"
  | .errorf text => text
  | .lib text => text

/-- The struct `addressManager`: `nodes` are the latest updated nodes. -/
structure addressManager where
  clientConfig : ClientConfig
  url : String
  nodes : List Node
  deriving DecidableEq, Repr

/-- The call `m.rand.Intn(n)` for `n > 0`, when the random source yields
`draw`: a number from 0 up to `n - 1`. -/
def Intn (draw n : Nat) : Nat := draw % n

/-- The method `addressManager.BrokerAddressList`: a copy of the list. -/
def addressManager.BrokerAddressList (m : addressManager) : List Node :=
  [] ++ m.nodes

/-- The method `addressManager.RandomNext`, when the random source yields
`draw`: the node (`none` is nil) and the error (`none` is nil). -/
def addressManager.RandomNext (m : addressManager) (draw : Nat) :
    Option Node × Option Error :=
  let nodesNum := m.nodes.length
  if nodesNum = 0 then (none, some Error.errNoAvailableNode)
  else
    let index := Intn draw nodesNum
    (m.nodes[index]?, none)


/-! ## The discovery poll: `syncBrokerAddressList` -/

/-- The struct `models.ActiveNode` of the LinDB libraries: a node descriptor,
which embeds a `Node` next to the time the node came online. -/
structure ActiveNode where
  OnlineTime : Int
  Node : Node
  deriving DecidableEq, Repr

/-- What a discovery poll works with.

* `Get url` is `m.httpClient.Get(url)` followed by `ioutil.ReadAll(resp.Body)`:
  the error of the request, or else the error of the read or the bytes of the
  body.
* `Unmarshal body` is `json.Unmarshal(body, &activeNodes)` on the nil slice
  `activeNodes`: the error, or the decoded slice.
* `loopVarPerIteration` is the semantics of the language version that builds
  the package: from Go 1.22 on every iteration of a `for` loop has its own
  copy of the loop variables, before they are one variable per loop. -/
structure Poll where
  Get : String → Except Error (Except Error Bytes)
  Unmarshal : Bytes → Except Error (List ActiveNode)
  loopVarPerIteration : Bool

/-- The loop `for index, node := range activeNodes { list[index] = &node.Node }`.
`cells` are the instances of the loop variable `node` with their current
values, and `list` holds for every index filled so far the number of the cell
whose member `Node` the entry points to. -/
def syncBrokerAddressList.loop (perIteration : Bool) :
    List ActiveNode → List ActiveNode × List Nat → List ActiveNode × List Nat
  | [], st => st
  | node :: rest, (cells, list) =>
    if perIteration then
      syncBrokerAddressList.loop perIteration rest (cells ++ [node], list ++ [cells.length])
    else
      syncBrokerAddressList.loop perIteration rest ([node], list ++ [0])

/-- The nodes that the pointers of `list` show, read in the memory `cells`. -/
def syncBrokerAddressList.deref (st : List ActiveNode × List Nat) : List Node :=
  st.2.filterMap (fun i => st.1[i]?.map (fun cell => cell.Node))

/-- The method `addressManager.syncBrokerAddressList`. It returns nothing; the
result is the manager it leaves. The entries of `m.nodes` are pointers, kept
here as the nodes they show once the loop is over (nothing writes to the loop
variables after that). -/
def addressManager.syncBrokerAddressList (poll : Poll) (m : addressManager) :
    addressManager :=
  match poll.Get m.url with
  | .error _ => m
  | .ok (.error _) => m
  | .ok (.ok body) =>
    match poll.Unmarshal body with
    | .error _ => m
    | .ok activeNodes =>
      if activeNodes.length = 0 then m
      else
        let st := syncBrokerAddressList.loop poll.loopVarPerIteration activeNodes ([], [])
        { m with nodes := syncBrokerAddressList.deref st }

/-- A poll for the examples: the endpoint answers with `result`. The language
version is one before Go 1.22 unless `perIteration` is set. -/
def answers (result : Except Error (List ActiveNode)) (perIteration : Bool) : Poll where
  Get := fun _ => .ok (.ok [])
  Unmarshal := fun _ => result
  loopVarPerIteration := perIteration

/-- A node descriptor for the examples. -/
def activeNode (ip : String) (port : Int) : ActiveNode :=
  { OnlineTime := 0, Node := { IP := ip, TCPPort := port } }


/-! ## Loading the configuration: `LoadConfig` -/

/-- The keys that a configuration file sets: `none` for a key that the file
does not hold. -/
structure TomlFile where
  brokerURL : Option String
  syncAddressInterval : Option Int
  syncAddressTimeout : Option Int
  dialTimeout : Option Int
  retryLimit : Option Int
  bufferSize : Option Int
  databaseLimit : Option Int
  deriving DecidableEq, Repr

/-- The function `fileutil.DecodeToml` of the LinDB libraries on a file that
decodes to the keys `file`: the TOML decoder assigns the members of `v` whose
key the file holds and leaves the others as they are. -/
def DecodeToml (file : TomlFile) (v : ClientConfig) : ClientConfig where
  BrokerURL := file.brokerURL.getD v.BrokerURL
  SyncAddressInterval := file.syncAddressInterval.getD v.SyncAddressInterval
  SyncAddressTimeout := file.syncAddressTimeout.getD v.SyncAddressTimeout
  DialTimeout := file.dialTimeout.getD v.DialTimeout
  RetryLimit := file.retryLimit.getD v.RetryLimit
  BufferSize := file.bufferSize.getD v.BufferSize
  DatabaseLimit := file.databaseLimit.getD v.DatabaseLimit

/-- The function `LoadConfig`. `files path` is what the file system holds at
`path`: `none` when `fileutil.Exist(path)` is false, the decoder's error when
the file cannot be decoded, the keys of the file otherwise. The result is the
configuration (`none` is nil) and the error (`none` is nil). -/
def LoadConfig (files : String → Option (Except Error TomlFile)) (path : String) :
    Option ClientConfig × Option Error :=
  match files path with
  | none => (none, some (Error.errorf ("config path:" ++ path ++ " not exists")))
  | some decoded =>
    let clientConfig := NewDefaultConfig
    match decoded with
    | .error err =>
      (none, some (Error.errorf ("load config from path:" ++ path ++ " err:" ++ err.Error)))
    | .ok file =>
      let clientConfig := DecodeToml file clientConfig
      if clientConfig.BrokerURL = "" then
        (none, some (Error.errorf "broker url is not provided"))
      else (some clientConfig, none)

/-- The file that `EncodeToml` writes for a configuration: every key is
present, with the value of the member. -/
def EncodeToml (c : ClientConfig) : TomlFile where
  brokerURL := some c.BrokerURL
  syncAddressInterval := some c.SyncAddressInterval
  syncAddressTimeout := some c.SyncAddressTimeout
  dialTimeout := some c.DialTimeout
  retryLimit := some c.RetryLimit
  bufferSize := some c.BufferSize
  databaseLimit := some c.DatabaseLimit

/-- A file system for the examples: `file` at the path `cfg.toml`, a file that
does not decode at `bad.toml`, nothing elsewhere. -/
def oneFile (file : TomlFile) (path : String) : Option (Except Error TomlFile) :=
  if path = "cfg.toml" then some (.ok file)
  else if path = "bad.toml" then some (.error (Error.lib "toml: bad syntax"))
  else none

end config

namespace client

/-! ## Data model of `client/buffer.go` and `client/client.go` -/

/-- The errors of package `client`. -/
inductive Error where
  /-- The package variable `errBufferFull`. -/
  | errBufferFull
  /-- The package variable `errClientClosed`. -/
  | errClientClosed
  /-- The package variable `errTooManyDatabases`. -/
  | errTooManyDatabases
  /-- An error raised by a library call (the protobuf encoder). -/
  | lib (text : Bytes)
  /-- The value of `fmt.Errorf(...)` with the formatted text `text`. -/
  | errorf (text : String)
  deriving DecidableEq, Repr

/-- The message `field.Field` of the LinDB protocol; the client only counts the
fields of a metric. -/
structure Field where
  Name : String
  deriving DecidableEq, Repr

/-- The message `field.Metric` of the LinDB protocol, with the members the
client reads or writes. -/
structure Metric where
  Name : String
  Timestamp : Int
  Tags : List (String × String)
  Fields : List Field
  deriving DecidableEq, Repr

/-- The message `field.MetricList`. Its metrics are pointers: `none` is nil. -/
structure MetricList where
  Database : String
  Metrics : List (Option Metric)
  deriving DecidableEq, Repr

/-- The struct `buffer`: `ch` holds the queued pointers, oldest first, and
`cap` is the capacity the channel was made with. -/
structure buffer where
  database : String
  ch : List (Option Metric)
  cap : Nat
  deriving DecidableEq, Repr

/-- The function `NewBuffer`. Making a channel with a negative size panics,
which is `none` here. -/
def NewBuffer (database : String) (size : Int) : Option buffer :=
  if size < 0 then none else some { database := database, ch := [], cap := size.toNat }

/-- The method `buffer.In`. The channel send of the `select` is ready when the
queue has room. The `default` case builds its log line from `metric.Name`, so
it dereferences the pointer before it returns `errBufferFull`. -/
def buffer.In (b : buffer) (metric : Option Metric) : Outcome (Option Error × buffer) :=
  if b.ch.length < b.cap then
    .returned (none, { b with ch := b.ch ++ [metric] })
  else
    match metric with
    | none => .panicked
    | some _ => .returned (some Error.errBufferFull, b)

/-- The loop of `buffer.Out`: `batch` is the slice built so far and `ch` the
queue of the channel; the `default` case is taken when the queue is empty. -/
def buffer.Out.loop (batch : List (Option Metric)) :
    List (Option Metric) → List (Option Metric) × List (Option Metric)
  | [] => (batch, [])
  | metric :: ch => buffer.Out.loop (batch ++ [metric]) ch

/-- The method `buffer.Out`: the batch and the buffer it leaves. -/
def buffer.Out (b : buffer) : List (Option Metric) × buffer :=
  let r := buffer.Out.loop [] b.ch
  (r.1, { b with ch := r.2 })

/-- The conversion `int32(n)` of a Go `int`: the value modulo 2^32, read as a
signed 32-bit number. -/
def int32 (n : Int) : Int := (n + 2 ^ 31) % 2 ^ 32 - 2 ^ 31

/-- The protobuf encoder and the slice writer of the LinDB libraries, which
`client.flush` calls.

* `Size ml` is `metricList.Size()`.
* `PutInt32 dst v` is `stream.NewSliceWriter(dst).PutInt32(v)`: the slice
  `dst` after the write.
* `MarshalTo ml dst` is `metricList.MarshalTo(dst)`: the slice `dst` after the
  call, or the error. -/
structure Wire where
  Size : MetricList → Nat
  PutInt32 : Bytes → Int → Bytes
  MarshalTo : MetricList → Bytes → Except Error Bytes

/-- The struct `client`. `S` is the state of its sender.

* `closed` is the close mark (a `uint32`).
* `bufferMap` lists the entries of the `sync.Map`, in the order `Range` visits
  them.
* `locker4map` says whether the mutex of that name is held. -/
structure client (S : Type) where
  closed : Nat
  clientConfig : config.ClientConfig
  sender : S
  bufferMap : List (String × buffer)
  locker4map : Bool
  databaseNum : Int

variable {S : Type}

/-- The call `c.bufferMap.Load(database)`. -/
def client.load (c : client S) (database : String) : Option buffer :=
  (c.bufferMap.find? (fun e => e.1 = database)).map Prod.snd

/-- The buffered metrics of `database`, oldest first (none when the client has
no buffer for it). -/
def client.queued (c : client S) (database : String) : List (Option Metric) :=
  match c.load database with
  | some b => b.ch
  | none => []

/-- The effect of a method of the buffer of `database` on the map: the map
holds a pointer to the buffer, so the entry changes with it. -/
def client.store (c : client S) (database : String) (b : buffer) : client S :=
  if (c.load database).isSome then
    { c with bufferMap := c.bufferMap.map (fun e => if e.1 = database then (e.1, b) else e) }
  else
    { c with bufferMap := c.bufferMap ++ [(database, b)] }

/-- The method `client.write`. `now` is the value of `timeutil.Now()`. -/
def client.write (b : buffer) (now : Int) (metric : Option Metric) :
    Outcome (Option Error × buffer) :=
  match metric with
  | none => .returned (none, b)
  | some m =>
    if m.Name = "" then .returned (none, b)
    else if m.Fields.length = 0 then .returned (none, b)
    else
      let m1 := if m.Timestamp = 0 then { m with Timestamp := now } else m
      buffer.In b (some m1)

/-- The loop over `metricList.Metrics` in `WriteList`: the result of the call
and the buffer it leaves. `now i` is the clock when the metric at offset `i`
is written. -/
def client.WriteList.loop (now : Nat → Int) :
    Nat → buffer → List (Option Metric) → Outcome (Option Error) × buffer
  | _, b, [] => (.returned none, b)
  | i, b, metric :: rest =>
    match client.write b (now i) metric with
    | .returned (none, b1) => client.WriteList.loop now (i + 1) b1 rest
    | .returned (some err, b1) => (.returned (some err), b1)
    | .panicked => (.panicked, b)
    | .blocked => (.blocked, b)

/-- The method `client.WriteList`: how the call ends and the client it leaves.
A nil list is `none`. -/
def client.WriteList (c : client S) (now : Nat → Int) (metricList : Option MetricList) :
    Outcome (Option Error) × client S :=
  if c.closed = 1 then (.returned (some Error.errClientClosed), c)
  else
    match metricList with
    | none => (.returned none, c)
    | some ml =>
      if ml.Metrics.length = 0 then (.returned none, c)
      else
        match c.load ml.Database with
        | some b =>
          let r := client.WriteList.loop now 0 b ml.Metrics
          (r.1, c.store ml.Database r.2)
        | none =>
          -- double check, under the lock
          if c.locker4map then (.blocked, c)
          else if c.databaseNum > c.clientConfig.DatabaseLimit then
            (.returned (some Error.errTooManyDatabases), { c with locker4map := true })
          else
            match NewBuffer ml.Database c.clientConfig.BufferSize with
            | none => (.panicked, { c with locker4map := true })
            | some b =>
              let r := client.WriteList.loop now 0 b ml.Metrics
              (r.1, c.store ml.Database r.2)

/-- The method `client.Write`. -/
def client.Write (c : client S) (now : Nat → Int) (database : String)
    (metric : Option Metric) : Outcome (Option Error) × client S :=
  c.WriteList now (some { Database := database, Metrics := [metric] })

/-- The callback that `client.flush` passes to `bufferMap.Range`, for the entry
`e`: the count so far, the sender and the buffer of the entry after it.
`send` is the method `Sender.Send`. -/
def client.flush.visit (wire : Wire) (send : S → Bytes → S)
    (acc : Int × S) (e : String × buffer) : (Int × S) × (String × buffer) :=
  let out := buffer.Out e.2
  let metrics := out.1
  let size := metrics.length
  if size = 0 then (acc, (e.1, out.2))
  else
    let count := acc.1 + size
    let metricList : MetricList := { Database := e.1, Metrics := metrics }
    let metricListSizeInBytes := wire.Size metricList
    let head := wire.PutInt32 (List.replicate 4 0) (int32 metricListSizeInBytes)
    match wire.MarshalTo metricList (List.replicate metricListSizeInBytes 0) with
    | .error _ => ((count, acc.2), (e.1, out.2))
    | .ok body => ((count, send acc.2 (head ++ body)), (e.1, out.2))

/-- The traversal `bufferMap.Range` of `client.flush` over the entries `es`. -/
def client.flush.range (wire : Wire) (send : S → Bytes → S) :
    Int × S → List (String × buffer) → (Int × S) × List (String × buffer)
  | acc, [] => (acc, [])
  | acc, e :: es =>
    let r := client.flush.visit wire send acc e
    let rs := client.flush.range wire send r.1 es
    (rs.1, r.2 :: rs.2)

/-- The method `client.flush`: the count it returns and the client it leaves. -/
def client.flush (wire : Wire) (send : S → Bytes → S) (c : client S) : Int × client S :=
  let r := client.flush.range wire send (0, c.sender) c.bufferMap
  (r.1.1, { c with sender := r.1.2, bufferMap := r.2 })

/-- The method `client.Close`: the error it returns (always nil) and the
client it leaves. -/
def client.Close (wire : Wire) (send : S → Bytes → S) (c : client S) :
    Option Error × client S :=
  let c1 := { c with closed := 1 }
  (none, (client.flush wire send c1).2)

/-- A call on the client after construction. -/
inductive Call where
  | WriteList (now : Nat → Int) (metricList : Option MetricList)
  | Write (now : Nat → Int) (database : String) (metric : Option Metric)

/-- One call on the client: how it ends and the client it leaves. -/
def client.call (c : client S) : Call → Outcome (Option Error) × client S
  | .WriteList now metricList => c.WriteList now metricList
  | .Write now database metric => c.Write now database metric

/-- A sequence of calls, one after the other: the results in order and the
client left at the end. -/
def client.calls : client S → List Call → List (Outcome (Option Error)) × client S
  | c, [] => ([], c)
  | c, k :: ks =>
    let r := c.call k
    let rs := client.calls r.2 ks
    (r.1 :: rs.1, rs.2)

/-- The calls `In(m)` for the metrics `m` of `metrics` in order, as the loops
of `TestBuffer_Out` make them, up to the first call that does not return
nil. -/
def buffer.fill : buffer → List (Option Metric) → Outcome (Option Error × buffer)
  | b, [] => .returned (none, b)
  | b, metric :: rest =>
    match b.In metric with
    | .returned (none, b1) => buffer.fill b1 rest
    | other => other

/-- The rounds of `TestBuffer_Out`: each round puts its metrics into the buffer
with `In` and takes the batch out with `Out`. The result lists the batches in
order, with the buffer left at the end; it is `none` when an `In` does not
return nil. -/
def buffer.rounds : buffer → List (List (Option Metric)) →
    Option (List (List (Option Metric)) × buffer)
  | b, [] => some ([], b)
  | b, metrics :: rest =>
    match b.fill metrics with
    | .returned (none, b1) =>
      match buffer.rounds b1.Out.2 rest with
      | some (batches, b2) => some (b1.Out.1 :: batches, b2)
      | none => none
    | _ => none

/-- The metrics that `client.write` drops without an error: a nil pointer, an
empty name, or no field. -/
def dropped : Option Metric → Bool
  | none => true
  | some m => m.Name = "" || m.Fields.length = 0

/-- A metric for the examples: the name `name`, one field, a set timestamp. -/
def sample (name : String) : Metric :=
  { Name := name, Timestamp := 1, Tags := [], Fields := [{ Name := "f" }] }

/-- The function `newClient`, with the sender it builds given as `sender`: the
client starts open, with no buffer, and its `databaseNum` is zero. -/
def newClient (c : config.ClientConfig) (sender : S) : client S :=
  { closed := 0, clientConfig := c, sender := sender, bufferMap := [], locker4map := false,
    databaseNum := 0 }

/-- The default configuration with the broker URL `url` and the database limit
`limit`. -/
def limitedConfig (url : String) (limit : Int) : config.ClientConfig :=
  { config.NewDefaultConfig with BrokerURL := url, DatabaseLimit := limit }

/-- A write of one sample metric to `database`, at clock value 1. -/
def sampleWrite (database : String) : Call :=
  .Write (fun _ => 1) database (some (sample "cpu"))

/-! ## Data model of `client/sender.go` -/

/-- What the sender's collaborators do. `σ` is the state of the network and of
the address manager, `C` the type of connections (`net.Conn` values).

* `RandomNext s` is `s.manager.RandomNext()`: the node, or `none` for an error.
* `Dial node s` is `dialer.Dial("tcp", BuildAddress(node))`: the connection, or
  `none` for an error.
* `Write conn data s` is `conn.Write(data)`: whether its error is nil.
* `Close conn s` is `conn.Close()`, whose error is only logged. -/
structure Network (σ C : Type) where
  RandomNext : σ → Option config.Node × σ
  Dial : config.Node → σ → Option C × σ
  Write : C → Bytes → σ → Bool × σ
  Close : C → σ → σ

/-- What a sender does on the network: a call of `connect` with the connection
it made (`none` when it made none), a call of `conn.Write` with its connection,
its data and whether it succeeded, or a call of `conn.Close`. -/
inductive NetEvent (C : Type) where
  | connect (conn : Option C)
  | write (conn : C) (data : Bytes) (ok : Bool)
  | close (conn : C)
  deriving DecidableEq, Repr

/-- The struct `sender`. The address manager is part of `world`; `events`
lists what the sender did on the network, oldest first. -/
structure sender (σ C : Type) where
  conn : Option C
  retryLimit : Int
  dialTimeout : Int
  world : σ
  events : List (NetEvent C)

variable {σ C : Type}

/-- The method `sender.closeConn`. -/
def sender.closeConn (net : Network σ C) (s : sender σ C) : sender σ C :=
  match s.conn with
  | none => s
  | some c =>
    { s with conn := none, world := net.Close c s.world, events := s.events ++ [.close c] }

/-- The method `sender.connect`. -/
def sender.connect (net : Network σ C) (s : sender σ C) : sender σ C :=
  match net.RandomNext s.world with
  | (none, w) => { s with world := w, events := s.events ++ [.connect none] }
  | (some node, w) =>
    match net.Dial node w with
    | (none, w1) => { s with world := w1, events := s.events ++ [.connect none] }
    | (some conn, w1) =>
      { s with conn := some conn, world := w1, events := s.events ++ [.connect (some conn)] }

/-- The loop of `sender.Send` with `n` iterations left (`retryLimit - i`): the
number of iterations it runs and the sender it leaves. -/
def sender.Send.loop (net : Network σ C) (data : Bytes) : Nat → sender σ C → Nat × sender σ C
  | 0, s => (0, s)
  | n + 1, s =>
    match s.conn with
    | none =>
      -- connect, then `continue`
      let r := sender.Send.loop net data n (sender.connect net s)
      (r.1 + 1, r.2)
    | some c =>
      match net.Write c data s.world with
      | (false, w) =>
        -- the error is logged, the connection replaced, and the loop left by `break`
        (1, sender.connect net (sender.closeConn net
          { s with world := w, events := s.events ++ [.write c data false] }))
      | (true, w) =>
        (1, { s with world := w, events := s.events ++ [.write c data true] })

/-- The method `sender.Send`. -/
def sender.Send (net : Network σ C) (s : sender σ C) (data : Bytes) : sender σ C :=
  (sender.Send.loop net data s.retryLimit.toNat s).2

/-- The number of loop iterations that `sender.Send` runs. -/
def sender.Send.iterations (net : Network σ C) (s : sender σ C) (data : Bytes) : Nat :=
  (sender.Send.loop net data s.retryLimit.toNat s).1

/-- The function `NewSender`, with the address manager inside `world`. -/
def NewSender (net : Network σ C) (clientConfig : config.ClientConfig) (world : σ) :
    sender σ C :=
  sender.connect net
    { conn := none, retryLimit := clientConfig.RetryLimit,
      dialTimeout := clientConfig.DialTimeout, world := world, events := [] }

/-- The writes among the events `es`. -/
def writes (es : List (NetEvent C)) : List (NetEvent C) :=
  es.filter (fun e => match e with
    | .write _ _ _ => true
    | _ => false)

/-- A network for the examples: connections are numbers, every dial yields the
connection 1, and writes fail on the connection 0 only. -/
def staleNet : Network Unit Nat where
  RandomNext := fun s => (some { IP := "10.0.0.1", TCPPort := 9000 }, s)
  Dial := fun _ s => (some 1, s)
  Write := fun c _ s => (decide (c ≠ 0), s)
  Close := fun _ s => s

/-- A sender for the examples, connected over the connection 0. -/
def staleSender (retryLimit : Int) : sender Unit Nat :=
  { conn := some 0, retryLimit := retryLimit, dialTimeout := 1, world := (), events := [] }

/-- The network events of one loop iteration of `Send`: a connect attempt, a
successful write, or a failed write followed by the close of the connection
and a connect attempt. -/
def isIteration (data : Bytes) (es : List (NetEvent C)) : Prop :=
  (∃ r, es = [.connect r]) ∨ (∃ c, es = [.write c data true]) ∨
    ∃ c r, es = [.write c data false, .close c, .connect r]


/-! ## The frames of `client.flush` -/

/-- A sender that keeps the frames handed to `Send`, oldest first. -/
def recordSend (frames : List Bytes) (data : Bytes) : List Bytes := frames ++ [data]

/-- The four bytes of the 32-bit number `v`, least significant byte first. -/
def littleEndian32 (v : Int) : Bytes :=
  let u := (v % 2 ^ 32).toNat
  [u % 256, u / 256 % 256, u / 65536 % 256, u / 16777216 % 256]

/-- A wire for the examples: a list serializes to `size` bytes, all of them 7,
and `PutInt32` writes a number in little-endian order. -/
def sampleWire (size : MetricList → Nat) : Wire where
  Size := size
  PutInt32 := fun dst v => (littleEndian32 v).take dst.length ++ dst.drop 4
  MarshalTo := fun _ dst => .ok (List.replicate dst.length 7)

/-- The frame that the specification describes for the entry `e` of the buffer
map: none for an empty buffer or a list that fails to serialize, otherwise the
four bytes that `PutInt32` writes for the number `S` of serialized bytes,
followed by these `S` bytes. -/
def specFrame (wire : Wire) (e : String × buffer) : Option Bytes :=
  if e.2.ch = [] then none
  else
    let metricList : MetricList := { Database := e.1, Metrics := e.2.ch }
    match wire.MarshalTo metricList (List.replicate (wire.Size metricList) 0) with
    | .error _ => none
    | .ok body => some (wire.PutInt32 (List.replicate 4 0) (wire.Size metricList) ++ body)

/-- A client for the examples with one database, `db`, whose buffer holds the
metrics `metrics`; its sender has recorded nothing yet. -/
def oneDatabase (metrics : List (Option Metric)) : client (List Bytes) :=
  { newClient (limitedConfig "http://127.0.0.1:9000" 30) [] with
    bufferMap := [("db", { database := "db", ch := metrics, cap := 1024 })] }


/-- The function `NewClient`, with the sender that `newClient` builds given as
`sender`: the client (`none` is nil) and the error (`none` is nil). -/
def NewClient (brokerURL : String) (sender : S) : Option (client S) × Option Error :=
  if brokerURL = "" then (none, some (Error.errorf "broker url is not provided"))
  else
    let c := { config.NewDefaultConfig with BrokerURL := brokerURL }
    (some (newClient c sender), none)

end client

namespace http

/-! ## Data model of `internal/http/client.go` -/

/-- Go `error` values seen by `DoPut`. -/
inductive Error where
  /-- The value of `errors.New(string(b))`. -/
  | new (text : Bytes)
  /-- An error raised by a library call (request construction, transport,
  gzip reader, body read). -/
  | lib (text : Bytes)
  deriving DecidableEq, Repr

/-- The method `Error()` of an error value: its message. -/
def Error.Error : Error → Bytes
  | .new text => text
  | .lib text => text

/-- An HTTP response as `DoPut` reads it: the status code, the value of the
header `Content-Encoding`, and the body, a reader of type `R`. -/
structure Response (R : Type) where
  StatusCode : Int
  ContentEncoding : String
  Body : R

/-- What `DoPut` calls. `Q` is the type of requests and `R` the type of body
readers.

* `newRequestFn endpoint body` is the package variable of that name, called
  with the method PUT and a buffer over `body`.
* `Do req` is `cli.Do(req)`, for the request with the three headers set.
* `readAllFn` and `newGzipReaderFn` are the package variables of these names. -/
structure Client (Q R : Type) where
  newRequestFn : String → Bytes → Except Error Q
  Do : Q → Except Error (Response R)
  readAllFn : R → Except Error Bytes
  newGzipReaderFn : R → Except Error R

/-- The function `DoPut`: the data (`none` is nil) and the error (`none` is
nil). -/
def DoPut {Q R : Type} (cli : Client Q R) (endpoint : String) (body : Bytes) :
    Option Bytes × Option Error :=
  match cli.newRequestFn endpoint body with
  | .error err => (none, some err)
  | .ok req =>
    match cli.Do req with
    | .error err => (none, some err)
    | .ok resp =>
      if resp.StatusCode ≠ 200 then
        match cli.readAllFn resp.Body with
        | .error err0 => (none, some err0)
        | .ok b => (none, some (Error.new b))
      else
        let opened : Except Error R :=
          if resp.ContentEncoding = "gzip" then cli.newGzipReaderFn resp.Body
          else .ok resp.Body
        match opened with
        | .error err0 => (none, some err0)
        | .ok respBody =>
          match cli.readAllFn respBody with
          | .error err => (none, some err)
          | .ok respData => (some respData, none)

/-- A server for the examples. Requests are their bodies; a body reader is the
bytes on the wire, and a gzip stream is the plain bytes behind the two marker
bytes 31 and 139; opening any other stream fails with the error `gzip`. The
server answers every request with `resp`. -/
def server (resp : Response Bytes) : Client Bytes Bytes where
  newRequestFn := fun _ body => .ok body
  Do := fun _ => .ok resp
  readAllFn := fun r => .ok r
  newGzipReaderFn := fun r =>
    match r with
    | 31 :: 139 :: plain => .ok plain
    | _ => .error (Error.lib [103, 122, 105, 112])

end http

/-! # Properties -/

namespace api

variable {σ ρ : Type}

/-! ## The retry step -/

@[simp] theorem emitErr_retryBuffers (err : Error) (st : SendState σ ρ) :
    (write.emitErr err st).retryBuffers = st.retryBuffers := rfl

@[simp] theorem emitErr_errs (err : Error) (st : SendState σ ρ) :
    (write.emitErr err st).errs = st.errs ++ [err] := rfl

@[simp] theorem emitErr_sent (err : Error) (st : SendState σ ρ) :
    (write.emitErr err st).sent = st.sent := rfl

@[simp] theorem emitErr_world (err : Error) (st : SendState σ ρ) :
    (write.emitErr err st).world = st.world := rfl

@[simp] theorem retry_sent (opts : WriteOptions) (data : ρ) (attempt : Int)
    (st : SendState σ ρ) : (sendProc.retry opts data attempt st).sent = st.sent := by
  unfold sendProc.retry
  split_ifs <;> rfl

@[simp] theorem retry_world (opts : WriteOptions) (data : ρ) (attempt : Int)
    (st : SendState σ ρ) : (sendProc.retry opts data attempt st).world = st.world := by
  unfold sendProc.retry
  split_ifs <;> rfl

@[simp] theorem MaxRetries_eq (opts : WriteOptions) : opts.MaxRetries = opts.maxRetries := rfl

@[simp] theorem RetryBufferLimit_eq (opts : WriteOptions) :
    opts.RetryBufferLimit = opts.retryBufferLimit := rfl

/-- The retry step rejects a new entry once the queue holds more than
`retryBufferLimit` entries: the error is emitted and the queue is unchanged. -/
theorem retry_over_limit (opts : WriteOptions) (data : ρ) (attempt : Int)
    (st : SendState σ ρ) (hatt : attempt < opts.maxRetries)
    (hlen : opts.retryBufferLimit < (st.retryBuffers.length : Int)) :
    (sendProc.retry opts data attempt st).retryBuffers = st.retryBuffers ∧
    (sendProc.retry opts data attempt st).errs
      = st.errs ++ [Error.errTooManyRetryRequests] := by
  unfold sendProc.retry
  rw [if_neg (by simp; omega), if_pos (by simp; omega)]
  exact ⟨rfl, rfl⟩

/-- C1 (as the code behaves): when the queue holds exactly `retryBufferLimit`
entries and the attempt count is below `maxRetries`, the retry step does not
reject the payload: it appends it, emits no error, and the queue then holds
`retryBufferLimit + 1` entries. -/
theorem retry_at_limit_appends (opts : WriteOptions) (data : ρ) (attempt : Int)
    (st : SendState σ ρ) (hatt : attempt < opts.maxRetries)
    (hlen : (st.retryBuffers.length : Int) = opts.retryBufferLimit) :
    (sendProc.retry opts data attempt st).retryBuffers
      = st.retryBuffers ++ [{ data := data, attempts := attempt + 1 }] ∧
    (sendProc.retry opts data attempt st).errs = st.errs ∧
    ((sendProc.retry opts data attempt st).retryBuffers.length : Int)
      = opts.retryBufferLimit + 1 := by
  unfold sendProc.retry
  rw [if_neg (by simp; omega), if_neg (by simp; omega)]
  refine ⟨rfl, rfl, ?_⟩
  simp only [List.length_append, List.length_singleton]
  push_cast
  omega

/-- The failing input of C1: limit 1, a queue of one entry, and a payload
whose first send failed. The queue ends with two entries and no error. -/
theorem retry_at_limit_appends_witness :
    (sendProc.retry (failureOptions 3 1) [8] 0
        (queueOnly [{ data := [7], attempts := 1 }])).retryBuffers
      = [{ data := [7], attempts := 1 }, { data := [8], attempts := 1 }] ∧
    (sendProc.retry (failureOptions 3 1) [8] 0
        (queueOnly [{ data := [7], attempts := 1 }])).errs = [] :=
  let h := retry_at_limit_appends (failureOptions 3 1) [8] 0
    (queueOnly [{ data := [7], attempts := 1 }]) (by decide) (by decide)
  ⟨h.1, h.2.1⟩

/-! ## Exhaustion of the retries -/

/-- C2 as stated fails at shutdown: with `maxRetries = 1` a payload whose first
send fails is queued, the shutdown redrive sends it once more (its first and
last permitted retry), that send fails too, and the payload is dropped without
any `errTooManyRetry`: the only errors emitted are the two send errors. -/
theorem shutdown_retry_is_silent :
    (write.sendProc (fixedServer 500 [101]) (failureOptions 1 50) [[1]] [] ()).sent
      = [[1], [1]] ∧
    (write.sendProc (fixedServer 500 [101]) (failureOptions 1 50) [[1]] [] ()).errs
      = [Error.new [101], Error.new [101]] ∧
    (write.sendProc (fixedServer 500 [101]) (failureOptions 1 50) [[1]] [] ()).retryBuffers
      = [] := by
  decide

/-- C2 (amended): let `maxRetries >= 1` and let the send of a queued entry fail
during a redrive. An entry enters the queue with attempt count 1 after its
first failed send, so an entry with attempt count `a` is being retried for the
`a`-th time.

* Live redrive, `a = maxRetries`: the entry is dropped; after the send error
  exactly one `errTooManyRetry` is emitted and the queue is left as it was.
* Live redrive, `a < maxRetries`, queue not over its limit: the entry is put
  back with attempt count `a + 1` and only the send error is emitted.
* Shutdown redrive: the entry is dropped and only the send error is emitted.
* First failure, queue not over its limit: the payload is queued with attempt
  count 1. -/
theorem live_retry_exhaustion (env : Env σ ρ) (opts : WriteOptions) (st : SendState σ ρ)
    (msg : retryReq ρ) (err : Error) (s1 : σ)
    (hmax : 1 ≤ opts.maxRetries)
    (hfail : write.send env msg.data st.world = (some err, s1)) :
    (msg.attempts = opts.maxRetries →
      (sendProc.sendRetryReq.body env opts true st msg).retryBuffers = st.retryBuffers ∧
      (sendProc.sendRetryReq.body env opts true st msg).errs
        = st.errs ++ [err, Error.errTooManyRetry]) ∧
    (msg.attempts < opts.maxRetries →
      (st.retryBuffers.length : Int) ≤ opts.retryBufferLimit →
      (sendProc.sendRetryReq.body env opts true st msg).retryBuffers
        = st.retryBuffers ++ [{ data := msg.data, attempts := msg.attempts + 1 }] ∧
      (sendProc.sendRetryReq.body env opts true st msg).errs = st.errs ++ [err]) ∧
    ((sendProc.sendRetryReq.body env opts false st msg).retryBuffers = st.retryBuffers ∧
      (sendProc.sendRetryReq.body env opts false st msg).errs = st.errs ++ [err]) ∧
    ((st.retryBuffers.length : Int) ≤ opts.retryBufferLimit →
      (sendProc.retry opts msg.data 0 st).retryBuffers
        = st.retryBuffers ++ [{ data := msg.data, attempts := 1 }] ∧
      (sendProc.retry opts msg.data 0 st).errs = st.errs) := by
  refine ⟨?_, ?_, ?_, ?_⟩
  · intro ha
    simp only [sendProc.sendRetryReq.body, hfail, sendProc.retry, MaxRetries_eq, if_true]
    rw [if_pos (by omega)]
    simp
  · intro ha hlen
    simp only [sendProc.sendRetryReq.body, hfail, sendProc.retry, MaxRetries_eq,
      RetryBufferLimit_eq, if_true]
    rw [if_neg (by omega), if_neg (by simp; omega)]
    simp
  · simp [sendProc.sendRetryReq.body, hfail]
  · intro hlen
    simp only [sendProc.retry, MaxRetries_eq, RetryBufferLimit_eq]
    rw [if_neg (by omega), if_neg (by omega)]
    simp

/-- The exhaustion step at a concrete input: `maxRetries = 2`, an entry with
attempt count 2, a server that answers 500. -/
theorem live_retry_exhaustion_witness :
    (sendProc.sendRetryReq.body (fixedServer 500 [101]) (failureOptions 2 50) true
        (queueOnly []) { data := [1], attempts := 2 }).retryBuffers = [] ∧
    (sendProc.sendRetryReq.body (fixedServer 500 [101]) (failureOptions 2 50) true
        (queueOnly []) { data := [1], attempts := 2 }).errs
      = [Error.new [101], Error.errTooManyRetry] :=
  (live_retry_exhaustion (fixedServer 500 [101]) (failureOptions 2 50) (queueOnly [])
    { data := [1], attempts := 2 } (Error.new [101]) () (by decide) rfl).1 rfl

/-! ## The scenario in which every request fails -/

/-- A server that answers every request with a status of 400 or more and the
readable body `body` makes `write.send` return `errors.New(body)`. -/
theorem send_fails_of_status (env : Env σ ρ) (body : Bytes)
    (hDo : ∀ r s, ∃ resp s1, env.Do r s = (.ok resp, s1) ∧ 400 ≤ resp.StatusCode ∧
      resp.readErr = none ∧ resp.Body = body)
    (r : ρ) (s : σ) : ∃ s1, write.send env r s = (some (Error.new body), s1) := by
  obtain ⟨resp, s1, hdo, hcode, hread, hbody⟩ := hDo r s
  refine ⟨s1, ?_⟩
  simp [write.send, hdo, hcode, ReadAll, hread, hbody]

theorem attempted_cons (data : Bytes) (rest : List Bytes) :
    attempted (data :: rest) = attempted [data] + attempted rest := by
  unfold attempted
  rw [List.countP_cons, List.countP_cons, List.countP_nil]
  omega

theorem attempted_append (xs ys : List Bytes) :
    attempted (xs ++ ys) = attempted xs + attempted ys := by
  unfold attempted
  exact List.countP_append _ xs ys

/-- The number of request bodies made in the failing scenario is the number of
non-empty payloads. -/
theorem refused_length (env : Env σ ρ) (body : Bytes) (payloads : List Bytes) (rs : List ρ)
    (st : SendState σ ρ) (h : Refused env body payloads rs st) :
    rs.length = attempted payloads := by
  rw [h.made.length_eq, attempted, List.countP_eq_length_filter]

/-- One payload in the failing scenario: an empty payload changes nothing, a
non-empty one is compressed, sent, refused and queued with the attempt count
1; the closure returns false either way. -/
theorem send_step_refused (env : Env σ ρ) (opts : WriteOptions) (body : Bytes)
    (hmax : 1 ≤ opts.maxRetries)
    (hDo : ∀ r s, ∃ resp s1, env.Do r s = (.ok resp, s1) ∧ 400 ≤ resp.StatusCode ∧
      resp.readErr = none ∧ resp.Body = body)
    (hC : ∀ d s, ∃ r s1, env.compress d s = (.ok r, s1))
    (done : List Bytes) (rs : List ρ) (st : SendState σ ρ) (data : Bytes)
    (h : Refused env body done rs st)
    (hroom : (attempted (done ++ [data]) : Int) ≤ opts.retryBufferLimit + 1) :
    (sendProc.send env opts data st).1 = false ∧
    ∃ rs1, Refused env body (done ++ [data]) rs1 (sendProc.send env opts data st).2 := by
  have hlen := refused_length env body done rs st h
  by_cases hd : data.length = 0
  · have hd0 : data = [] := List.length_eq_zero.mp hd
    have hf : (done ++ [data]).filter (fun d => d.length ≠ 0)
        = done.filter (fun d => d.length ≠ 0) := by
      simp [List.filter_append, hd0]
    simp only [sendProc.send, hd, if_true]
    exact ⟨trivial, rs, ⟨by rw [hf]; exact h.made, h.queue, h.errs, h.sent⟩⟩
  · have hd1 : data ≠ [] := fun hnil => hd (by simp [hnil])
    have hf : (done ++ [data]).filter (fun d => d.length ≠ 0)
        = done.filter (fun d => d.length ≠ 0) ++ [data] := by
      simp [List.filter_append, hd1]
    have h1 : attempted [data] = 1 := by
      simp [attempted, hd1]
    rw [attempted_append, h1] at hroom
    obtain ⟨r, s1, hc⟩ := hC data st.world
    obtain ⟨s2, hs⟩ := send_fails_of_status env body hDo r s1
    have hq : st.retryBuffers.length = attempted done := by
      rw [h.queue, List.length_map, hlen]
    simp only [sendProc.send, hd, if_false, hc, hs, sendProc.retry, MaxRetries_eq,
      RetryBufferLimit_eq, emitErr_retryBuffers]
    rw [if_neg (by omega), if_neg (by push_cast at hroom; omega)]
    refine ⟨trivial, rs ++ [r], ?_, ?_, ?_, ?_⟩
    · rw [hf]
      exact List.rel_append h.made (List.Forall₂.cons ⟨st.world, s1, hc⟩ List.Forall₂.nil)
    · simp [h.queue, write.emitErr]
    · simp [h.errs, write.emitErr, List.replicate_succ']
    · simp [h.sent, write.emitErr]

/-- When the closure `send` returns false the live step leaves its state. -/
theorem onData_of_false (env : Env σ ρ) (opts : WriteOptions) (st : SendState σ ρ)
    (data : Bytes) (h : (sendProc.send env opts data st).1 = false) :
    sendProc.onData env opts st data = (sendProc.send env opts data st).2 := by
  unfold sendProc.onData
  generalize sendProc.send env opts data st = r at h
  obtain ⟨flag, st1⟩ := r
  simp only at h
  subst h
  rfl

/-- The payloads received before the stop signal, in the failing scenario. -/
theorem live_refused (env : Env σ ρ) (opts : WriteOptions) (body : Bytes)
    (hmax : 1 ≤ opts.maxRetries)
    (hDo : ∀ r s, ∃ resp s1, env.Do r s = (.ok resp, s1) ∧ 400 ≤ resp.StatusCode ∧
      resp.readErr = none ∧ resp.Body = body)
    (hC : ∀ d s, ∃ r s1, env.compress d s = (.ok r, s1))
    (live : List Bytes) :
    ∀ (done : List Bytes) (rs : List ρ) (st : SendState σ ρ), Refused env body done rs st →
      (attempted (done ++ live) : Int) ≤ opts.retryBufferLimit + 1 →
      ∃ rs1, Refused env body (done ++ live) rs1
        (live.foldl (sendProc.onData env opts) st) := by
  induction live with
  | nil => intro done rs st h _; exact ⟨rs, by simpa using h⟩
  | cons data rest ih =>
    intro done rs st h hroom
    have hsplit : done ++ data :: rest = (done ++ [data]) ++ rest := by simp
    rw [hsplit] at hroom ⊢
    have hroom1 : (attempted (done ++ [data]) : Int) ≤ opts.retryBufferLimit + 1 := by
      rw [attempted_append] at hroom
      push_cast at hroom ⊢
      omega
    obtain ⟨hflag, rs1, hstep⟩ :=
      send_step_refused env opts body hmax hDo hC done rs st data h hroom1
    rw [List.foldl_cons, onData_of_false env opts st data hflag]
    exact ih _ rs1 _ hstep hroom

/-- The payloads received after the stop signal, in the failing scenario. -/
theorem pending_refused (env : Env σ ρ) (opts : WriteOptions) (body : Bytes)
    (hmax : 1 ≤ opts.maxRetries)
    (hDo : ∀ r s, ∃ resp s1, env.Do r s = (.ok resp, s1) ∧ 400 ≤ resp.StatusCode ∧
      resp.readErr = none ∧ resp.Body = body)
    (hC : ∀ d s, ∃ r s1, env.compress d s = (.ok r, s1))
    (pending : List Bytes) :
    ∀ (done : List Bytes) (rs : List ρ) (st : SendState σ ρ), Refused env body done rs st →
      (attempted (done ++ pending) : Int) ≤ opts.retryBufferLimit + 1 →
      ∃ rs1, Refused env body (done ++ pending) rs1
        (pending.foldl (fun s data => (sendProc.send env opts data s).2) st) := by
  induction pending with
  | nil => intro done rs st h _; exact ⟨rs, by simpa using h⟩
  | cons data rest ih =>
    intro done rs st h hroom
    have hsplit : done ++ data :: rest = (done ++ [data]) ++ rest := by simp
    rw [hsplit] at hroom ⊢
    have hroom1 : (attempted (done ++ [data]) : Int) ≤ opts.retryBufferLimit + 1 := by
      rw [attempted_append] at hroom
      push_cast at hroom ⊢
      omega
    obtain ⟨_, rs1, hstep⟩ :=
      send_step_refused env opts body hmax hDo hC done rs st data h hroom1
    rw [List.foldl_cons]
    exact ih _ rs1 _ hstep hroom

/-- The shutdown walk over the entries `q` when every request is refused: each
entry is sent once more, in order, with one `errors.New(body)` for each, and
nothing is queued again. -/
theorem shutdown_walk_refused (env : Env σ ρ) (opts : WriteOptions) (body : Bytes)
    (hDo : ∀ r s, ∃ resp s1, env.Do r s = (.ok resp, s1) ∧ 400 ≤ resp.StatusCode ∧
      resp.readErr = none ∧ resp.Body = body)
    (q : List (retryReq ρ)) :
    ∀ st : SendState σ ρ,
      (q.foldl (sendProc.sendRetryReq.body env opts false) st).retryBuffers
        = st.retryBuffers ∧
      (q.foldl (sendProc.sendRetryReq.body env opts false) st).errs
        = st.errs ++ List.replicate q.length (Error.new body) ∧
      (q.foldl (sendProc.sendRetryReq.body env opts false) st).sent
        = st.sent ++ q.map (fun msg => msg.data) := by
  induction q with
  | nil => intro st; simp
  | cons msg rest ih =>
    intro st
    obtain ⟨s1, hs⟩ := send_fails_of_status env body hDo msg.data st.world
    have hbody : sendProc.sendRetryReq.body env opts false st msg
        = write.emitErr (Error.new body)
            { st with world := s1, sent := st.sent ++ [msg.data] } := by
      simp [sendProc.sendRetryReq.body, hs]
    rw [List.foldl_cons, hbody]
    obtain ⟨h1, h2, h3⟩ := ih
      (write.emitErr (Error.new body) { st with world := s1, sent := st.sent ++ [msg.data] })
    refine ⟨by simpa using h1, ?_, ?_⟩
    · rw [h2]; simp [write.emitErr, List.replicate_succ]
    · rw [h3]; simp [write.emitErr]

/-- C3 as stated fails: in the scenario of `TestWriteData_Failure` with five
one-point payloads (`maxRetries = 2`, `retryBufferLimit = 50`, gzip on, every
request read and answered 500) the send task calls `w.send` ten times and
emits ten send errors, and no `errTooManyRetry` is among them. The last five
requests are made by the shutdown redrive with the reader of the first five,
of which nothing is left unread. -/
theorem failing_server_no_exhaustion :
    Error.errTooManyRetry ∉
      (write.sendProc (buffered (some marked) (answersAll 500 [101])) (failureOptions 2 50)
        [[1], [2], [3], [4], [5]] [] Readers.start).errs ∧
    (write.sendProc (buffered (some marked) (answersAll 500 [101])) (failureOptions 2 50)
        [[1], [2], [3], [4], [5]] [] Readers.start).errs
      = List.replicate 10 (Error.new [101]) ∧
    (write.sendProc (buffered (some marked) (answersAll 500 [101])) (failureOptions 2 50)
        [[1], [2], [3], [4], [5]] [] Readers.start).sent = List.replicate 10 0 ∧
    (write.sendProc (buffered (some marked) (answersAll 500 [101])) (failureOptions 2 50)
        [[1], [2], [3], [4], [5]] [] Readers.start).world.requests
      = [[31, 139, 1], [31, 139, 2], [31, 139, 3], [31, 139, 4], [31, 139, 5],
          [], [], [], [], []] := by
  decide

/-- C3 (amended): let `maxRetries >= 1`, let every request be answered with a
status of 400 or more and the readable body `body`, let `w.compress` succeed,
and let the number of non-empty payloads be at most `retryBufferLimit + 1`.
Then the send task returns, and there are request bodies `rs`, one made by
`w.compress` for each non-empty payload and in their order, such that: when
the last payload has been handled the queue holds exactly the entries of `rs`,
each with the attempt count 1; `w.send` is called with the bodies `rs` and
then, in the shutdown redrive, once more with the same bodies `rs`; the errors
emitted are exactly one `errors.New(body)` for each of these calls, so neither
`errTooManyRetry` nor `errTooManyRetryRequests` is emitted; and the queue is
empty at the end. -/
theorem failing_server_errors (env : Env σ ρ) (opts : WriteOptions)
    (live pending : List Bytes) (world : σ) (body : Bytes)
    (hmax : 1 ≤ opts.maxRetries)
    (hroom : (attempted (live ++ pending) : Int) ≤ opts.retryBufferLimit + 1)
    (hDo : ∀ r s, ∃ resp s1, env.Do r s = (.ok resp, s1) ∧ 400 ≤ resp.StatusCode ∧
      resp.readErr = none ∧ resp.Body = body)
    (hC : ∀ d s, ∃ r s1, env.compress d s = (.ok r, s1)) :
    ∃ rs : List ρ,
      List.Forall₂ (fun r d => ∃ s s1, env.compress d s = (.ok r, s1)) rs
        ((live ++ pending).filter (fun d => d.length ≠ 0)) ∧
      rs.length = attempted (live ++ pending) ∧
      (pending.foldl (fun s data => (sendProc.send env opts data s).2)
          (live.foldl (sendProc.onData env opts)
            { retryBuffers := [], errs := [], sent := [], world := world })).retryBuffers
        = rs.map (fun r => { data := r, attempts := 1 }) ∧
      (write.sendProc env opts live pending world).sent = rs ++ rs ∧
      (write.sendProc env opts live pending world).errs
        = List.replicate (2 * rs.length) (Error.new body) ∧
      Error.errTooManyRetry ∉ (write.sendProc env opts live pending world).errs ∧
      Error.errTooManyRetryRequests ∉ (write.sendProc env opts live pending world).errs ∧
      (write.sendProc env opts live pending world).retryBuffers = [] := by
  have h0 : Refused env body [] []
      ({ retryBuffers := [], errs := [], sent := [], world := world } : SendState σ ρ) :=
    ⟨List.Forall₂.nil, rfl, rfl, rfl⟩
  obtain ⟨rs1, h1⟩ := live_refused env opts body hmax hDo hC live [] [] _ h0
    (by
      rw [attempted_append] at hroom
      simp only [List.nil_append]
      push_cast at hroom ⊢
      omega)
  simp only [List.nil_append] at h1
  obtain ⟨rs, h2⟩ := pending_refused env opts body hmax hDo hC pending live rs1 _ h1 hroom
  have hlen := refused_length env body _ rs _ h2
  have hfinal : write.sendProc env opts live pending world
      = sendProc.sendRetryReq env opts false
          (pending.foldl (fun s data => (sendProc.send env opts data s).2)
            (live.foldl (sendProc.onData env opts)
              { retryBuffers := [], errs := [], sent := [], world := world })) := rfl
  have key : (write.sendProc env opts live pending world).sent = rs ++ rs ∧
      (write.sendProc env opts live pending world).errs
        = List.replicate (2 * rs.length) (Error.new body) ∧
      (write.sendProc env opts live pending world).retryBuffers = [] := by
    rw [hfinal]
    unfold sendProc.sendRetryReq
    by_cases hq : (pending.foldl (fun s data => (sendProc.send env opts data s).2)
        (live.foldl (sendProc.onData env opts)
          { retryBuffers := [], errs := [], sent := [], world := world })).retryBuffers.length
        > 0
    · rw [if_pos hq]
      obtain ⟨w1, w2, w3⟩ := shutdown_walk_refused env opts body hDo
        (pending.foldl (fun s data => (sendProc.send env opts data s).2)
          (live.foldl (sendProc.onData env opts)
            { retryBuffers := [], errs := [], sent := [], world := world })).retryBuffers
        { (pending.foldl (fun s data => (sendProc.send env opts data s).2)
            (live.foldl (sendProc.onData env opts)
              { retryBuffers := [], errs := [], sent := [], world := world })) with
          retryBuffers := [] }
      refine ⟨?_, ?_, w1⟩
      · rw [w3]
        simp only [h2.sent, h2.queue, List.map_map]
        congr 1
        simp [Function.comp_def]
      · rw [w2]
        simp only [h2.errs, h2.queue, List.length_map, ← List.replicate_add]
        congr 1
        omega
    · rw [if_neg hq]
      have hnil : rs = [] := by
        have hq0 := h2.queue
        cases rs with
        | nil => rfl
        | cons r rest => rw [hq0] at hq; simp at hq
      subst hnil
      exact ⟨h2.sent, h2.errs, h2.queue⟩
  obtain ⟨k1, k2, k3⟩ := key
  refine ⟨rs, h2.made, hlen, h2.queue, k1, k2, ?_, ?_, k3⟩
  · rw [k2]
    intro hmem
    cases List.eq_of_mem_replicate hmem
  · rw [k2]
    intro hmem
    cases List.eq_of_mem_replicate hmem

/-- Witness for C3: the scenario of `TestWriteData_Failure` with five one-point
payloads, with gzip on and a server that reads every request and answers 500
with the body `[101]`. -/
theorem failing_server_errors_witness :
    ∃ rs : List Nat,
      List.Forall₂ (fun r d => ∃ s s1,
          (buffered (some marked) (answersAll 500 [101])).compress d s = (.ok r, s1)) rs
        (([[1], [2], [3], [4], [5]] ++ []).filter (fun d => d.length ≠ 0)) ∧
      rs.length = attempted ([[1], [2], [3], [4], [5]] ++ []) ∧
      (([] : List Bytes).foldl (fun s data =>
          (sendProc.send (buffered (some marked) (answersAll 500 [101])) (failureOptions 2 50)
            data s).2)
          ([[1], [2], [3], [4], [5]].foldl
            (sendProc.onData (buffered (some marked) (answersAll 500 [101]))
              (failureOptions 2 50))
            { retryBuffers := [], errs := [], sent := [],
              world := Readers.start })).retryBuffers
        = rs.map (fun r => { data := r, attempts := 1 }) ∧
      (write.sendProc (buffered (some marked) (answersAll 500 [101])) (failureOptions 2 50)
        [[1], [2], [3], [4], [5]] [] Readers.start).sent = rs ++ rs ∧
      (write.sendProc (buffered (some marked) (answersAll 500 [101])) (failureOptions 2 50)
        [[1], [2], [3], [4], [5]] [] Readers.start).errs
        = List.replicate (2 * rs.length) (Error.new [101]) ∧
      Error.errTooManyRetry ∉
        (write.sendProc (buffered (some marked) (answersAll 500 [101])) (failureOptions 2 50)
          [[1], [2], [3], [4], [5]] [] Readers.start).errs ∧
      Error.errTooManyRetryRequests ∉
        (write.sendProc (buffered (some marked) (answersAll 500 [101])) (failureOptions 2 50)
          [[1], [2], [3], [4], [5]] [] Readers.start).errs ∧
      (write.sendProc (buffered (some marked) (answersAll 500 [101])) (failureOptions 2 50)
        [[1], [2], [3], [4], [5]] [] Readers.start).retryBuffers = [] :=
  failing_server_errors (buffered (some marked) (answersAll 500 [101])) (failureOptions 2 50)
    [[1], [2], [3], [4], [5]] [] Readers.start [101] (by decide) (by decide)
    (fun _ _ => ⟨_, _, rfl, by decide, rfl, rfl⟩) (fun _ _ => ⟨_, _, rfl⟩)

/-! ## When the live step redrives -/

/-- The branch of the closure `send` for an error of `w.compress`: the error
is emitted, nothing is sent or queued, and the closure returns true. The gzip
writer of the package writes into a `bytes.Buffer`, whose writes do not fail,
so `w.compress` returns no error and no run of the writer takes this branch. -/
theorem send_of_compress_error (env : Env σ ρ) (opts : WriteOptions) (st : SendState σ ρ)
    (data : Bytes) (err : Error) (s1 : σ) (hne : data ≠ [])
    (hc : env.compress data st.world = (.error err, s1)) :
    sendProc.send env opts data st = (true, write.emitErr err { st with world := s1 }) := by
  have hd : ¬ data.length = 0 := fun h => hne (List.length_eq_zero.mp h)
  simp [sendProc.send, hd, hc]

/-- C4: for a payload that `w.compress` accepts (as the compressors of the
package do for every payload), the live step redrives the retry queue exactly
when the payload was sent successfully. The step redrives exactly when the
closure `send` returns true, which it does exactly for a non-empty payload
whose request succeeds; then the step is the redrive of the state after the
send. After a failed request the step is the bookkeeping of `retry` alone, and
for an empty payload it changes nothing. -/
theorem onData_redrives_iff (env : Env σ ρ) (opts : WriteOptions) (st : SendState σ ρ)
    (data : Bytes) (hC : ∃ r s1, env.compress data st.world = (.ok r, s1)) :
    (sendProc.onData env opts st data
      = if (sendProc.send env opts data st).1 then
          sendProc.sendRetryReq env opts true (sendProc.send env opts data st).2
        else (sendProc.send env opts data st).2) ∧
    ((sendProc.send env opts data st).1 = true ↔
      data ≠ [] ∧
        ∃ r s1 s2, env.compress data st.world = (.ok r, s1) ∧
          write.send env r s1 = (none, s2)) ∧
    (∀ r s1 s2, data ≠ [] → env.compress data st.world = (.ok r, s1) →
      write.send env r s1 = (none, s2) →
      sendProc.onData env opts st data
        = sendProc.sendRetryReq env opts true
            { st with world := s2, sent := st.sent ++ [r] }) ∧
    (∀ r s1 s2 err, data ≠ [] → env.compress data st.world = (.ok r, s1) →
      write.send env r s1 = (some err, s2) →
      sendProc.onData env opts st data
        = sendProc.retry opts r 0
            (write.emitErr err { st with world := s2, sent := st.sent ++ [r] })) ∧
    (data = [] → sendProc.onData env opts st data = st) := by
  obtain ⟨r0, t0, hc0⟩ := hC
  refine ⟨?_, ?_, ?_, ?_, ?_⟩
  · unfold sendProc.onData
    generalize sendProc.send env opts data st = r
    obtain ⟨flag, st1⟩ := r
    cases flag <;> rfl
  · by_cases hd : data.length = 0
    · have hnil : data = [] := List.length_eq_zero.mp hd
      simp [sendProc.send, hnil]
    · have hne : data ≠ [] := fun hnil => hd (by simp [hnil])
      unfold sendProc.send
      rw [if_neg hd, hc0]
      rcases hs : write.send env r0 t0 with ⟨out, s2⟩
      cases out with
      | none =>
        simp only [hs, hne, ne_eq, not_false_eq_true, true_and, true_iff]
        exact ⟨r0, t0, s2, rfl, hs⟩
      | some e =>
        simp only [hs, hne, ne_eq, not_false_eq_true, true_and, Bool.false_eq_true, false_iff]
        rintro ⟨r, s1, s3, hc, hs1⟩
        cases hc
        rw [hs] at hs1
        cases hs1
  · intro r s1 s2 hne hc hs
    have hd : ¬ data.length = 0 := fun h => hne (List.length_eq_zero.mp h)
    simp [sendProc.onData, sendProc.send, hd, hc, hs]
  · intro r s1 s2 err hne hc hs
    have hd : ¬ data.length = 0 := fun h => hne (List.length_eq_zero.mp h)
    simp [sendProc.onData, sendProc.send, hd, hc, hs]
  · intro hnil
    simp [sendProc.onData, sendProc.send, hnil]

/-- Witness for C4: the payload `[1, 2, 3]` was refused and is queued; the
payload `[4, 5]` is compressed and accepted, so the closure returns true and
the step re-sends the queued entry. -/
theorem onData_redrives_iff_witness :
    (∃ r s1, (buffered (some marked) (readsAll [500, 200])).compress [4, 5]
        (sendProc.onData (buffered (some marked) (readsAll [500, 200])) (failureOptions 3 100)
          { retryBuffers := [], errs := [], sent := [], world := Readers.start }
          [1, 2, 3]).world = (.ok r, s1)) ∧
    (sendProc.send (buffered (some marked) (readsAll [500, 200])) (failureOptions 3 100) [4, 5]
        (sendProc.onData (buffered (some marked) (readsAll [500, 200])) (failureOptions 3 100)
          { retryBuffers := [], errs := [], sent := [], world := Readers.start }
          [1, 2, 3])).1 = true ∧
    (sendProc.onData (buffered (some marked) (readsAll [500, 200])) (failureOptions 3 100)
        (sendProc.onData (buffered (some marked) (readsAll [500, 200])) (failureOptions 3 100)
          { retryBuffers := [], errs := [], sent := [], world := Readers.start }
          [1, 2, 3]) [4, 5]).sent = [0, 0, 0] :=
  ⟨⟨_, _, rfl⟩,
    ((onData_redrives_iff (buffered (some marked) (readsAll [500, 200])) (failureOptions 3 100)
      (sendProc.onData (buffered (some marked) (readsAll [500, 200])) (failureOptions 3 100)
        { retryBuffers := [], errs := [], sent := [], world := Readers.start } [1, 2, 3])
      [4, 5] ⟨_, _, rfl⟩).2.1).mpr ⟨by decide, _, _, _, rfl, rfl⟩,
    by decide⟩

/-! ## The redrive walk -/

/-- One step of the walk adds the entry's body to the record of sends. -/
theorem body_sent (env : Env σ ρ) (opts : WriteOptions) (needRetry : Bool)
    (st : SendState σ ρ) (msg : retryReq ρ) :
    (sendProc.sendRetryReq.body env opts needRetry st msg).sent
      = st.sent ++ [msg.data] := by
  unfold sendProc.sendRetryReq.body
  rcases write.send env msg.data st.world with ⟨out, s1⟩
  cases out with
  | none => rfl
  | some err => cases needRetry <;> simp

/-- One step of the shutdown walk leaves the queue as it is. -/
theorem body_shutdown_queue (env : Env σ ρ) (opts : WriteOptions)
    (st : SendState σ ρ) (msg : retryReq ρ) :
    (sendProc.sendRetryReq.body env opts false st msg).retryBuffers
      = st.retryBuffers := by
  unfold sendProc.sendRetryReq.body
  rcases write.send env msg.data st.world with ⟨out, s1⟩
  cases out with
  | none => rfl
  | some err => simp

/-- The walk over `q` sends the bodies of `q`, in order, once each. -/
theorem walk_sent (env : Env σ ρ) (opts : WriteOptions) (needRetry : Bool)
    (q : List (retryReq ρ)) :
    ∀ st : SendState σ ρ,
      (q.foldl (sendProc.sendRetryReq.body env opts needRetry) st).sent
        = st.sent ++ q.map (fun msg => msg.data) := by
  induction q with
  | nil => intro st; simp
  | cons msg rest ih =>
    intro st
    rw [List.foldl_cons, ih, body_sent]
    simp

/-- The shutdown walk over `q` leaves the queue it started with. -/
theorem walk_shutdown_queue (env : Env σ ρ) (opts : WriteOptions)
    (q : List (retryReq ρ)) :
    ∀ st : SendState σ ρ,
      (q.foldl (sendProc.sendRetryReq.body env opts false) st).retryBuffers
        = st.retryBuffers := by
  induction q with
  | nil => intro st; rfl
  | cons msg rest ih =>
    intro st
    rw [List.foldl_cons, ih, body_shutdown_queue]

/-- C5: every redrive sends exactly the entries that were queued when it
started, once each and in queue order (the order in which they were
enqueued), whatever the outcomes and whatever is enqueued meanwhile; and after
the shutdown redrive the queue is empty. -/
theorem redrive_walks_queue_once (env : Env σ ρ) (opts : WriteOptions) (needRetry : Bool)
    (st : SendState σ ρ) :
    (sendProc.sendRetryReq env opts needRetry st).sent
      = st.sent ++ st.retryBuffers.map (fun msg => msg.data) ∧
    (sendProc.sendRetryReq env opts false st).retryBuffers = [] := by
  constructor
  · unfold sendProc.sendRetryReq
    by_cases hq : st.retryBuffers.length > 0
    · rw [if_pos hq]
      exact walk_sent env opts needRetry st.retryBuffers _
    · rw [if_neg hq]
      have hnil : st.retryBuffers = [] := List.length_eq_zero.mp (by omega)
      simp [hnil]
  · unfold sendProc.sendRetryReq
    by_cases hq : st.retryBuffers.length > 0
    · rw [if_pos hq]
      exact walk_shutdown_queue env opts st.retryBuffers _
    · rw [if_neg hq]
      exact List.length_eq_zero.mp (by omega)

/-! ## The HTTP send step -/

/-- C6 as stated fails when the body of an error response cannot be read: the
server answers 500 with the body `[1, 2, 3]`, reading the body fails with a
library error whose text is `[4]`, and `write.send` returns that library
error, whose message is not the response body. -/
theorem send_read_failure_message :
    (write.send
        (respondsWith { StatusCode := 500, Body := [1, 2, 3], readErr := some (Error.lib [4]) })
        [0] ()).1 = some (Error.lib [4]) ∧
    (Error.lib [4]).Error ≠ [1, 2, 3] := by
  decide

/-- C6 (amended): `write.send` returns an error if and only if the transport
fails or the response status is 400 or more (every status below 400 counts as
success). When the status is 400 or more and the body is read without error,
the returned error is `errors.New` of the body, so its message is exactly the
response body; when reading the body fails, the read error is returned. -/
theorem send_error_iff (env : Env σ ρ) (data : ρ) (s : σ) :
    ((write.send env data s).1 ≠ none ↔
      (∃ err, (env.Do data s).1 = .error err) ∨
        ∃ resp, (env.Do data s).1 = .ok resp ∧ 400 ≤ resp.StatusCode) ∧
    (∀ resp, (env.Do data s).1 = .ok resp → 400 ≤ resp.StatusCode →
      resp.readErr = none →
      (write.send env data s).1 = some (Error.new resp.Body) ∧
      (Error.new resp.Body).Error = resp.Body) ∧
    (∀ resp err, (env.Do data s).1 = .ok resp → 400 ≤ resp.StatusCode →
      resp.readErr = some err → (write.send env data s).1 = some err) ∧
    (∀ err, (env.Do data s).1 = .error err → (write.send env data s).1 = some err) := by
  unfold write.send
  rcases hdo : env.Do data s with ⟨res, s1⟩
  cases res with
  | error err => simp
  | ok resp =>
    by_cases hcode : resp.StatusCode ≥ 400
    · rcases hread : resp.readErr with _ | err
      · simp only [hcode, ReadAll, hread, Error.Error]
        refine ⟨by simp [show 400 ≤ resp.StatusCode from hcode], ?_, ?_, by simp⟩
        · intro r hr _ _
          cases hr
          simp
        · intro r e hr _ he
          cases hr
          rw [hread] at he
          cases he
      · simp only [hcode, ReadAll, hread]
        refine ⟨by simp [show 400 ≤ resp.StatusCode from hcode], ?_, ?_, by simp⟩
        · intro r hr _ hn
          cases hr
          rw [hread] at hn
          cases hn
        · intro r e hr _ he
          cases hr
          rw [hread] at he
          cases he
          simp
    · have hlt : ¬ 400 ≤ resp.StatusCode := hcode
      simp only [hcode, if_false]
      refine ⟨by simp [hlt], ?_, ?_, by simp⟩
      · intro r hr hc
        cases hr
        exact absurd hc hlt
      · intro r e hr hc
        cases hr
        exact absurd hc hlt

/-- The send step at concrete responses: a 500 with a readable body gives the
body as message, and a 304 gives no error. -/
theorem send_error_iff_witness :
    (write.send (fixedServer 500 [101]) [0] ()).1 = some (Error.new [101]) ∧
    (write.send (fixedServer 304 [101]) [0] ()).1 = none :=
  ⟨((send_error_iff (fixedServer 500 [101]) [0] ()).2.1
      { StatusCode := 500, Body := [101], readErr := none } rfl (by decide) rfl).1,
    by
      have h := (send_error_iff (fixedServer 304 [101]) [0] ()).1
      by_contra hne
      rcases h.mp hne with ⟨err, he⟩ | ⟨resp, hr, hc⟩
      · cases he
      · cases hr
        exact absurd hc (by decide)⟩

/-- A redrive of an empty queue changes nothing. -/
theorem sendRetryReq_of_empty (env : Env σ ρ) (opts : WriteOptions) (needRetry : Bool)
    (st : SendState σ ρ) (h : st.retryBuffers = []) :
    sendProc.sendRetryReq env opts needRetry st = st := by
  simp [sendProc.sendRetryReq, h]

/-! ## A run in which one payload is never accepted -/

/-- The send step against a server that rejects `bad`: the rejected body. -/
theorem send_rejects_bad (bad : Bytes) :
    write.send (rejects bad) bad () = (some (Error.new []), ()) := by
  simp [write.send, rejects, ReadAll]

/-- The send step against a server that rejects `bad`: any other body. -/
theorem send_rejects_other (bad good : Bytes) (hne : good ≠ bad) :
    write.send (rejects bad) good () = (none, ()) := by
  simp [write.send, rejects, hne]

/-- The first send of `bad` queues it with attempt count 1. -/
theorem bad_first_send (bad : Bytes) (opts : WriteOptions) (hb : bad ≠ [])
    (hmax : 1 ≤ opts.maxRetries) (hlim : 0 ≤ opts.retryBufferLimit) :
    Tracked bad 1 0 [{ data := bad, attempts := 1 }]
      (sendProc.onData (rejects bad) opts
        { retryBuffers := [], errs := [], sent := [], world := () } bad) := by
  have hd : ¬ bad.length = 0 := fun h => hb (List.length_eq_zero.mp h)
  have hc : (rejects bad).compress bad () = (.ok bad, ()) := rfl
  have h1 : ¬ (0 : Int) ≥ opts.maxRetries := by omega
  have h2 : ¬ (0 : Int) > opts.retryBufferLimit := by omega
  simp only [sendProc.onData, sendProc.send, hd, if_false, hc, send_rejects_bad,
    sendProc.retry, MaxRetries_eq, RetryBufferLimit_eq, emitErr_retryBuffers,
    List.length_nil, Nat.cast_zero, h1, h2]
  exact ⟨rfl, by simp, by simp [write.emitErr]⟩

/-- A later payload is accepted while `bad` waits with attempt count `a`: the
redrive sends `bad` once more, and it is queued again or given up. -/
theorem good_send_redrives_bad (bad good : Bytes) (opts : WriteOptions) (hg : good ≠ [])
    (hne : good ≠ bad) (hlim : 0 ≤ opts.retryBufferLimit)
    (st : SendState Unit Bytes) (n k : Nat) (a : Int)
    (h : Tracked bad n k [{ data := bad, attempts := a }] st) :
    (a < opts.maxRetries →
      Tracked bad (n + 1) k [{ data := bad, attempts := a + 1 }]
        (sendProc.onData (rejects bad) opts st good)) ∧
    (opts.maxRetries ≤ a →
      Tracked bad (n + 1) (k + 1) [] (sendProc.onData (rejects bad) opts st good)) := by
  have hd : ¬ good.length = 0 := fun h0 => hg (List.length_eq_zero.mp h0)
  have hc : (rejects bad).compress good st.world = (.ok good, ()) := rfl
  have hq := h.queue
  have hcount : List.count bad [good] = 0 := by
    simp [List.count_singleton, hne]
  have hcount2 : List.count bad [good, bad] = 1 := by
    rw [List.count_cons, List.count_singleton]
    simp [hne]
  have hstep : sendProc.onData (rejects bad) opts st good
      = sendProc.retry opts bad a
          (write.emitErr (Error.new [])
            { retryBuffers := [], errs := st.errs, sent := (st.sent ++ [good]) ++ [bad],
              world := () }) := by
    simp [sendProc.onData, sendProc.send, hd, hc, send_rejects_other bad good hne,
      sendProc.sendRetryReq, hq, sendProc.sendRetryReq.body, send_rejects_bad]
  rw [hstep]
  constructor
  · intro ha
    have h1 : ¬ a ≥ opts.maxRetries := by omega
    have h2 : ¬ (0 : Int) > opts.retryBufferLimit := by omega
    simp only [sendProc.retry, MaxRetries_eq, RetryBufferLimit_eq, emitErr_retryBuffers,
      List.length_nil, Nat.cast_zero, h1, h2, if_false]
    refine ⟨rfl, ?_, ?_⟩
    · simp [List.count_append, h.sends, hcount2]
    · simp [write.emitErr, List.count_append, h.exhausted]
  · intro ha
    have h1 : a ≥ opts.maxRetries := ha
    simp only [sendProc.retry, MaxRetries_eq, h1, if_true]
    refine ⟨rfl, ?_, ?_⟩
    · simp [List.count_append, h.sends, hcount2]
    · simp [write.emitErr, List.count_append, h.exhausted]

/-- A later payload is accepted while nothing waits: `bad` is not sent. -/
theorem good_send_alone (bad good : Bytes) (opts : WriteOptions) (hg : good ≠ [])
    (hne : good ≠ bad) (st : SendState Unit Bytes) (n k : Nat)
    (h : Tracked bad n k [] st) :
    Tracked bad n k [] (sendProc.onData (rejects bad) opts st good) := by
  have hd : ¬ good.length = 0 := fun h0 => hg (List.length_eq_zero.mp h0)
  have hc : (rejects bad).compress good st.world = (.ok good, ()) := rfl
  have hq := h.queue
  have hcount : List.count bad [good] = 0 := by
    simp [List.count_singleton, hne]
  have hstep : sendProc.onData (rejects bad) opts st good
      = { st with sent := st.sent ++ [good], world := () } := by
    simp [sendProc.onData, sendProc.send, hd, hc, send_rejects_other bad good hne,
      sendProc.sendRetryReq, hq]
  rw [hstep]
  exact ⟨hq, by simp [List.count_append, h.sends, hcount], h.exhausted⟩

/-- Accepted payloads after `bad` was given up change nothing for `bad`. -/
theorem goods_after_exhaustion (bad good : Bytes) (opts : WriteOptions) (hg : good ≠ [])
    (hne : good ≠ bad) (n k : Nat) (t : Nat) :
    ∀ st : SendState Unit Bytes, Tracked bad n k [] st →
      Tracked bad n k []
        ((List.replicate t good).foldl (sendProc.onData (rejects bad) opts) st) := by
  induction t with
  | zero => intro st h; simpa using h
  | succ t ih =>
    intro st h
    rw [List.replicate_succ, List.foldl_cons]
    exact ih _ (good_send_alone bad good opts hg hne st n k h)

/-- Accepted payloads while `bad` waits with attempt count `a`: each of them
makes the redrive send `bad` once more, and the redrive that finds the attempt
count at `maxRetries` gives `bad` up with one `errTooManyRetry`. -/
theorem goods_until_exhaustion (bad good : Bytes) (opts : WriteOptions) (hg : good ≠ [])
    (hne : good ≠ bad) (hlim : 0 ≤ opts.retryBufferLimit) (j : Nat) :
    ∀ (st : SendState Unit Bytes) (n : Nat) (a : Int),
      Tracked bad n 0 [{ data := bad, attempts := a }] st →
      a + j = opts.maxRetries →
      Tracked bad (n + (j + 1)) 1 []
        ((List.replicate (j + 1) good).foldl (sendProc.onData (rejects bad) opts) st) := by
  induction j with
  | zero =>
    intro st n a h ha
    have hstep := good_send_redrives_bad bad good opts hg hne hlim st n 0 a h
    simpa using hstep.2 (by push_cast at ha; omega)
  | succ j ih =>
    intro st n a h ha
    have hstep := good_send_redrives_bad bad good opts hg hne hlim st n 0 a h
    have h1 := hstep.1 (by push_cast at ha; omega)
    have h2 := ih _ (n + 1) (a + 1) h1 (by push_cast at ha ⊢; omega)
    rw [List.replicate_succ, List.foldl_cons]
    have e : n + 1 + (j + 1) = n + (j + 1 + 1) := by omega
    rw [e] at h2
    exact h2

/-- The run behind C2, in live mode: a payload `bad` that the server never
accepts is followed by `k >= maxRetries` payloads that it accepts. Each
accepted payload triggers a redrive. At the end `bad` has been sent
`maxRetries + 1` times (once on arrival and `maxRetries` times from the retry
queue), exactly one `errTooManyRetry` has been emitted, and the retry queue is
empty. -/
theorem rejected_payload_run (m k : Nat) (limit : Int) (bad good : Bytes)
    (hm : 1 ≤ m) (hk : m ≤ k) (hlim : 0 ≤ limit) (hb : bad ≠ []) (hg : good ≠ [])
    (hne : good ≠ bad) :
    (write.sendProc (rejects bad) (failureOptions m limit)
        (bad :: List.replicate k good) [] ()).sent.count bad = m + 1 ∧
    (write.sendProc (rejects bad) (failureOptions m limit)
        (bad :: List.replicate k good) [] ()).errs.count Error.errTooManyRetry = 1 ∧
    (write.sendProc (rejects bad) (failureOptions m limit)
        (bad :: List.replicate k good) [] ()).retryBuffers = [] := by
  have hmax : (failureOptions m limit).maxRetries = (m : Int) := rfl
  have hl : (failureOptions m limit).retryBufferLimit = limit := rfl
  have h0 := bad_first_send bad (failureOptions m limit) hb (by rw [hmax]; omega)
    (by rw [hl]; exact hlim)
  obtain ⟨j, rfl⟩ : ∃ j, m = j + 1 := ⟨m - 1, by omega⟩
  obtain ⟨t, rfl⟩ : ∃ t, k = j + 1 + t := ⟨k - (j + 1), by omega⟩
  have h1 := goods_until_exhaustion bad good (failureOptions (j + 1 : Nat) limit) hg hne
    (by rw [hl]; exact hlim) j _ 1 1 h0 (by rw [hmax]; push_cast; omega)
  have h2 := goods_after_exhaustion bad good (failureOptions (j + 1 : Nat) limit) hg hne
    (1 + (j + 1)) 1 t _ h1
  have hsplit : List.replicate (j + 1 + t) good
      = List.replicate (j + 1) good ++ List.replicate t good := List.replicate_add _ _ _
  have hrun : write.sendProc (rejects bad) (failureOptions (j + 1 : Nat) limit)
      (bad :: List.replicate (j + 1 + t) good) [] ()
      = sendProc.sendRetryReq (rejects bad) (failureOptions (j + 1 : Nat) limit) false
          ((List.replicate t good).foldl
            (sendProc.onData (rejects bad) (failureOptions (j + 1 : Nat) limit))
            ((List.replicate (j + 1) good).foldl
              (sendProc.onData (rejects bad) (failureOptions (j + 1 : Nat) limit))
              (sendProc.onData (rejects bad) (failureOptions (j + 1 : Nat) limit)
                { retryBuffers := [], errs := [], sent := [], world := () } bad))) := by
    rw [hsplit]
    simp only [write.sendProc, sendProc.onStop, List.foldl_cons, List.foldl_nil,
      List.foldl_append]
  rw [hrun, sendRetryReq_of_empty _ _ _ _ h2.queue]
  exact ⟨by rw [h2.sends]; omega, h2.exhausted, h2.queue⟩

/-! ## The encode buffer -/

variable {B : Type}

/-- After `Write` the buffer shows its old bytes followed by the written ones,
and it still points into the store. -/
theorem Write_bytes (store : List Bytes) (buf : Slice) (p : Bytes)
    (h1 : buf.arr < store.length) (h2 : buf.len ≤ (store.getD buf.arr []).length) :
    (Buffer.Write store buf p).2.bytes (Buffer.Write store buf p).1
      = buf.bytes store ++ p ∧
    (Buffer.Write store buf p).2.arr < (Buffer.Write store buf p).1.length ∧
    (Buffer.Write store buf p).2.len
      ≤ ((Buffer.Write store buf p).1.getD (Buffer.Write store buf p).2.arr []).length := by
  unfold Buffer.Write
  simp only
  by_cases hroom : p.length ≤ (store.getD buf.arr []).length - buf.len
  · rw [if_pos hroom]
    simp only [Slice.bytes, List.length_set]
    have hget : (store.set buf.arr ((store.getD buf.arr []).take buf.len ++ p ++
        (store.getD buf.arr []).drop (buf.len + p.length))).getD buf.arr []
        = (store.getD buf.arr []).take buf.len ++ p ++
            (store.getD buf.arr []).drop (buf.len + p.length) := by
      rw [List.getD_eq_getElem?_getD, List.getElem?_set_self h1]
      rfl
    rw [hget]
    have hlen : ((store.getD buf.arr []).take buf.len).length = buf.len := by
      rw [List.length_take]
      omega
    refine ⟨?_, h1, ?_⟩
    · rw [List.take_append_of_le_length (by rw [List.length_append, hlen])]
      rw [List.take_append_eq_append_take, hlen]
      simp
    · simp only [List.length_append, hlen, List.length_drop]
      omega
  · rw [if_neg hroom]
    simp only [Slice.bytes]
    have hget : (store ++ [(store.getD buf.arr []).take buf.len ++ p ++
        List.replicate ((if (store.getD buf.arr []).length = 0 ∧ p.length ≤ 64 then 64
          else max (buf.len + p.length) (2 * (store.getD buf.arr []).length))
            - (buf.len + p.length)) 0]).getD store.length []
        = (store.getD buf.arr []).take buf.len ++ p ++
            List.replicate ((if (store.getD buf.arr []).length = 0 ∧ p.length ≤ 64 then 64
              else max (buf.len + p.length) (2 * (store.getD buf.arr []).length))
                - (buf.len + p.length)) 0 := by
      rw [List.getD_eq_getElem?_getD, List.getElem?_append_right (Nat.le_refl _)]
      simp
    rw [hget]
    have hlen : ((store.getD buf.arr []).take buf.len).length = buf.len := by
      rw [List.length_take]
      omega
    refine ⟨?_, by simp, ?_⟩
    · rw [List.take_append_of_le_length (by rw [List.length_append, hlen])]
      rw [List.take_append_eq_append_take, hlen]
      simp
    · simp only [List.length_append, hlen, List.length_replicate]
      omega

/-- The rows of a batch with one more point. -/
theorem rows_append (rb : RowBuilder B) (opts : WriteOptions) (xs ys : List Point) :
    rows rb opts (xs ++ ys) = rows rb opts xs ++ rows rb opts ys := by
  simp [rows]

/-- The rows of a single point whose row is `data`. -/
theorem rows_singleton (rb : RowBuilder B) (opts : WriteOptions) (p : Point) (data : Bytes)
    (h : batchPoint.row rb opts rb.create p = .ok data) : rows rb opts [p] = data := by
  simp [rows, h]

/-- The fields made by `NewWrite` are a good state with nothing sent. -/
theorem newBatcher_good (rb : RowBuilder B) (opts : WriteOptions) :
    Good rb opts (newBatcher rb) ∧ Sealed rb opts (newBatcher rb) := by
  refine ⟨⟨by simp [newBatcher], by simp [newBatcher], rfl, rfl, ?_, ?_⟩, ?_⟩
  · simp [Batcher.content, Slice.bytes, newBatcher, rows]
  · intro p hp
    simp [newBatcher] at hp
  · intro h hmem
    simp [newBatcher] at hmem

/-! ## Steps of the batching task -/

/-- A point whose row is built: the row is appended to the buffer, the count
goes up by one, nothing is sent and nothing is emitted. -/
theorem batchPoint_ok (rb : RowBuilder B) (opts : WriteOptions) (w : Batcher B) (p : Point)
    (data : Bytes) (hg : Good rb opts w)
    (hrow : batchPoint.row rb opts rb.create p = .ok data) :
    (write.batchPoint rb opts w (some p)).1 = none ∧
    Good rb opts (write.batchPoint rb opts w (some p)).2 ∧
    (write.batchPoint rb opts w (some p)).2.content = w.content ++ data ∧
    (write.batchPoint rb opts w (some p)).2.batchedSize = w.batchedSize + 1 ∧
    (write.batchPoint rb opts w (some p)).2.batch = w.batch ++ [p] ∧
    (write.batchPoint rb opts w (some p)).2.sendCh = w.sendCh ∧
    (write.batchPoint rb opts w (some p)).2.errs = w.errs := by
  have hw := Write_bytes w.store w.buf data hg.arr hg.len
  have hrow1 : batchPoint.row rb opts w.builder p = .ok data := by rw [hg.fresh]; exact hrow
  have heq : write.batchPoint rb opts w (some p)
      = (none, { w with builder := rb.create
                        store := (Buffer.Write w.store w.buf data).1
                        buf := (Buffer.Write w.store w.buf data).2
                        batchedSize := w.batchedSize + 1
                        batch := w.batch ++ [p] }) := by
    simp [write.batchPoint, hrow1]
  rw [heq]
  refine ⟨rfl, ⟨hw.2.1, hw.2.2, rfl, ?_, ?_, ?_⟩, hw.1, rfl, rfl, rfl, rfl⟩
  · simp only [List.length_append, List.length_singleton]
    push_cast
    rw [hg.count]
  · show (Buffer.Write w.store w.buf data).2.bytes (Buffer.Write w.store w.buf data).1
      = rows rb opts (w.batch ++ [p])
    rw [hw.1, rows_append, rows_singleton rb opts p data hrow]
    have := hg.content
    unfold Batcher.content at this
    rw [this]
  · intro q hq
    simp only [List.mem_append, List.mem_singleton] at hq
    rcases hq with hq | hq
    · exact hg.built q hq
    · exact ⟨data, by rw [hq]; exact hrow⟩

/-- A point whose row fails: the error is returned, the builder is reset, and
the buffer, its memory, the count, the batch and what was sent are left as
they were. -/
theorem batchPoint_error (rb : RowBuilder B) (opts : WriteOptions) (w : Batcher B)
    (p : Point) (err : Error) (hrow : batchPoint.row rb opts w.builder p = .error err) :
    write.batchPoint rb opts w (some p) = (some err, { w with builder := rb.create }) := by
  simp [write.batchPoint, hrow]

/-- The method `batchPoint` keeps a good state good, and sends nothing. -/
theorem batchPoint_good (rb : RowBuilder B) (opts : WriteOptions) (w : Batcher B)
    (point : Option Point) (hg : Good rb opts w) :
    Good rb opts (write.batchPoint rb opts w point).2 ∧
    (write.batchPoint rb opts w point).2.sendCh = w.sendCh := by
  cases point with
  | none => exact ⟨hg, rfl⟩
  | some p =>
    cases hrow : batchPoint.row rb opts rb.create p with
    | error err =>
      have hrow1 : batchPoint.row rb opts w.builder p = .error err := by
        rw [hg.fresh]; exact hrow
      rw [batchPoint_error rb opts w p err hrow1]
      exact ⟨⟨hg.arr, hg.len, rfl, hg.count, hg.content, hg.built⟩, rfl⟩
    | ok data =>
      have h := batchPoint_ok rb opts w p data hg hrow
      exact ⟨h.2.1, h.2.2.2.2.2.1⟩

/-- A flush with a count of zero changes nothing. -/
theorem flushBuffer_of_zero (w : Batcher B) (h : w.batchedSize = 0) :
    write.flushBuffer w = w := by
  simp [write.flushBuffer, h]

/-- A flush with a count other than zero sends the bytes of the buffer, empties
the buffer and sets the count to zero. -/
theorem flushBuffer_of_count (w : Batcher B) (h : w.batchedSize ≠ 0) :
    (write.flushBuffer w).sendCh
      = w.sendCh ++ [{ data := w.buf, bytes := w.content, points := w.batch }] ∧
    (write.flushBuffer w).content = [] ∧
    (write.flushBuffer w).batchedSize = 0 ∧
    (write.flushBuffer w).batch = [] ∧
    (write.flushBuffer w).store = w.store ∧
    (write.flushBuffer w).errs = w.errs ∧
    (write.flushBuffer w).builder = w.builder := by
  have heq : write.flushBuffer w
      = { w with buf := Buffer.Reset w.buf, batchedSize := 0, batch := [],
                 sendCh := w.sendCh ++
                   [{ data := w.buf, bytes := w.content, points := w.batch }] } := by
    simp [write.flushBuffer, h, Buffer.Bytes, Batcher.content]
  rw [heq]
  refine ⟨rfl, ?_, rfl, rfl, rfl, rfl, rfl⟩
  simp [Batcher.content, Slice.bytes, Buffer.Reset]

/-- The method `flushBuffer` keeps a good state good. -/
theorem flushBuffer_keeps_good (rb : RowBuilder B) (opts : WriteOptions) (w : Batcher B)
    (hg : Good rb opts w) : Good rb opts (write.flushBuffer w) := by
  by_cases h : w.batchedSize = 0
  · rw [flushBuffer_of_zero w h]
    exact hg
  · have hf := flushBuffer_of_count w h
    refine ⟨?_, ?_, ?_, ?_, ?_, ?_⟩
    · simp only [write.flushBuffer, h, if_false, Buffer.Reset]
      exact hg.arr
    · simp [write.flushBuffer, h, Buffer.Reset]
    · rw [hf.2.2.2.2.2.2]
      exact hg.fresh
    · rw [hf.2.2.1, hf.2.2.2.1]
      rfl
    · rw [hf.2.1, hf.2.2.2.1]
      simp [rows]
    · intro q hq
      rw [hf.2.2.2.1] at hq
      cases hq

/-- The method `flushBuffer` keeps a good state good and its record of sends
sealed. -/
theorem flushBuffer_good (rb : RowBuilder B) (opts : WriteOptions) (w : Batcher B)
    (hg : Good rb opts w) (hs : Sealed rb opts w) :
    Good rb opts (write.flushBuffer w) ∧ Sealed rb opts (write.flushBuffer w) := by
  by_cases h : w.batchedSize = 0
  · rw [flushBuffer_of_zero w h]
    exact ⟨hg, hs⟩
  · have hf := flushBuffer_of_count w h
    refine ⟨flushBuffer_keeps_good rb opts w hg, ?_⟩
    · intro x hx
      rw [hf.1] at hx
      simp only [List.mem_append, List.mem_singleton] at hx
      rcases hx with hx | hx
      · exact hs x hx
      · subst hx
        refine ⟨?_, hg.content, hg.built⟩
        intro hnil
        have := hg.count
        simp only at hnil
        rw [hnil] at this
        exact h (by simpa using this)

/-- Emitting an error keeps a good state good and sends nothing. -/
theorem emitErr_good (rb : RowBuilder B) (opts : WriteOptions) (w : Batcher B) (err : Error)
    (hg : Good rb opts w) (hs : Sealed rb opts w) :
    Good rb opts (Batcher.emitErr err w) ∧ Sealed rb opts (Batcher.emitErr err w) :=
  ⟨⟨hg.arr, hg.len, hg.fresh, hg.count, hg.content, hg.built⟩, hs⟩

/-- A step of the loop of `bufferProc` keeps a good state good and its record
of sends sealed. -/
theorem onEvent_good (rb : RowBuilder B) (opts : WriteOptions) (w : Batcher B) (e : Event)
    (hg : Good rb opts w) (hs : Sealed rb opts w) :
    Good rb opts (bufferProc.onEvent rb opts w e) ∧
    Sealed rb opts (bufferProc.onEvent rb opts w e) := by
  cases e with
  | tick => exact flushBuffer_good rb opts w hg hs
  | point p =>
    have hb := batchPoint_good rb opts w p hg
    have hs1 : Sealed rb opts (write.batchPoint rb opts w p).2 := by
      intro x hx
      rw [hb.2] at hx
      exact hs x hx
    unfold bufferProc.onEvent
    rcases hr : write.batchPoint rb opts w p with ⟨_ | err, w1⟩
    · rw [hr] at hb hs1
      simp only [hr]
      by_cases hfull : w1.batchedSize >= opts.BatchSize
      · rw [if_pos hfull]
        exact flushBuffer_good rb opts w1 hb.1 hs1
      · rw [if_neg hfull]
        exact ⟨hb.1, hs1⟩
    · rw [hr] at hb hs1
      simp only [hr]
      exact emitErr_good rb opts w1 err hb.1 hs1

/-- A round of the final drain keeps a good state good and sends nothing. -/
theorem drain_good (rb : RowBuilder B) (opts : WriteOptions) (w : Batcher B)
    (p : Option Point) (hg : Good rb opts w) (hs : Sealed rb opts w) :
    Good rb opts (bufferProc.drain rb opts w p) ∧
    Sealed rb opts (bufferProc.drain rb opts w p) := by
  have hb := batchPoint_good rb opts w p hg
  have hs1 : Sealed rb opts (write.batchPoint rb opts w p).2 := by
    intro x hx
    rw [hb.2] at hx
    exact hs x hx
  unfold bufferProc.drain
  rcases hr : write.batchPoint rb opts w p with ⟨_ | err, w1⟩
  · rw [hr] at hb hs1
    exact ⟨hb.1, hs1⟩
  · rw [hr] at hb hs1
    exact emitErr_good rb opts w1 err hb.1 hs1

/-- The steps of the loop one after the other keep a good state good. -/
theorem events_good (rb : RowBuilder B) (opts : WriteOptions) (events : List Event) :
    ∀ w : Batcher B, Good rb opts w → Sealed rb opts w →
      Good rb opts (events.foldl (bufferProc.onEvent rb opts) w) ∧
      Sealed rb opts (events.foldl (bufferProc.onEvent rb opts) w) := by
  induction events with
  | nil => intro w hg hs; exact ⟨hg, hs⟩
  | cons e rest ih =>
    intro w hg hs
    have h := onEvent_good rb opts w e hg hs
    exact ih _ h.1 h.2

/-- The final drain keeps a good state good. -/
theorem pending_good (rb : RowBuilder B) (opts : WriteOptions)
    (pending : List (Option Point)) :
    ∀ w : Batcher B, Good rb opts w → Sealed rb opts w →
      Good rb opts (pending.foldl (bufferProc.drain rb opts) w) ∧
      Sealed rb opts (pending.foldl (bufferProc.drain rb opts) w) := by
  induction pending with
  | nil => intro w hg hs; exact ⟨hg, hs⟩
  | cons p rest ih =>
    intro w hg hs
    have h := drain_good rb opts w p hg hs
    exact ih _ h.1 h.2

/-- The whole task keeps a good state good and its record of sends sealed. -/
theorem bufferProc_good (rb : RowBuilder B) (opts : WriteOptions) (events : List Event)
    (pending : List (Option Point)) (w : Batcher B) (hg : Good rb opts w)
    (hs : Sealed rb opts w) :
    Good rb opts (write.bufferProc rb opts events pending w) ∧
    Sealed rb opts (write.bufferProc rb opts events pending w) := by
  have h1 := events_good rb opts events w hg hs
  have h2 := pending_good rb opts pending _ h1.1 h1.2
  exact flushBuffer_good rb opts _ h2.1 h2.2

/-! ## Flushes by size and by the timer -/

/-- The method `batchPoint` sends nothing, whatever the state. -/
theorem batchPoint_sendCh (rb : RowBuilder B) (opts : WriteOptions) (w : Batcher B)
    (point : Option Point) : (write.batchPoint rb opts w point).2.sendCh = w.sendCh := by
  cases point with
  | none => rfl
  | some p =>
    cases hrow : batchPoint.row rb opts w.builder p with
    | error err => simp [write.batchPoint, hrow]
    | ok data => simp [write.batchPoint, hrow]

/-- A flush only adds to what was sent. -/
theorem flushBuffer_sendCh (w : Batcher B) :
    ∃ more, (write.flushBuffer w).sendCh = w.sendCh ++ more := by
  by_cases h : w.batchedSize = 0
  · exact ⟨[], by rw [flushBuffer_of_zero w h]; simp⟩
  · exact ⟨_, (flushBuffer_of_count w h).1⟩

/-- A step of the loop only adds to what was sent. -/
theorem onEvent_sendCh (rb : RowBuilder B) (opts : WriteOptions) (w : Batcher B) (e : Event) :
    ∃ more, (bufferProc.onEvent rb opts w e).sendCh = w.sendCh ++ more := by
  cases e with
  | tick => exact flushBuffer_sendCh w
  | point p =>
    have hb := batchPoint_sendCh rb opts w p
    unfold bufferProc.onEvent
    rcases hr : write.batchPoint rb opts w p with ⟨_ | err, w1⟩
    · rw [hr] at hb
      simp only [hr]
      by_cases hfull : w1.batchedSize >= opts.BatchSize
      · rw [if_pos hfull]
        obtain ⟨more, hm⟩ := flushBuffer_sendCh w1
        exact ⟨more, by rw [hm, hb]⟩
      · rw [if_neg hfull]
        exact ⟨[], by rw [hb]; simp⟩
    · rw [hr] at hb
      simp only [hr]
      refine ⟨[], ?_⟩
      simp only [Batcher.emitErr, List.append_nil]
      exact hb

/-- The steps of the loop only add to what was sent. -/
theorem events_sendCh (rb : RowBuilder B) (opts : WriteOptions) (events : List Event) :
    ∀ w : Batcher B,
      ∃ more, (events.foldl (bufferProc.onEvent rb opts) w).sendCh = w.sendCh ++ more := by
  induction events with
  | nil => intro w; exact ⟨[], by simp⟩
  | cons e rest ih =>
    intro w
    obtain ⟨m1, h1⟩ := onEvent_sendCh rb opts w e
    obtain ⟨m2, h2⟩ := ih (bufferProc.onEvent rb opts w e)
    exact ⟨m1 ++ m2, by rw [List.foldl_cons, h2, h1, List.append_assoc]⟩

/-- A point that leaves the batch below the batch size is added to the batch,
and nothing is sent. -/
theorem onEvent_below (rb : RowBuilder B) (opts : WriteOptions) (w : Batcher B) (p : Point)
    (data : Bytes) (hg : Good rb opts w)
    (hrow : batchPoint.row rb opts rb.create p = .ok data)
    (hsize : (w.batch.length : Int) + 1 < opts.batchSize) :
    Good rb opts (bufferProc.onEvent rb opts w (.point (some p))) ∧
    (bufferProc.onEvent rb opts w (.point (some p))).batch = w.batch ++ [p] ∧
    (bufferProc.onEvent rb opts w (.point (some p))).sendCh = w.sendCh ∧
    (bufferProc.onEvent rb opts w (.point (some p))).errs = w.errs := by
  obtain ⟨h1, h2, _, h4, h5, h6, h7⟩ := batchPoint_ok rb opts w p data hg hrow
  unfold bufferProc.onEvent
  rcases hr : write.batchPoint rb opts w (some p) with ⟨_ | err, w1⟩
  · rw [hr] at h2 h4 h5 h6 h7
    simp only [hr]
    have hnot : ¬ w1.batchedSize >= opts.BatchSize := by
      simp only at h4
      rw [h4, hg.count]
      show ¬ (opts.batchSize ≤ (w.batch.length : Int) + 1)
      omega
    rw [if_neg hnot]
    exact ⟨h2, h5, h6, h7⟩
  · rw [hr] at h1
    cases h1

/-- A point that brings the batch up to the batch size is added to the batch,
and the batch is sent at once: the buffer is empty afterwards. -/
theorem onEvent_full (rb : RowBuilder B) (opts : WriteOptions) (w : Batcher B) (p : Point)
    (data : Bytes) (hg : Good rb opts w)
    (hrow : batchPoint.row rb opts rb.create p = .ok data)
    (hsize : opts.batchSize ≤ (w.batch.length : Int) + 1) :
    Good rb opts (bufferProc.onEvent rb opts w (.point (some p))) ∧
    (bufferProc.onEvent rb opts w (.point (some p))).batch = [] ∧
    (bufferProc.onEvent rb opts w (.point (some p))).batchedSize = 0 ∧
    (bufferProc.onEvent rb opts w (.point (some p))).content = [] ∧
    (bufferProc.onEvent rb opts w (.point (some p))).errs = w.errs ∧
    ∃ h, (bufferProc.onEvent rb opts w (.point (some p))).sendCh = w.sendCh ++ [h] ∧
      h.bytes = rows rb opts (w.batch ++ [p]) ∧ h.points = w.batch ++ [p] := by
  obtain ⟨h1, h2, _, h4, h5, h6, h7⟩ := batchPoint_ok rb opts w p data hg hrow
  unfold bufferProc.onEvent
  rcases hr : write.batchPoint rb opts w (some p) with ⟨_ | err, w1⟩
  · rw [hr] at h2 h4 h5 h6 h7
    simp only [hr]
    simp only at h2 h4 h5 h6 h7
    have hfull : w1.batchedSize >= opts.BatchSize := by
      rw [h4, hg.count]
      show opts.batchSize ≤ (w.batch.length : Int) + 1
      exact hsize
    rw [if_pos hfull]
    have hne : w1.batchedSize ≠ 0 := by
      rw [h4, hg.count]
      omega
    have hf := flushBuffer_of_count w1 hne
    refine ⟨flushBuffer_keeps_good rb opts w1 h2, hf.2.2.2.1, hf.2.2.1, hf.2.1,
      by rw [hf.2.2.2.2.2.1, h7],
      { data := w1.buf, bytes := w1.content, points := w1.batch }, ?_, ?_, ?_⟩
    · rw [hf.1, h6]
    · simp only
      rw [h2.content, h5]
    · simp only
      rw [h5]
  · rw [hr] at h1
    cases h1

/-- Points that keep the batch below the batch size are added to it in order,
and nothing is sent. -/
theorem arrivals_below (rb : RowBuilder B) (opts : WriteOptions) (points : List Point) :
    ∀ w : Batcher B, Good rb opts w →
      (∀ p ∈ points, ∃ data, batchPoint.row rb opts rb.create p = .ok data) →
      (w.batch.length : Int) + points.length < opts.batchSize →
      Good rb opts ((arrivals points).foldl (bufferProc.onEvent rb opts) w) ∧
      ((arrivals points).foldl (bufferProc.onEvent rb opts) w).batch = w.batch ++ points ∧
      ((arrivals points).foldl (bufferProc.onEvent rb opts) w).sendCh = w.sendCh ∧
      ((arrivals points).foldl (bufferProc.onEvent rb opts) w).errs = w.errs := by
  induction points with
  | nil => intro w hg _ _; exact ⟨hg, by simp [arrivals], rfl, rfl⟩
  | cons p rest ih =>
    intro w hg hok hsize
    obtain ⟨data, hrow⟩ := hok p (List.mem_cons_self _ _)
    simp only [List.length_cons] at hsize
    push_cast at hsize
    obtain ⟨k1, k2, k3, k4⟩ := onEvent_below rb opts w p data hg hrow (by omega)
    obtain ⟨j1, j2, j3, j4⟩ := ih (bufferProc.onEvent rb opts w (.point (some p))) k1
      (fun q hq => hok q (List.mem_cons_of_mem _ hq))
      (by rw [k2]; simp only [List.length_append, List.length_singleton]; push_cast; omega)
    simp only [arrivals, List.map_cons, List.foldl_cons] at j1 j2 j3 j4 ⊢
    exact ⟨j1, by rw [j2, k2]; simp, by rw [j3, k3], by rw [j4, k4]⟩

/-- Exactly as many points as the batch size, arriving at an empty batch: the
last of them sends the batch, and nothing is sent before. -/
theorem arrivals_full (rb : RowBuilder B) (opts : WriteOptions) (points : List Point)
    (w : Batcher B) (hg : Good rb opts w) (hempty : w.batch = [])
    (hok : ∀ p ∈ points, ∃ data, batchPoint.row rb opts rb.create p = .ok data)
    (hN : 1 ≤ points.length) (hsize : (points.length : Int) = opts.batchSize) :
    Good rb opts ((arrivals points).foldl (bufferProc.onEvent rb opts) w) ∧
    ((arrivals points).foldl (bufferProc.onEvent rb opts) w).batch = [] ∧
    ((arrivals points).foldl (bufferProc.onEvent rb opts) w).batchedSize = 0 ∧
    ((arrivals (points.take (points.length - 1))).foldl
      (bufferProc.onEvent rb opts) w).sendCh = w.sendCh ∧
    ∃ h, ((arrivals points).foldl (bufferProc.onEvent rb opts) w).sendCh = w.sendCh ++ [h] ∧
      h.bytes = rows rb opts points ∧ h.points = points := by
  obtain ⟨l, p, hl⟩ : ∃ l p, points = l ++ [p] := by
    have hne : points ≠ [] := by
      intro h0
      rw [h0] at hN
      simp at hN
    exact ⟨points.dropLast, points.getLast hne, (List.dropLast_append_getLast hne).symm⟩
  subst hl
  simp only [List.length_append, List.length_singleton] at hsize
  push_cast at hsize
  obtain ⟨data, hrow⟩ := hok p (by simp)
  obtain ⟨k1, k2, k3, _⟩ := arrivals_below rb opts l w hg
    (fun q hq => hok q (by simp [hq])) (by rw [hempty]; simp; omega)
  rw [hempty, List.nil_append] at k2
  obtain ⟨j1, j2, j3, _, _, h, j6, j7, j8⟩ := onEvent_full rb opts _ p data k1 hrow
    (by rw [k2]; omega)
  have hfold : (arrivals (l ++ [p])).foldl (bufferProc.onEvent rb opts) w
      = bufferProc.onEvent rb opts
          ((arrivals l).foldl (bufferProc.onEvent rb opts) w) (.point (some p)) := by
    simp [arrivals, List.foldl_append]
  rw [hfold]
  refine ⟨j1, j2, j3, ?_, h, by rw [j6, k3], by rw [j7, k2], by rw [j8, k2]⟩
  have htake : (l ++ [p]).take ((l ++ [p]).length - 1) = l := by
    simp
  rw [htake]
  exact k3

/-- C12 as stated fails when the number of points equals the batch size: with
`batchSize = 2` and two points, the batch is sent when the second point has
been batched, before any tick, and the tick that follows sends nothing. -/
theorem full_batch_flushes_before_tick :
    (((arrivals [samplePoint "cpu" 7, samplePoint "memory" 9]).foldl
        (bufferProc.onEvent lineBuilder (batchOptions 2)) (newBatcher lineBuilder)).sendCh.map
      (fun h => h.bytes)) = [[2, 3, 7, 1, 2, 6, 9, 1]] ∧
    (bufferProc.onEvent lineBuilder (batchOptions 2)
        ((arrivals [samplePoint "cpu" 7, samplePoint "memory" 9]).foldl
          (bufferProc.onEvent lineBuilder (batchOptions 2)) (newBatcher lineBuilder))
        Event.tick).sendCh
      = ((arrivals [samplePoint "cpu" 7, samplePoint "memory" 9]).foldl
          (bufferProc.onEvent lineBuilder (batchOptions 2)) (newBatcher lineBuilder)).sendCh := by
  decide

/-- C12 (amended): let `N` points whose rows are all built arrive at an empty
batch, with `1 <= N <= batchSize` and no tick in between, and let the flush
timer tick then. Exactly one payload is sent in total, and it shows the rows of
all `N` points in arrival order. When `N < batchSize` nothing is sent before
the tick, so the flush is the one of the timer; when `N = batchSize` the
payload is sent by the size check as soon as the `N`-th point has been batched,
and the tick sends nothing. -/
theorem one_flush_within_batch (rb : RowBuilder B) (opts : WriteOptions) (w : Batcher B)
    (points : List Point) (hg : Good rb opts w) (hempty : w.batch = [])
    (hok : ∀ p ∈ points, ∃ data, batchPoint.row rb opts rb.create p = .ok data)
    (hN : 1 ≤ points.length) (hsize : (points.length : Int) ≤ opts.batchSize) :
    (∃ h, (bufferProc.onEvent rb opts
          ((arrivals points).foldl (bufferProc.onEvent rb opts) w) Event.tick).sendCh
        = w.sendCh ++ [h] ∧
      h.bytes = rows rb opts points ∧ h.points = points) ∧
    ((points.length : Int) < opts.batchSize →
      ((arrivals points).foldl (bufferProc.onEvent rb opts) w).sendCh = w.sendCh) ∧
    ((points.length : Int) = opts.batchSize →
      ((arrivals (points.take (points.length - 1))).foldl
        (bufferProc.onEvent rb opts) w).sendCh = w.sendCh ∧
      (bufferProc.onEvent rb opts
          ((arrivals points).foldl (bufferProc.onEvent rb opts) w) Event.tick).sendCh
        = ((arrivals points).foldl (bufferProc.onEvent rb opts) w).sendCh) := by
  have hbelow : (points.length : Int) < opts.batchSize →
      Good rb opts ((arrivals points).foldl (bufferProc.onEvent rb opts) w) ∧
      ((arrivals points).foldl (bufferProc.onEvent rb opts) w).batch = points ∧
      ((arrivals points).foldl (bufferProc.onEvent rb opts) w).sendCh = w.sendCh := by
    intro hlt
    obtain ⟨k1, k2, k3, _⟩ := arrivals_below rb opts points w hg hok
      (by rw [hempty]; simp; omega)
    rw [hempty, List.nil_append] at k2
    exact ⟨k1, k2, k3⟩
  refine ⟨?_, fun hlt => (hbelow hlt).2.2, ?_⟩
  · rcases lt_or_eq_of_le hsize with hlt | heq
    · obtain ⟨k1, k2, k3⟩ := hbelow hlt
      have hne : ((arrivals points).foldl (bufferProc.onEvent rb opts) w).batchedSize ≠ 0 := by
        rw [k1.count, k2]
        omega
      have hf := flushBuffer_of_count _ hne
      refine ⟨{ data := ((arrivals points).foldl (bufferProc.onEvent rb opts) w).buf,
                bytes := ((arrivals points).foldl (bufferProc.onEvent rb opts) w).content,
                points := ((arrivals points).foldl (bufferProc.onEvent rb opts) w).batch },
        ?_, ?_, ?_⟩
      · show (write.flushBuffer _).sendCh = _
        rw [hf.1, k3]
      · simp only
        rw [k1.content, k2]
      · simp only
        rw [k2]
    · obtain ⟨_, _, j3, _, h, j5, j6, j7⟩ := arrivals_full rb opts points w hg hempty hok hN heq
      refine ⟨h, ?_, j6, j7⟩
      show (write.flushBuffer _).sendCh = _
      rw [flushBuffer_of_zero _ j3, j5]
  · intro heq
    obtain ⟨_, _, j3, j4, _⟩ := arrivals_full rb opts points w hg hempty hok hN heq
    refine ⟨j4, ?_⟩
    show (write.flushBuffer _).sendCh = _
    rw [flushBuffer_of_zero _ j3]

/-- One point below a batch size of 2: nothing is sent before the tick, and the
tick sends the row of the point. -/
theorem one_flush_within_batch_witness :
    ((arrivals [samplePoint "cpu" 7]).foldl
        (bufferProc.onEvent lineBuilder (batchOptions 2)) (newBatcher lineBuilder)).sendCh = [] ∧
    ∃ h, (bufferProc.onEvent lineBuilder (batchOptions 2)
          ((arrivals [samplePoint "cpu" 7]).foldl
            (bufferProc.onEvent lineBuilder (batchOptions 2)) (newBatcher lineBuilder))
          Event.tick).sendCh = [] ++ [h] ∧
      h.bytes = rows lineBuilder (batchOptions 2) [samplePoint "cpu" 7] ∧
      h.points = [samplePoint "cpu" 7] :=
  let t := one_flush_within_batch lineBuilder (batchOptions 2) (newBatcher lineBuilder)
    [samplePoint "cpu" 7] (newBatcher_good lineBuilder (batchOptions 2)).1 rfl
    (fun p hp => by
      simp only [List.mem_singleton] at hp
      subst hp
      exact ⟨[2, 3, 7, 1], rfl⟩)
    (by decide) (by decide)
  ⟨t.2.1 (by decide), t.1⟩

/-- C13: let more than `batchSize` points whose rows are all built arrive at an
empty batch, with `batchSize >= 1` and no tick in between. Nothing is sent
while fewer than `batchSize` points have been batched; when the
`batchSize`-th point has been batched a payload is sent at once, without any
tick, and it shows exactly the rows of the first `batchSize` points in arrival
order; it stays the first payload sent while the other points arrive. -/
theorem flush_at_batch_size (rb : RowBuilder B) (opts : WriteOptions) (w : Batcher B)
    (points : List Point) (hg : Good rb opts w) (hempty : w.batch = [])
    (hok : ∀ p ∈ points, ∃ data, batchPoint.row rb opts rb.create p = .ok data)
    (hb : 1 ≤ opts.batchSize) (hN : opts.batchSize < (points.length : Int)) :
    ((arrivals (points.take (opts.batchSize.toNat - 1))).foldl
      (bufferProc.onEvent rb opts) w).sendCh = w.sendCh ∧
    ∃ h, ((arrivals (points.take opts.batchSize.toNat)).foldl
          (bufferProc.onEvent rb opts) w).sendCh = w.sendCh ++ [h] ∧
      h.bytes = rows rb opts (points.take opts.batchSize.toNat) ∧
      h.points = points.take opts.batchSize.toNat ∧
      ∃ more, ((arrivals points).foldl (bufferProc.onEvent rb opts) w).sendCh
        = w.sendCh ++ h :: more := by
  have hk : (points.take opts.batchSize.toNat).length = opts.batchSize.toNat := by
    rw [List.length_take]
    omega
  have hokk : ∀ p ∈ points.take opts.batchSize.toNat,
      ∃ data, batchPoint.row rb opts rb.create p = .ok data :=
    fun p hp => hok p (List.mem_of_mem_take hp)
  obtain ⟨_, _, _, j4, h, j5, j6, j7⟩ := arrivals_full rb opts
    (points.take opts.batchSize.toNat) w hg hempty hokk (by rw [hk]; omega)
    (by rw [hk]; omega)
  rw [hk, List.take_take, Nat.min_eq_left (Nat.sub_le _ _)] at j4
  refine ⟨j4, h, j5, j6, j7, ?_⟩
  have hsplit : arrivals points
      = arrivals (points.take opts.batchSize.toNat)
          ++ arrivals (points.drop opts.batchSize.toNat) := by
    unfold arrivals
    rw [← List.map_append, List.take_append_drop]
  obtain ⟨more, hm⟩ := events_sendCh rb opts (arrivals (points.drop opts.batchSize.toNat))
    ((arrivals (points.take opts.batchSize.toNat)).foldl (bufferProc.onEvent rb opts) w)
  refine ⟨more, ?_⟩
  rw [hsplit, List.foldl_append, hm, j5]
  simp

/-- Three points against a batch size of 2: the second point sends the rows of
the first two. -/
theorem flush_at_batch_size_witness :
    ((arrivals ([samplePoint "cpu" 7, samplePoint "memory" 9, samplePoint "disk" 11].take
        ((batchOptions 2).batchSize.toNat - 1))).foldl
      (bufferProc.onEvent lineBuilder (batchOptions 2)) (newBatcher lineBuilder)).sendCh = [] ∧
    (((arrivals [samplePoint "cpu" 7, samplePoint "memory" 9, samplePoint "disk" 11]).foldl
        (bufferProc.onEvent lineBuilder (batchOptions 2)) (newBatcher lineBuilder)).sendCh.map
      (fun h => h.bytes)) = [[2, 3, 7, 1, 2, 6, 9, 1]] :=
  ⟨(flush_at_batch_size lineBuilder (batchOptions 2) (newBatcher lineBuilder)
      [samplePoint "cpu" 7, samplePoint "memory" 9, samplePoint "disk" 11]
      (newBatcher_good lineBuilder (batchOptions 2)).1 rfl
      (fun p hp => by
        simp only [List.mem_cons, List.mem_singleton, List.not_mem_nil, or_false] at hp
        rcases hp with hp | hp | hp
        · exact ⟨[2, 3, 7, 1], by rw [hp]; rfl⟩
        · exact ⟨[2, 6, 9, 1], by rw [hp]; rfl⟩
        · exact ⟨[2, 4, 11, 1], by rw [hp]; rfl⟩)
      (by decide) (by decide)).1,
    by decide⟩

/-! ## A point whose row fails -/

/-- The ways in which the row of a point fails: a default tag is rejected, a
tag of the point is rejected, a field is rejected, or the build fails. -/
theorem row_error_iff (rb : RowBuilder B) (opts : WriteOptions) (b : B) (p : Point)
    (err : Error) :
    batchPoint.row rb opts b p = .error err ↔
      batchPoint.addTag rb (opts.DefaultTags.getD [])
          (rb.AddTimestamp (rb.AddMetricName (rb.AddNameSpace b p.namespace_) p.name)
            p.timestamp) = .error err ∨
      ∃ b4, batchPoint.addTag rb (opts.DefaultTags.getD [])
          (rb.AddTimestamp (rb.AddMetricName (rb.AddNameSpace b p.namespace_) p.name)
            p.timestamp) = .ok b4 ∧
        (batchPoint.addTag rb p.tags b4 = .error err ∨
          ∃ b5, batchPoint.addTag rb p.tags b4 = .ok b5 ∧
            (batchPoint.writeFields rb p.fields b5 = .error err ∨
              ∃ b6, batchPoint.writeFields rb p.fields b5 = .ok b6 ∧
                rb.Build b6 = .error err)) := by
  unfold batchPoint.row
  simp only
  cases h1 : batchPoint.addTag rb (opts.DefaultTags.getD [])
      (rb.AddTimestamp (rb.AddMetricName (rb.AddNameSpace b p.namespace_) p.name)
        p.timestamp) with
  | error e1 => simp
  | ok b4 =>
    cases h2 : batchPoint.addTag rb p.tags b4 with
    | error e2 => simp [h2]
    | ok b5 =>
      cases h3 : batchPoint.writeFields rb p.fields b5 with
      | error e3 => simp [h2, h3]
      | ok b6 => simp [h2, h3]

/-- C14: when `batchPoint` fails for a point, whatever step of the row failed
(a default tag, a tag of the point, a field, or the build), it returns the
error and leaves the memory and the bytes of the encode buffer, the count, the
batch and what was sent exactly as they were; the loop of `bufferProc` and the
final drain emit the error and go on; and a point that arrives afterwards and
whose row is built is appended to the same batch, after the rows that were
there. -/
theorem failed_point_keeps_batch (rb : RowBuilder B) (opts : WriteOptions) (w : Batcher B)
    (p : Point) (err : Error) (hg : Good rb opts w)
    (hrow : batchPoint.row rb opts w.builder p = .error err) :
    (write.batchPoint rb opts w (some p)).1 = some err ∧
    (write.batchPoint rb opts w (some p)).2.store = w.store ∧
    (write.batchPoint rb opts w (some p)).2.buf = w.buf ∧
    (write.batchPoint rb opts w (some p)).2.content = w.content ∧
    (write.batchPoint rb opts w (some p)).2.batchedSize = w.batchedSize ∧
    (write.batchPoint rb opts w (some p)).2.batch = w.batch ∧
    (write.batchPoint rb opts w (some p)).2.sendCh = w.sendCh ∧
    bufferProc.onEvent rb opts w (.point (some p))
      = Batcher.emitErr err { w with builder := rb.create } ∧
    bufferProc.drain rb opts w (some p)
      = Batcher.emitErr err { w with builder := rb.create } ∧
    ∀ q data, batchPoint.row rb opts rb.create q = .ok data →
      (write.batchPoint rb opts
          (bufferProc.onEvent rb opts w (.point (some p))) (some q)).1 = none ∧
      (write.batchPoint rb opts
          (bufferProc.onEvent rb opts w (.point (some p))) (some q)).2.content
        = w.content ++ data ∧
      (write.batchPoint rb opts
          (bufferProc.onEvent rb opts w (.point (some p))) (some q)).2.batchedSize
        = w.batchedSize + 1 ∧
      (write.batchPoint rb opts
          (bufferProc.onEvent rb opts w (.point (some p))) (some q)).2.batch
        = w.batch ++ [q] := by
  have heq := batchPoint_error rb opts w p err hrow
  have hev : bufferProc.onEvent rb opts w (.point (some p))
      = Batcher.emitErr err { w with builder := rb.create } := by
    simp [bufferProc.onEvent, heq]
  have hdr : bufferProc.drain rb opts w (some p)
      = Batcher.emitErr err { w with builder := rb.create } := by
    simp [bufferProc.drain, heq]
  refine ⟨by rw [heq], by rw [heq], by rw [heq], by rw [heq]; rfl, by rw [heq], by rw [heq],
    by rw [heq], hev, hdr, ?_⟩
  intro q data hq
  have hg1 : Good rb opts (Batcher.emitErr err { w with builder := rb.create }) :=
    ⟨hg.arr, hg.len, rfl, hg.count, hg.content, hg.built⟩
  obtain ⟨k1, _, k3, k4, k5, _, _⟩ := batchPoint_ok rb opts _ q data hg1 hq
  rw [hev]
  exact ⟨k1, k3, k4, k5⟩

/-- A wrong point after a good one, then another good one: the wrong point
leaves the four bytes of the first row alone, its error is emitted, and the
row of the third point follows the first row. -/
theorem failed_point_keeps_batch_witness :
    (bufferProc.onEvent lineBuilder (batchOptions 5)
        ((arrivals [samplePoint "cpu" 7]).foldl
          (bufferProc.onEvent lineBuilder (batchOptions 5)) (newBatcher lineBuilder))
        (.point (some wrongPoint))).errs = [Error.lib [1]] ∧
    (write.batchPoint lineBuilder (batchOptions 5)
        ((arrivals [samplePoint "cpu" 7]).foldl
          (bufferProc.onEvent lineBuilder (batchOptions 5)) (newBatcher lineBuilder))
        (some wrongPoint)).2.content = [2, 3, 7, 1] ∧
    (write.batchPoint lineBuilder (batchOptions 5)
        (bufferProc.onEvent lineBuilder (batchOptions 5)
          ((arrivals [samplePoint "cpu" 7]).foldl
            (bufferProc.onEvent lineBuilder (batchOptions 5)) (newBatcher lineBuilder))
          (.point (some wrongPoint)))
        (some (samplePoint "memory" 9))).2.content = [2, 3, 7, 1, 2, 6, 9, 1] :=
  let t := failed_point_keeps_batch lineBuilder (batchOptions 5)
    ((arrivals [samplePoint "cpu" 7]).foldl
      (bufferProc.onEvent lineBuilder (batchOptions 5)) (newBatcher lineBuilder))
    wrongPoint (Error.lib [1])
    (events_good lineBuilder (batchOptions 5) (arrivals [samplePoint "cpu" 7]) _
      (newBatcher_good lineBuilder (batchOptions 5)).1
      (newBatcher_good lineBuilder (batchOptions 5)).2).1
    rfl
  ⟨by decide, t.2.2.2.1.trans (by decide),
    ((t.2.2.2.2.2.2.2.2.2 (samplePoint "memory" 9) [2, 6, 9, 1] rfl).2.1).trans (by decide)⟩

/-! ## The size of the payloads -/

/-- What `batchPoint` does to the batch: it either adds the point and one to
the count, returning nil, or leaves both; it never sends. -/
theorem batchPoint_shape (rb : RowBuilder B) (opts : WriteOptions) (w : Batcher B)
    (point : Option Point) :
    (((write.batchPoint rb opts w point).1 = none ∧ ∃ p, point = some p ∧
        (write.batchPoint rb opts w point).2.batch = w.batch ++ [p] ∧
        (write.batchPoint rb opts w point).2.batchedSize = w.batchedSize + 1) ∨
      ((write.batchPoint rb opts w point).2.batch = w.batch ∧
        (write.batchPoint rb opts w point).2.batchedSize = w.batchedSize)) ∧
    (write.batchPoint rb opts w point).2.sendCh = w.sendCh := by
  refine ⟨?_, batchPoint_sendCh rb opts w point⟩
  cases point with
  | none => exact Or.inr ⟨rfl, rfl⟩
  | some p =>
    cases hrow : batchPoint.row rb opts w.builder p with
    | error err =>
      rw [batchPoint_error rb opts w p err hrow]
      exact Or.inr ⟨rfl, rfl⟩
    | ok data =>
      left
      simp [write.batchPoint, hrow]

/-- A flush keeps the bound on the payloads. -/
theorem flushBuffer_bounded (opts : WriteOptions) (w : Batcher B)
    (hb : 1 ≤ opts.batchSize) (hlen : (w.batch.length : Int) ≤ opts.batchSize)
    (hsent : ∀ h ∈ w.sendCh, (h.points.length : Int) ≤ opts.batchSize) :
    Bounded opts (write.flushBuffer w) ∨
      (write.flushBuffer w = w ∧ w.batchedSize = 0) := by
  by_cases h : w.batchedSize = 0
  · exact Or.inr ⟨flushBuffer_of_zero w h, h⟩
  · left
    have hf := flushBuffer_of_count w h
    refine ⟨by rw [hf.2.2.1, hf.2.2.2.1]; rfl, by rw [hf.2.2.2.1]; simp; omega, ?_⟩
    intro x hx
    rw [hf.1] at hx
    simp only [List.mem_append, List.mem_singleton] at hx
    rcases hx with hx | hx
    · exact hsent x hx
    · subst hx
      exact hlen

/-- A step of the loop of `bufferProc` keeps the bound on the payloads: the
size check runs after every point. -/
theorem onEvent_bounded (rb : RowBuilder B) (opts : WriteOptions) (w : Batcher B) (e : Event)
    (hb : 1 ≤ opts.batchSize) (h : Bounded opts w) :
    Bounded opts (bufferProc.onEvent rb opts w e) := by
  cases e with
  | tick =>
    rcases flushBuffer_bounded opts w hb (le_of_lt h.below) h.sent with k | k
    · exact k
    · show Bounded opts (write.flushBuffer w)
      rw [k.1]
      exact h
  | point p =>
    obtain ⟨hshape, hsend⟩ := batchPoint_shape rb opts w p
    unfold bufferProc.onEvent
    rcases hr : write.batchPoint rb opts w p with ⟨_ | err, w1⟩
    · rw [hr] at hshape hsend
      simp only [hr]
      simp only at hshape hsend
      have hsent1 : ∀ x ∈ w1.sendCh, (x.points.length : Int) ≤ opts.batchSize := by
        rw [hsend]
        exact h.sent
      rcases hshape with ⟨_, q, _, k2, k3⟩ | ⟨k2, k3⟩
      · have hc1 : w1.batchedSize = w1.batch.length := by
          rw [k3, k2, h.count]
          simp
        have hl1 : (w1.batch.length : Int) ≤ opts.batchSize := by
          rw [k2]
          simp only [List.length_append, List.length_singleton]
          push_cast
          have := h.below
          omega
        by_cases hfull : w1.batchedSize >= opts.BatchSize
        · rw [if_pos hfull]
          rcases flushBuffer_bounded opts w1 hb hl1 hsent1 with k | k
          · exact k
          · exfalso
            rw [k3, h.count] at k
            omega
        · rw [if_neg hfull]
          refine ⟨hc1, ?_, hsent1⟩
          have : ¬ (opts.batchSize ≤ w1.batchedSize) := hfull
          rw [hc1] at this
          omega
      · have hnot : ¬ w1.batchedSize >= opts.BatchSize := by
          rw [k3, h.count]
          show ¬ (opts.batchSize ≤ (w.batch.length : Int))
          have := h.below
          omega
        rw [if_neg hnot]
        exact ⟨by rw [k3, k2]; exact h.count, by rw [k2]; exact h.below, hsent1⟩
    · rw [hr] at hshape hsend
      simp only [hr]
      simp only at hshape hsend
      rcases hshape with ⟨k1, _⟩ | ⟨k2, k3⟩
      · cases k1
      · exact ⟨by simp only [Batcher.emitErr]; rw [k3, k2]; exact h.count,
          by simp only [Batcher.emitErr]; rw [k2]; exact h.below,
          by simp only [Batcher.emitErr]; rw [hsend]; exact h.sent⟩

/-- The payloads sent by the loop of `bufferProc`, by size or by the timer,
hold at most `batchSize` points. -/
theorem events_bounded (rb : RowBuilder B) (opts : WriteOptions) (events : List Event)
    (hb : 1 ≤ opts.batchSize) :
    ∀ w : Batcher B, Bounded opts w →
      Bounded opts (events.foldl (bufferProc.onEvent rb opts) w) := by
  induction events with
  | nil => intro w h; exact h
  | cons e rest ih =>
    intro w h
    exact ih _ (onEvent_bounded rb opts w e hb h)

/-- The final drain adds every pending point whose row is built to the batch,
without a size check. -/
theorem drain_all (rb : RowBuilder B) (opts : WriteOptions) (pending : List Point) :
    ∀ w : Batcher B, Good rb opts w →
      (∀ p ∈ pending, ∃ data, batchPoint.row rb opts rb.create p = .ok data) →
      Good rb opts ((pending.map some).foldl (bufferProc.drain rb opts) w) ∧
      ((pending.map some).foldl (bufferProc.drain rb opts) w).batch = w.batch ++ pending ∧
      ((pending.map some).foldl (bufferProc.drain rb opts) w).sendCh = w.sendCh := by
  induction pending with
  | nil => intro w hg _; exact ⟨hg, by simp, rfl⟩
  | cons p rest ih =>
    intro w hg hok
    obtain ⟨data, hrow⟩ := hok p (List.mem_cons_self _ _)
    obtain ⟨k1, k2, _, _, k5, k6, _⟩ := batchPoint_ok rb opts w p data hg hrow
    have hd : bufferProc.drain rb opts w (some p) = (write.batchPoint rb opts w (some p)).2 := by
      unfold bufferProc.drain
      rcases hr : write.batchPoint rb opts w (some p) with ⟨_ | err, w1⟩
      · rfl
      · rw [hr] at k1
        cases k1
    obtain ⟨j1, j2, j3⟩ := ih (bufferProc.drain rb opts w (some p)) (by rw [hd]; exact k2)
      (fun q hq => hok q (List.mem_cons_of_mem _ hq))
    simp only [List.map_cons, List.foldl_cons]
    refine ⟨j1, ?_, ?_⟩
    · rw [j2, hd, k5]
      simp
    · rw [j3, hd, k6]

/-- C15 (as the code behaves): the final drain at shutdown batches every
pending point without a size check and then flushes once, so the last payload
holds the whole batch and all pending points, however many they are: whenever
the batch and the pending points together are more than `batchSize`, the
payload holds more than `batchSize` points. The payloads that the loop sends
by size or by the timer hold at most `batchSize` points. -/
theorem drain_ignores_batch_size (rb : RowBuilder B) (opts : WriteOptions) (w : Batcher B)
    (pending : List Point) (hg : Good rb opts w)
    (hok : ∀ p ∈ pending, ∃ data, batchPoint.row rb opts rb.create p = .ok data)
    (hne : w.batch ++ pending ≠ []) :
    (∃ h, (bufferProc.onStop rb opts w (pending.map some)).sendCh = w.sendCh ++ [h] ∧
      h.points = w.batch ++ pending ∧ h.bytes = rows rb opts (w.batch ++ pending)) ∧
    (1 ≤ opts.batchSize → Bounded opts w → ∀ events : List Event,
      Bounded opts (events.foldl (bufferProc.onEvent rb opts) w)) := by
  refine ⟨?_, fun hb hbd events => events_bounded rb opts events hb w hbd⟩
  obtain ⟨j1, j2, j3⟩ := drain_all rb opts pending w hg hok
  have hcount : ((pending.map some).foldl (bufferProc.drain rb opts) w).batchedSize ≠ 0 := by
    rw [j1.count, j2]
    intro h0
    have : (w.batch ++ pending).length = 0 := by exact_mod_cast h0
    exact hne (List.length_eq_zero.mp this)
  have hf := flushBuffer_of_count _ hcount
  refine ⟨{ data := ((pending.map some).foldl (bufferProc.drain rb opts) w).buf,
            bytes := ((pending.map some).foldl (bufferProc.drain rb opts) w).content,
            points := ((pending.map some).foldl (bufferProc.drain rb opts) w).batch },
    ?_, ?_, ?_⟩
  · unfold bufferProc.onStop
    rw [hf.1, j3]
  · simp only
    rw [j2]
  · simp only
    rw [j1.content, j2]

/-- The failing input of C15: the batch size is 1 and two points are in
`bufferCh` (whose capacity is `batchSize + 1 = 2`) when the stop signal is
taken. The task sends one payload that holds both points. -/
theorem drain_ignores_batch_size_witness :
    ((write.bufferProc lineBuilder (batchOptions 1) []
        [some (samplePoint "cpu" 7), some (samplePoint "memory" 9)]
        (newBatcher lineBuilder)).sendCh.map (fun h => h.points.length)) = [2] ∧
    ∃ h, (bufferProc.onStop lineBuilder (batchOptions 1) (newBatcher lineBuilder)
          ([samplePoint "cpu" 7, samplePoint "memory" 9].map some)).sendCh = [] ++ [h] ∧
      h.points = [] ++ [samplePoint "cpu" 7, samplePoint "memory" 9] ∧
      h.bytes = rows lineBuilder (batchOptions 1)
        ([] ++ [samplePoint "cpu" 7, samplePoint "memory" 9]) :=
  ⟨by decide,
    (drain_ignores_batch_size lineBuilder (batchOptions 1) (newBatcher lineBuilder)
      [samplePoint "cpu" 7, samplePoint "memory" 9]
      (newBatcher_good lineBuilder (batchOptions 1)).1
      (fun p hp => by
        simp only [List.mem_cons, List.mem_singleton, List.not_mem_nil, or_false] at hp
        rcases hp with hp | hp
        · exact ⟨[2, 3, 7, 1], by rw [hp]; rfl⟩
        · exact ⟨[2, 6, 9, 1], by rw [hp]; rfl⟩)
      (by decide)).1⟩

/-! ## Flushes of an empty batch -/

/-- The rows of a batch that is not empty are not empty, when no built row is
empty. -/
theorem rows_ne_nil (rb : RowBuilder B) (opts : WriteOptions) (points : List Point)
    (hne : points ≠ [])
    (hbuilt : ∀ p ∈ points, ∃ data, batchPoint.row rb opts rb.create p = .ok data)
    (hrows : ∀ p data, batchPoint.row rb opts rb.create p = .ok data → data ≠ []) :
    rows rb opts points ≠ [] := by
  cases points with
  | nil => exact absurd rfl hne
  | cons p rest =>
    obtain ⟨data, hrow⟩ := hbuilt p (List.mem_cons_self _ _)
    have hd := hrows p data hrow
    intro h
    have hsplit : rows rb opts (p :: rest) = data ++ rows rb opts rest := by
      simp [rows, hrow]
    rw [hsplit] at h
    exact hd (List.append_eq_nil.mp h).1

/-- C16: a flush with a count of zero is a no-op: `flushBuffer` sends nothing
and leaves the encode buffer, the count and everything else as they were. A
flush with another count sends the bytes of the buffer and leaves the buffer
empty and the count at 0. Hence every payload that the batching task of a new
writer ever sends holds at least one point and shows the rows of its points; it
has no bytes only if a built row has none. -/
theorem empty_flush_is_noop (rb : RowBuilder B) (opts : WriteOptions) (w : Batcher B)
    (events : List Event) (pending : List (Option Point)) :
    (w.batchedSize = 0 → write.flushBuffer w = w) ∧
    (w.batchedSize ≠ 0 →
      (write.flushBuffer w).sendCh
        = w.sendCh ++ [{ data := w.buf, bytes := w.content, points := w.batch }] ∧
      (write.flushBuffer w).content = [] ∧
      (write.flushBuffer w).buf.len = 0 ∧
      (write.flushBuffer w).batchedSize = 0) ∧
    (∀ h ∈ (write.bufferProc rb opts events pending (newBatcher rb)).sendCh,
      h.points ≠ [] ∧ h.bytes = rows rb opts h.points) ∧
    ((∀ p data, batchPoint.row rb opts rb.create p = .ok data → data ≠ []) →
      ∀ h ∈ (write.bufferProc rb opts events pending (newBatcher rb)).sendCh,
        h.bytes ≠ []) := by
  have hseal := (bufferProc_good rb opts events pending (newBatcher rb)
    (newBatcher_good rb opts).1 (newBatcher_good rb opts).2).2
  refine ⟨flushBuffer_of_zero w, ?_, ?_, ?_⟩
  · intro h
    have hf := flushBuffer_of_count w h
    refine ⟨hf.1, hf.2.1, ?_, hf.2.2.1⟩
    simp [write.flushBuffer, h, Buffer.Reset]
  · intro h hmem
    exact ⟨(hseal h hmem).1, (hseal h hmem).2.1⟩
  · intro hrows h hmem
    obtain ⟨k1, k2, k3⟩ := hseal h hmem
    rw [k2]
    exact rows_ne_nil rb opts h.points k1 k3 hrows

/-! ## The memory of a sealed payload -/

/-- C17 (as the code behaves): the payload that `flushBuffer` sends is the
slice `w.buf.Bytes()`, which shares its array with the buffer, and `Reset`
keeps that array. So when, after a flush, `batchPoint` writes a row that is no
longer than the payload sent, the row is copied over the first bytes of that
payload: the sealed payload then shows the new row followed by the rest of its
old bytes. -/
theorem sealed_payload_overwritten (rb : RowBuilder B) (opts : WriteOptions) (w : Batcher B)
    (p : Point) (data : Bytes) (hg : Good rb opts w) (hcount : w.batchedSize ≠ 0)
    (hrow : batchPoint.row rb opts rb.create p = .ok data)
    (hfit : data.length ≤ w.buf.len) :
    (write.flushBuffer w).sendCh
      = w.sendCh ++ [{ data := w.buf, bytes := w.content, points := w.batch }] ∧
    (write.batchPoint rb opts (write.flushBuffer w) (some p)).2.sendCh
      = w.sendCh ++ [{ data := w.buf, bytes := w.content, points := w.batch }] ∧
    w.buf.bytes (write.batchPoint rb opts (write.flushBuffer w) (some p)).2.store
      = data ++ w.content.drop data.length := by
  have hf := flushBuffer_of_count w hcount
  refine ⟨hf.1, by rw [batchPoint_sendCh, hf.1], ?_⟩
  have hfl : write.flushBuffer w
      = { w with buf := Buffer.Reset w.buf, batchedSize := 0, batch := [],
                 sendCh := w.sendCh ++
                   [{ data := w.buf, bytes := w.content, points := w.batch }] } := by
    simp [write.flushBuffer, hcount, Buffer.Bytes, Batcher.content]
  have hrow1 : batchPoint.row rb opts w.builder p = .ok data := by rw [hg.fresh]; exact hrow
  have hlen := hg.len
  have hroom : data.length ≤ (w.store[w.buf.arr]?.getD []).length := by
    rw [← List.getD_eq_getElem?_getD]
    omega
  have hstore : (write.batchPoint rb opts (write.flushBuffer w) (some p)).2.store
      = w.store.set w.buf.arr (data ++ (w.store.getD w.buf.arr []).drop data.length) := by
    rw [hfl]
    simp [write.batchPoint, hrow1, Buffer.Write, Buffer.Reset, hroom]
  rw [hstore]
  unfold Slice.bytes Batcher.content Slice.bytes
  rw [List.getD_eq_getElem?_getD, List.getElem?_set_self hg.arr]
  simp only [Option.getD_some]
  rw [List.take_append_eq_append_take, List.take_of_length_le hfit, List.drop_take]

/-- The failing input of C17: a new writer batches the point `cpu`, the timer
flushes, and the point `memory` is batched. The payload sent by the flush
showed the row `[2, 3, 7, 1]` when it was sent; after the second point the same
slice shows `[2, 6, 9, 1]`. -/
theorem sealed_payload_overwritten_witness :
    ((bufferProc.onEvent lineBuilder (batchOptions 5)
        ((arrivals [samplePoint "cpu" 7]).foldl
          (bufferProc.onEvent lineBuilder (batchOptions 5)) (newBatcher lineBuilder))
        Event.tick).sendCh.map (fun h => (h.data, h.bytes)))
      = [({ arr := 1, len := 4 }, [2, 3, 7, 1])] ∧
    Slice.bytes
        (write.batchPoint lineBuilder (batchOptions 5)
          (write.flushBuffer ((arrivals [samplePoint "cpu" 7]).foldl
            (bufferProc.onEvent lineBuilder (batchOptions 5)) (newBatcher lineBuilder)))
          (some (samplePoint "memory" 9))).2.store
        { arr := 1, len := 4 }
      = [2, 6, 9, 1] :=
  ⟨by decide,
    ((sealed_payload_overwritten lineBuilder (batchOptions 5)
      ((arrivals [samplePoint "cpu" 7]).foldl
        (bufferProc.onEvent lineBuilder (batchOptions 5)) (newBatcher lineBuilder))
      (samplePoint "memory" 9) [2, 6, 9, 1]
      (events_good lineBuilder (batchOptions 5) (arrivals [samplePoint "cpu" 7]) _
        (newBatcher_good lineBuilder (batchOptions 5)).1
        (newBatcher_good lineBuilder (batchOptions 5)).2).1
      (by decide) rfl (by decide)).2.2).trans (by decide)⟩


/-! ## Option setters and getters -/

theorem chain_append (opt : WriteOptions) (calls : List Setter) (c : Setter) :
    opt.chain (calls ++ [c]) = (opt.chain calls).call c := by
  simp [WriteOptions.chain, List.foldl_append]

theorem lastSet_append {α : Type} (pick : Setter → Option α) (calls : List Setter)
    (c : Setter) :
    lastSet pick (calls ++ [c]) = (pick c).orElse (fun _ => lastSet pick calls) := by
  simp only [lastSet, List.foldl_append, List.foldl_cons, List.foldl_nil]
  cases pick c <;> rfl

theorem mapLookup_nil (k : String) : mapLookup [] k = none := rfl

theorem mapLookup_cons (e : String × String) (m : List (String × String)) (k : String) :
    mapLookup (e :: m) k = if e.1 = k then some e.2 else mapLookup m k := by
  by_cases h : e.1 = k <;> simp [mapLookup, List.find?_cons, h]

theorem mapLookup_map (m : List (String × String)) (key value k : String) :
    mapLookup (m.map (fun e => if e.1 = key then (key, value) else e)) k
      = if key = k then (mapLookup m k).map (fun _ => value) else mapLookup m k := by
  induction m with
  | nil => simp [mapLookup_nil]
  | cons e m ih =>
    rw [List.map_cons, mapLookup_cons, mapLookup_cons, ih]
    by_cases he : e.1 = key
    · by_cases h : key = k
      · subst h; simp [he]
      · have h1 : ¬ e.1 = k := fun h2 => h (he.symm.trans h2)
        simp [he, h, h1]
    · by_cases hk : e.1 = k
      · have h : ¬ key = k := fun h2 => he (hk.trans h2.symm)
        have h' : ¬ k = key := fun h2 => h h2.symm
        simp [hk, h, h']
      · simp [he, hk]

theorem mapLookup_append (m : List (String × String)) (key value k : String) :
    mapLookup (m ++ [(key, value)]) k
      = (mapLookup m k).orElse (fun _ => if key = k then some value else none) := by
  induction m with
  | nil => simp [mapLookup_nil, mapLookup_cons]
  | cons e m ih =>
    rw [List.cons_append, mapLookup_cons, mapLookup_cons, ih]
    by_cases hk : e.1 = k <;> simp [hk]

theorem any_key_iff (m : List (String × String)) (key : String) :
    m.any (fun e => e.1 = key) = (mapLookup m key).isSome := by
  induction m with
  | nil => simp [mapLookup_nil]
  | cons e m ih =>
    rw [List.any_cons, mapLookup_cons, ih]
    by_cases hk : e.1 = key <;> simp [hk]

theorem mapLookup_mapAssign (m : List (String × String)) (key value k : String) :
    mapLookup (mapAssign m key value) k
      = if key = k then some value else mapLookup m k := by
  unfold mapAssign
  rw [any_key_iff]
  by_cases hs : (mapLookup m key).isSome = true
  · rw [if_pos hs, mapLookup_map]
    by_cases h : key = k
    · subst h
      obtain ⟨v, hv⟩ := Option.isSome_iff_exists.mp hs
      simp [hv]
    · simp [h]
  · rw [if_neg hs, mapLookup_append]
    by_cases h : key = k
    · subst h
      have hn : mapLookup m key = none := by
        cases hm : mapLookup m key with
        | none => rfl
        | some v => simp [hm] at hs
      simp [hn]
    · cases hm : mapLookup m k <;> simp [h]

theorem mapAssign_keys (m : List (String × String)) (key value : String)
    (h : (m.map (fun e => e.1)).Nodup) :
    ((mapAssign m key value).map (fun e => e.1)).Nodup := by
  unfold mapAssign
  by_cases hany : m.any (fun e => e.1 = key) = true
  · rw [if_pos hany]
    have hk : (m.map (fun e => if e.1 = key then (key, value) else e)).map (fun e => e.1)
        = m.map (fun e => e.1) := by
      rw [List.map_map]
      apply List.map_congr_left
      intro e _
      by_cases he : e.1 = key <;> simp [he]
    rw [hk]; exact h
  · rw [if_neg hany]
    rw [List.map_append, List.nodup_append]
    refine ⟨h, by simp, ?_⟩
    intro a ha hb
    simp only [List.map_cons, List.map_nil, List.mem_singleton] at hb
    subst hb
    apply hany
    obtain ⟨e, he, hek⟩ := List.mem_map.mp ha
    simp only [List.any_eq_true, decide_eq_true_eq]
    exact ⟨e, he, hek⟩

theorem AddDefaultTag_fields (opt : WriteOptions) (key value : String) :
    (opt.AddDefaultTag key value).batchSize = opt.batchSize ∧
    (opt.AddDefaultTag key value).flushInterval = opt.flushInterval ∧
    (opt.AddDefaultTag key value).useGZip = opt.useGZip ∧
    (opt.AddDefaultTag key value).maxRetries = opt.maxRetries ∧
    (opt.AddDefaultTag key value).retryBufferLimit = opt.retryBufferLimit := by
  unfold WriteOptions.AddDefaultTag
  cases opt.defaultTags <;> exact ⟨rfl, rfl, rfl, rfl, rfl⟩

theorem AddDefaultTag_tag (opt : WriteOptions) (key value k : String) :
    (opt.AddDefaultTag key value).tag k = if key = k then some value else opt.tag k := by
  unfold WriteOptions.AddDefaultTag WriteOptions.tag WriteOptions.DefaultTags
  cases h : opt.defaultTags with
  | none =>
    simp only []
    rw [mapLookup_mapAssign, mapLookup_nil]
  | some m =>
    simp only []
    rw [mapLookup_mapAssign]

theorem AddDefaultTag_keys (opt : WriteOptions) (key value : String)
    (h : mapKeysDistinct opt.DefaultTags) :
    mapKeysDistinct (opt.AddDefaultTag key value).DefaultTags := by
  unfold WriteOptions.AddDefaultTag WriteOptions.DefaultTags at *
  cases hm : opt.defaultTags with
  | none => exact mapAssign_keys [] key value List.nodup_nil
  | some m =>
    rw [hm] at h
    exact mapAssign_keys m key value h

theorem chain_BatchSize (opt : WriteOptions) (calls : List Setter) :
    (opt.chain calls).BatchSize = (lastSet Setter.batchSize calls).getD opt.BatchSize := by
  induction calls using List.reverseRecOn with
  | nil => rfl
  | append_singleton l c ih =>
    rw [chain_append, lastSet_append]
    cases c <;>
      simp [WriteOptions.call, Setter.batchSize, WriteOptions.SetBatchSize,
        WriteOptions.SetFlushInterval, WriteOptions.SetUseGZip, WriteOptions.SetMaxRetries,
        WriteOptions.SetRetryBufferLimit, WriteOptions.BatchSize,
        (AddDefaultTag_fields _ _ _).1] <;>
      exact ih

theorem chain_FlushInterval (opt : WriteOptions) (calls : List Setter) :
    (opt.chain calls).FlushInterval
      = (lastSet Setter.flushInterval calls).getD opt.FlushInterval := by
  induction calls using List.reverseRecOn with
  | nil => rfl
  | append_singleton l c ih =>
    rw [chain_append, lastSet_append]
    cases c <;>
      simp [WriteOptions.call, Setter.flushInterval, WriteOptions.SetBatchSize,
        WriteOptions.SetFlushInterval, WriteOptions.SetUseGZip, WriteOptions.SetMaxRetries,
        WriteOptions.SetRetryBufferLimit, WriteOptions.FlushInterval,
        (AddDefaultTag_fields _ _ _).2.1] <;>
      exact ih

theorem chain_UseGZip (opt : WriteOptions) (calls : List Setter) :
    (opt.chain calls).UseGZip = (lastSet Setter.useGZip calls).getD opt.UseGZip := by
  induction calls using List.reverseRecOn with
  | nil => rfl
  | append_singleton l c ih =>
    rw [chain_append, lastSet_append]
    cases c <;>
      simp [WriteOptions.call, Setter.useGZip, WriteOptions.SetBatchSize,
        WriteOptions.SetFlushInterval, WriteOptions.SetUseGZip, WriteOptions.SetMaxRetries,
        WriteOptions.SetRetryBufferLimit, WriteOptions.UseGZip,
        (AddDefaultTag_fields _ _ _).2.2.1] <;>
      exact ih

theorem chain_MaxRetries (opt : WriteOptions) (calls : List Setter) :
    (opt.chain calls).MaxRetries = (lastSet Setter.maxRetries calls).getD opt.MaxRetries := by
  induction calls using List.reverseRecOn with
  | nil => rfl
  | append_singleton l c ih =>
    rw [chain_append, lastSet_append]
    cases c <;>
      simp [WriteOptions.call, Setter.maxRetries, WriteOptions.SetBatchSize,
        WriteOptions.SetFlushInterval, WriteOptions.SetUseGZip, WriteOptions.SetMaxRetries,
        WriteOptions.SetRetryBufferLimit, WriteOptions.MaxRetries,
        (AddDefaultTag_fields _ _ _).2.2.2.1] <;>
      exact ih

theorem chain_RetryBufferLimit (opt : WriteOptions) (calls : List Setter) :
    (opt.chain calls).RetryBufferLimit
      = (lastSet Setter.retryBufferLimit calls).getD opt.RetryBufferLimit := by
  induction calls using List.reverseRecOn with
  | nil => rfl
  | append_singleton l c ih =>
    rw [chain_append, lastSet_append]
    cases c <;>
      simp [WriteOptions.call, Setter.retryBufferLimit, WriteOptions.SetBatchSize,
        WriteOptions.SetFlushInterval, WriteOptions.SetUseGZip, WriteOptions.SetMaxRetries,
        WriteOptions.SetRetryBufferLimit, WriteOptions.RetryBufferLimit,
        (AddDefaultTag_fields _ _ _).2.2.2.2] <;>
      exact ih

theorem chain_tag (opt : WriteOptions) (calls : List Setter) (key : String) :
    (opt.chain calls).tag key
      = (lastSet (Setter.tag key) calls).orElse (fun _ => opt.tag key) := by
  induction calls using List.reverseRecOn with
  | nil => rfl
  | append_singleton l c ih =>
    rw [chain_append, lastSet_append]
    cases c with
    | AddDefaultTag k v =>
      simp only [WriteOptions.call, Setter.tag]
      rw [AddDefaultTag_tag]
      by_cases h : k = key
      · simp [h]
      · simp [h, ih]
    | _ => simpa [WriteOptions.call, Setter.tag] using ih

theorem chain_keys (opt : WriteOptions) (calls : List Setter)
    (h : mapKeysDistinct opt.DefaultTags) :
    mapKeysDistinct (opt.chain calls).DefaultTags := by
  induction calls using List.reverseRecOn with
  | nil => exact h
  | append_singleton l c ih =>
    rw [chain_append]
    cases c with
    | AddDefaultTag k v => exact AddDefaultTag_keys _ k v ih
    | _ => exact ih

/-- C27: `DefaultWriteOptions` has batch size 1000, flush interval 1000 ms,
gzip on, 3 retries, retry-buffer limit 100 and no default tags; after any
chain of setter calls on any options, every getter returns the value of the
last call of its setter in the chain, or the previous value when the chain has
no such call; the tag map holds for every key the value of the last
`AddDefaultTag` call for that key, or the previous entry when there is none,
and its keys stay distinct. -/
theorem setters_then_getters (opt : WriteOptions) (calls : List Setter) :
    (DefaultWriteOptions.BatchSize = 1000 ∧ DefaultWriteOptions.FlushInterval = 1000 ∧
      DefaultWriteOptions.UseGZip = true ∧ DefaultWriteOptions.MaxRetries = 3 ∧
      DefaultWriteOptions.RetryBufferLimit = 100 ∧ DefaultWriteOptions.DefaultTags = none) ∧
    (opt.chain calls).BatchSize = (lastSet Setter.batchSize calls).getD opt.BatchSize ∧
    (opt.chain calls).FlushInterval
      = (lastSet Setter.flushInterval calls).getD opt.FlushInterval ∧
    (opt.chain calls).UseGZip = (lastSet Setter.useGZip calls).getD opt.UseGZip ∧
    (opt.chain calls).MaxRetries = (lastSet Setter.maxRetries calls).getD opt.MaxRetries ∧
    (opt.chain calls).RetryBufferLimit
      = (lastSet Setter.retryBufferLimit calls).getD opt.RetryBufferLimit ∧
    (∀ key, (opt.chain calls).tag key
      = (lastSet (Setter.tag key) calls).orElse (fun _ => opt.tag key)) ∧
    (mapKeysDistinct opt.DefaultTags → mapKeysDistinct (opt.chain calls).DefaultTags) :=
  ⟨⟨rfl, rfl, rfl, rfl, rfl, rfl⟩, chain_BatchSize opt calls, chain_FlushInterval opt calls,
    chain_UseGZip opt calls, chain_MaxRetries opt calls, chain_RetryBufferLimit opt calls,
    chain_tag opt calls, chain_keys opt calls⟩


/-! ## The attempt counts in the retry queue -/

theorem retry_attempts (opts : WriteOptions) (data : ρ) (attempt : Int)
    (st : SendState σ ρ) (ha : 0 ≤ attempt)
    (h : ∀ r ∈ st.retryBuffers, 1 ≤ r.attempts ∧ r.attempts ≤ opts.MaxRetries) :
    ∀ r ∈ (sendProc.retry opts data attempt st).retryBuffers,
      1 ≤ r.attempts ∧ r.attempts ≤ opts.MaxRetries := by
  unfold sendProc.retry
  by_cases h1 : attempt >= opts.MaxRetries
  · rw [if_pos h1, emitErr_retryBuffers]; exact h
  · rw [if_neg h1]
    by_cases h2 : (st.retryBuffers.length : Int) > opts.RetryBufferLimit
    · rw [if_pos h2, emitErr_retryBuffers]; exact h
    · rw [if_neg h2]
      intro r hr
      rcases List.mem_append.mp hr with hr | hr
      · exact h r hr
      · rw [List.mem_singleton] at hr
        subst hr
        simp only [ge_iff_le, not_le] at h1
        exact ⟨by show 1 ≤ attempt + 1; omega, by show attempt + 1 ≤ opts.MaxRetries; omega⟩

theorem send_attempts (env : Env σ ρ) (opts : WriteOptions) (data : Bytes)
    (st : SendState σ ρ)
    (h : ∀ r ∈ st.retryBuffers, 1 ≤ r.attempts ∧ r.attempts ≤ opts.MaxRetries) :
    ∀ r ∈ (sendProc.send env opts data st).2.retryBuffers,
      1 ≤ r.attempts ∧ r.attempts ≤ opts.MaxRetries := by
  unfold sendProc.send
  by_cases hd : data.length = 0
  · rw [if_pos hd]; exact h
  · rw [if_neg hd]
    rcases hc : env.compress data st.world with ⟨res, s1⟩
    cases res with
    | error err => simp only [emitErr_retryBuffers]; exact h
    | ok reqData =>
      simp only []
      rcases hs : write.send env reqData s1 with ⟨e, s2⟩
      cases e with
      | none => exact h
      | some err =>
        simp only []
        apply retry_attempts _ _ _ _ (le_refl 0)
        rw [emitErr_retryBuffers]; exact h

theorem body_attempts (env : Env σ ρ) (opts : WriteOptions) (needRetry : Bool)
    (st : SendState σ ρ) (msg : retryReq ρ) (hm : 1 ≤ msg.attempts)
    (h : ∀ r ∈ st.retryBuffers, 1 ≤ r.attempts ∧ r.attempts ≤ opts.MaxRetries) :
    ∀ r ∈ (sendProc.sendRetryReq.body env opts needRetry st msg).retryBuffers,
      1 ≤ r.attempts ∧ r.attempts ≤ opts.MaxRetries := by
  unfold sendProc.sendRetryReq.body
  rcases hs : write.send env msg.data st.world with ⟨e, s1⟩
  cases e with
  | none => exact h
  | some err =>
    simp only []
    cases needRetry with
    | false => simp only [Bool.false_eq_true, if_false, emitErr_retryBuffers]; exact h
    | true =>
      simp only [if_true]
      apply retry_attempts _ _ _ _ (by omega)
      rw [emitErr_retryBuffers]; exact h

theorem walk_attempts (env : Env σ ρ) (opts : WriteOptions) (needRetry : Bool)
    (msgs : List (retryReq ρ)) (st : SendState σ ρ)
    (hm : ∀ r ∈ msgs, 1 ≤ r.attempts)
    (h : ∀ r ∈ st.retryBuffers, 1 ≤ r.attempts ∧ r.attempts ≤ opts.MaxRetries) :
    ∀ r ∈ (msgs.foldl (sendProc.sendRetryReq.body env opts needRetry) st).retryBuffers,
      1 ≤ r.attempts ∧ r.attempts ≤ opts.MaxRetries := by
  induction msgs generalizing st with
  | nil => exact h
  | cons msg rest ih =>
    rw [List.foldl_cons]
    apply ih
    · intro r hr; exact hm r (List.mem_cons_of_mem _ hr)
    · exact body_attempts env opts needRetry st msg (hm msg (List.mem_cons_self _ _)) h

theorem reaches_attempts (env : Env σ ρ) (opts : WriteOptions) (world : σ)
    (st : SendState σ ρ) (h : sendProc.Reaches env opts world st) :
    ∀ r ∈ st.retryBuffers, 1 ≤ r.attempts ∧ r.attempts ≤ opts.MaxRetries := by
  induction h with
  | start => intro r hr; cases hr
  | send st data _ ih => exact send_attempts env opts data st ih
  | redrive st needRetry k _ ih =>
    apply walk_attempts
    · intro r hr; exact (ih r (List.mem_of_mem_take hr)).1
    · intro r hr; cases hr

theorem reaches_sendRetryReq (env : Env σ ρ) (opts : WriteOptions) (world : σ)
    (needRetry : Bool) (st : SendState σ ρ) (h : sendProc.Reaches env opts world st) :
    sendProc.Reaches env opts world (sendProc.sendRetryReq env opts needRetry st) := by
  unfold sendProc.sendRetryReq
  by_cases hl : st.retryBuffers.length > 0
  · rw [if_pos hl]
    have := sendProc.Reaches.redrive st needRetry st.retryBuffers.length h
    rwa [List.take_length] at this
  · rw [if_neg hl]; exact h

theorem reaches_onData (env : Env σ ρ) (opts : WriteOptions) (world : σ)
    (st : SendState σ ρ) (data : Bytes) (h : sendProc.Reaches env opts world st) :
    sendProc.Reaches env opts world (sendProc.onData env opts st data) := by
  have hs := sendProc.Reaches.send st data h
  unfold sendProc.onData
  rcases hr : sendProc.send env opts data st with ⟨ok, st1⟩
  rw [hr] at hs
  cases ok with
  | true => exact reaches_sendRetryReq env opts world true st1 hs
  | false => exact hs

theorem reaches_live (env : Env σ ρ) (opts : WriteOptions) (world : σ)
    (live : List Bytes) (st : SendState σ ρ) (h : sendProc.Reaches env opts world st) :
    sendProc.Reaches env opts world (live.foldl (sendProc.onData env opts) st) := by
  induction live generalizing st with
  | nil => exact h
  | cons data rest ih => exact ih _ (reaches_onData env opts world st data h)

theorem reaches_pending (env : Env σ ρ) (opts : WriteOptions) (world : σ)
    (pending : List Bytes) (st : SendState σ ρ) (h : sendProc.Reaches env opts world st) :
    sendProc.Reaches env opts world
      (pending.foldl (fun s data => (sendProc.send env opts data s).2) st) := by
  induction pending generalizing st with
  | nil => exact h
  | cons data rest ih => exact ih _ (sendProc.Reaches.send st data h)

theorem reaches_sendProc (env : Env σ ρ) (opts : WriteOptions) (world : σ)
    (live pending : List Bytes) :
    sendProc.Reaches env opts world (write.sendProc env opts live pending world) :=
  reaches_sendRetryReq env opts world false _
    (reaches_pending env opts world pending _
      (reaches_live env opts world live _ sendProc.Reaches.start))

theorem failed_send_without_retries (env : Env σ ρ) (opts : WriteOptions) (data : Bytes)
    (st : SendState σ ρ) (reqData : ρ) (s1 s2 : σ) (err : Error)
    (hmax : opts.MaxRetries ≤ 0) (hd : data.length ≠ 0)
    (hc : env.compress data st.world = (.ok reqData, s1))
    (hs : write.send env reqData s1 = (some err, s2)) :
    (sendProc.send env opts data st).2.errs = st.errs ++ [err, Error.errTooManyRetry] ∧
    (sendProc.send env opts data st).2.retryBuffers = st.retryBuffers := by
  have h1 : opts.maxRetries ≤ 0 := hmax
  simp [sendProc.send, hd, hc, hs, sendProc.retry, h1, write.emitErr]

/-- C28: in every state that the send task goes through (after each send and
after each iteration of a redrive), every entry of the retry queue has an
attempt count between 1 and `maxRetries`; with `maxRetries ≤ 0` the queue is
empty in every such state, and a failed send of a payload reports its error
followed by `errTooManyRetry` and queues nothing. -/
theorem retry_queue_attempts (env : Env σ ρ) (opts : WriteOptions) (world : σ)
    (st : SendState σ ρ) (h : sendProc.Reaches env opts world st) :
    (∀ r ∈ st.retryBuffers, 1 ≤ r.attempts ∧ r.attempts ≤ opts.MaxRetries) ∧
    (opts.MaxRetries ≤ 0 →
      st.retryBuffers = [] ∧
      ∀ (data : Bytes) (reqData : ρ) (s1 s2 : σ) (err : Error),
        data.length ≠ 0 →
        env.compress data st.world = (.ok reqData, s1) →
        write.send env reqData s1 = (some err, s2) →
        (sendProc.send env opts data st).2.errs = st.errs ++ [err, Error.errTooManyRetry] ∧
        (sendProc.send env opts data st).2.retryBuffers = []) := by
  have hq := reaches_attempts env opts world st h
  refine ⟨hq, fun hmax => ?_⟩
  have hnil : st.retryBuffers = [] := by
    cases hb : st.retryBuffers with
    | nil => rfl
    | cons r rest =>
      have := hq r (by rw [hb]; exact List.mem_cons_self _ _)
      omega
  refine ⟨hnil, fun data reqData s1 s2 err hd hc hs => ?_⟩
  have hf := failed_send_without_retries env opts data st reqData s1 s2 err hmax hd hc hs
  exact ⟨hf.1, hf.2.trans hnil⟩

/-- Witness for C28: two payloads refused with status 500 under `maxRetries = 2`
leave two queue entries, both with an attempt count within 1 and 2. -/
theorem retry_queue_attempts_witness :
    ((write.sendProc (fixedServer 500 []) (failureOptions 2 100) [[1], [2]] [] ()).errs.length = 4 ∧
      ([[1], [2]].foldl (sendProc.onData (fixedServer 500 []) (failureOptions 2 100))
        { retryBuffers := [], errs := [], sent := [], world := () }).retryBuffers.length = 2) ∧
    ∀ r ∈ ([[1], [2]].foldl (sendProc.onData (fixedServer 500 []) (failureOptions 2 100))
        { retryBuffers := [], errs := [], sent := [], world := () }).retryBuffers,
      1 ≤ r.attempts ∧ r.attempts ≤ (failureOptions 2 100).MaxRetries :=
  ⟨by decide,
    (retry_queue_attempts (fixedServer 500 []) (failureOptions 2 100) () _
      (reaches_live (fixedServer 500 []) (failureOptions 2 100) () [[1], [2]] _
        sendProc.Reaches.start)).1⟩


/-! ## Closing the writer -/

theorem Close_returned (w w1 : write) (bufferDone sendDone : Bool)
    (h : w.Close bufferDone sendDone = .returned w1) :
    w1.closed = true ∧ (w.closed = true → w1 = w) ∧
    (w.closed = false → w1.bufferCh.closed = true) := by
  unfold write.Close at h
  by_cases hc : w.closed = true
  · rw [if_pos hc] at h
    cases h
    exact ⟨hc, fun _ => rfl, fun hf => by rw [hc] at hf; cases hf⟩
  · rw [if_neg hc, if_neg hc] at h
    split_ifs at h
    cases h
    exact ⟨rfl, fun h1 => absurd h1 hc, fun _ => rfl⟩

theorem Close_of_closed (w : write) (bufferDone sendDone : Bool) (h : w.closed = true) :
    w.Close bufferDone sendDone = .returned w := by
  unfold write.Close
  rw [if_pos h]

/-- C23: once a call of `Close` has returned, every later call of `Close`
returns as well (it neither panics nor waits), whatever the tasks do, and
leaves the writer as it is: `closed` stays true, no channel is closed again
and the record of `close` calls is unchanged. -/
theorem Close_idempotent (w w1 : write) (bufferDone sendDone : Bool)
    (h : w.Close bufferDone sendDone = .returned w1) :
    w1.closed = true ∧
    ∀ (again : List (Bool × Bool)), write.CloseAgain (.returned w1) again = .returned w1 := by
  have hc := (Close_returned w w1 bufferDone sendDone h).1
  refine ⟨hc, fun again => ?_⟩
  unfold write.CloseAgain
  induction again with
  | nil => rfl
  | cons b rest ih =>
    rw [List.foldl_cons]
    simp only []
    rw [Close_of_closed w1 b.1 b.2 hc]
    exact ih

/-- Witness for C23: the first `Close` of a new writer closes the five
channels, and two more calls change nothing. -/
theorem Close_idempotent_witness :
    (NewWrite DefaultWriteOptions).Close true true = .returned closedWriter ∧
    closedWriter.closes = ["stopBatchCh", "bufferCh", "stopSendCh", "sendCh", "errCh"] ∧
    write.CloseAgain (.returned closedWriter) [(true, true), (false, false)]
      = .returned closedWriter :=
  ⟨by decide, by decide,
    (Close_idempotent (NewWrite DefaultWriteOptions) closedWriter true true (by decide)).2
      [(true, true), (false, false)]⟩

/-! ## `AddPoint` after `Close` -/

/-- C30: on a writer that a call of `Close` has closed, `AddPoint` with a
valid point panics whenever the send on `bufferCh` is the case that `select`
takes: always when the context is not done, and when the context is done and
`select` picks the send; it returns, leaving the writer as it is, only when
the context is done and `select` picks that case. -/
theorem AddPoint_after_Close (w w1 : write) (bufferDone sendDone : Bool) (p : Point)
    (hopen : w.closed = false) (hclose : w.Close bufferDone sendDone = .returned w1)
    (hv : p.Valid = true) :
    (∀ pick, w1.AddPoint false pick (some p) = .panicked) ∧
    w1.AddPoint true false (some p) = .panicked ∧
    w1.AddPoint true true (some p) = .returned w1 := by
  have hb := (Close_returned w w1 bufferDone sendDone hclose).2.2 hopen
  refine ⟨fun pick => ?_, ?_, ?_⟩ <;> simp [write.AddPoint, hv, hb]

/-- Witness for C30: a new writer is closed, then a valid point is added under
a context that is not done. -/
theorem AddPoint_after_Close_witness :
    (NewWrite DefaultWriteOptions).closed = false ∧
    (NewWrite DefaultWriteOptions).Close true true = .returned closedWriter ∧
    (samplePoint "cpu" 1).Valid = true ∧
    closedWriter.AddPoint false false (some (samplePoint "cpu" 1)) = .panicked :=
  ⟨by decide, by decide, by decide,
    (AddPoint_after_Close (NewWrite DefaultWriteOptions) closedWriter true true
      (samplePoint "cpu" 1) (by decide) (by decide) (by decide)).1 false⟩


/-! ## The body of a request that is sent again -/

/-- In the memory of readers, a request whose body is the buffer `r` carries
the unread bytes of `r`, and a second request with the same buffer carries
what the first one left unread. -/
theorem resend_offers_remainder (gzip : Option (Bytes → Bytes)) (transport : Transport)
    (r : Nat) (s : Readers) (hr : r < s.buffers.length) :
    (((buffered gzip transport).Do r ((buffered gzip transport).Do r s).2).2).requests
      = s.requests ++ [s.buffers.getD r [],
          (s.buffers.getD r []).drop (transport s.requests.length (s.buffers.getD r [])).1] := by
  simp [buffered, List.getD_eq_getElem?_getD, List.getElem?_set_self hr]

/-- C29: a payload `P` that the server reads and refuses with status 500 is
queued; when the next payload `Q` is accepted, the redrive sends `P` again
with the same reader, of which nothing is left unread: the request carries an
empty body, without gzip and with it. When the first attempt fails before
anything is read (the broker cannot be reached) and gzip is on, the stream of
`P` is still in `w.gzipBuf` when `Q` is compressed, so the request for `Q`
carries both streams and the redrive carries none. -/
theorem redrive_body_is_remainder (gz : Bytes → Bytes) (P Q : Bytes)
    (hP : P.length ≠ 0) (hQ : Q.length ≠ 0) :
    (write.sendProc (buffered none (readsAll [500, 200])) (failureOptions 3 100)
        [P, Q] [] Readers.start).world.requests = [P, Q, []] ∧
    (write.sendProc (buffered (some gz) (readsAll [500, 200])) (failureOptions 3 100)
        [P, Q] [] Readers.start).world.requests = [gz P, gz Q, []] ∧
    (write.sendProc (buffered (some gz) (unreachable 1)) (failureOptions 3 100)
        [P, Q] [] Readers.start).world.requests = [gz P, gz P ++ gz Q, []] := by
  refine ⟨?_, ?_, ?_⟩ <;>
    simp [write.sendProc, sendProc.onStop, sendProc.onData, sendProc.send, hP, hQ, buffered,
      Readers.start, write.send, readsAll, unreachable, ReadAll, sendProc.retry,
      write.emitErr, failureOptions, DefaultWriteOptions, WriteOptions.SetMaxRetries,
      WriteOptions.SetBatchSize, WriteOptions.SetRetryBufferLimit, WriteOptions.MaxRetries,
      WriteOptions.RetryBufferLimit, sendProc.sendRetryReq, sendProc.sendRetryReq.body]

/-- Witness for C29: the payloads `[1, 2, 3]` and `[4, 5]` without gzip; the
third request, which sends the first payload again, has an empty body. -/
theorem redrive_body_is_remainder_witness :
    (write.sendProc (buffered none (readsAll [500, 200])) (failureOptions 3 100)
        [[1, 2, 3], [4, 5]] [] Readers.start).world.requests = [[1, 2, 3], [4, 5], []] :=
  (redrive_body_is_remainder marked [1, 2, 3] [4, 5] (by decide) (by decide)).1

end api

namespace client

variable {S : Type}

/-! ## The point buffer -/

/-- With room in the channel `In` appends the metric at the tail and returns
nil. -/
theorem In_of_room (b : buffer) (metric : Option Metric) (h : b.ch.length < b.cap) :
    b.In metric = .returned (none, { b with ch := b.ch ++ [metric] }) := by
  simp [buffer.In, h]

/-- On a full channel `In` of a metric returns `errBufferFull` and leaves the
buffer as it was. -/
theorem In_of_full (b : buffer) (m : Metric) (h : b.cap ≤ b.ch.length) :
    b.In (some m) = .returned (some Error.errBufferFull, b) := by
  have h1 : ¬ b.ch.length < b.cap := by omega
  simp [buffer.In, h1]

/-- The scenario of `TestBuffer_In`: capacity 1, two calls of `In`, then `Out`
yields exactly the first metric. -/
theorem In_twice_then_Out :
    (NewBuffer "db" 1).map (fun b => b.In (some (sample "name")))
      = some (.returned (none, { database := "db", ch := [some (sample "name")], cap := 1 })) ∧
    buffer.In { database := "db", ch := [some (sample "name")], cap := 1 }
        (some (sample "other"))
      = .returned (some Error.errBufferFull,
          { database := "db", ch := [some (sample "name")], cap := 1 }) ∧
    (buffer.Out { database := "db", ch := [some (sample "name")], cap := 1 }).1
      = [some (sample "name")] := by
  decide

/-- C7: `In` of a metric never blocks. On a buffer that holds fewer metrics
than its capacity it appends the metric at the tail and returns nil; on a
buffer that holds as many metrics as its capacity (or more) it returns
`errBufferFull` and leaves the buffer as it was. So on a new buffer of
capacity 1 the first `In` is accepted, the second is refused, and `Out` then
yields exactly the first metric. -/
theorem In_outcomes (b : buffer) (m : Metric) :
    (∃ r, b.In (some m) = .returned r) ∧
    (b.ch.length < b.cap →
      b.In (some m) = .returned (none, { b with ch := b.ch ++ [some m] })) ∧
    (b.cap ≤ b.ch.length → b.In (some m) = .returned (some Error.errBufferFull, b)) ∧
    (∀ (database : String) (m2 : Metric),
      NewBuffer database 1 = some { database := database, ch := [], cap := 1 } ∧
      buffer.In { database := database, ch := [], cap := 1 } (some m)
        = .returned (none, { database := database, ch := [some m], cap := 1 }) ∧
      buffer.In { database := database, ch := [some m], cap := 1 } (some m2)
        = .returned (some Error.errBufferFull,
            { database := database, ch := [some m], cap := 1 }) ∧
      (buffer.Out { database := database, ch := [some m], cap := 1 }).1 = [some m]) := by
  refine ⟨?_, fun h => In_of_room b (some m) h, fun h => In_of_full b m h, ?_⟩
  · by_cases h : b.ch.length < b.cap
    · exact ⟨_, In_of_room b (some m) h⟩
    · exact ⟨_, In_of_full b m (by omega)⟩
  · intro database m2
    refine ⟨by simp [NewBuffer], ?_, ?_, ?_⟩
    · exact In_of_room { database := database, ch := [], cap := 1 } (some m) (by simp)
    · exact In_of_full { database := database, ch := [some m], cap := 1 } m2 (by simp)
    · simp [buffer.Out, buffer.Out.loop]

/-- A nil pointer is outside what `In` is called with (`client.write` drops a
nil metric before the call). With room it is queued like a metric; on a full
buffer the log line of the `default` case reads `metric.Name` through it and
the call panics. -/
theorem In_nil_on_full_panics :
    buffer.In { database := "db", ch := [], cap := 1 } none
      = .returned (none, { database := "db", ch := [none], cap := 1 }) ∧
    buffer.In { database := "db", ch := [some (sample "name")], cap := 1 } none
      = .panicked := by
  decide

/-- The loop of `Out` moves the whole queue behind the batch. -/
theorem Out_loop_eq (ch : List (Option Metric)) :
    ∀ batch : List (Option Metric), buffer.Out.loop batch ch = (batch ++ ch, []) := by
  induction ch with
  | nil => intro batch; simp [buffer.Out.loop]
  | cons metric rest ih =>
    intro batch
    rw [buffer.Out.loop, ih]
    simp

/-- The method `Out` returns the queue and leaves it empty. -/
theorem Out_eq (b : buffer) : b.Out = (b.ch, { b with ch := [] }) := by
  simp [buffer.Out, Out_loop_eq]

/-- A buffer with room for `metrics` accepts all of them, in order. -/
theorem fill_of_room (metrics : List (Option Metric)) :
    ∀ b : buffer, b.ch.length + metrics.length ≤ b.cap →
      b.fill metrics = .returned (none, { b with ch := b.ch ++ metrics }) := by
  induction metrics with
  | nil => intro b _; simp [buffer.fill]
  | cons metric rest ih =>
    intro b h
    simp only [List.length_cons] at h
    rw [buffer.fill, In_of_room b metric (by omega)]
    simp only
    rw [ih _ (by simp; omega)]
    simp

/-- Rounds of filling and draining an empty buffer give back every round's
metrics and leave the buffer empty. -/
theorem rounds_of_empty (rounds : List (List (Option Metric))) :
    ∀ b : buffer, b.ch = [] → (∀ metrics ∈ rounds, metrics.length ≤ b.cap) →
      b.rounds rounds = some (rounds, b) := by
  induction rounds with
  | nil => intro b _ _; rfl
  | cons metrics rest ih =>
    intro b hb hall
    have hlen : metrics.length ≤ b.cap := hall metrics (List.mem_cons_self _ _)
    rw [buffer.rounds, fill_of_room metrics b (by rw [hb]; simpa using hlen)]
    simp only [Out_eq, hb, List.nil_append]
    have hb0 : ({ b with ch := [] } : buffer) = b := by
      cases b
      simp only at hb
      subst hb
      rfl
    rw [ih { b with ch := [] } rfl (fun m hm => hall m (List.mem_cons_of_mem _ hm))]
    simp [hb0]

/-- C8: `Out` returns all queued metrics in the order `In` accepted them and
leaves the buffer empty (an empty buffer gives an empty batch); the buffer it
leaves has the same capacity, and any number of rounds that each put at most
`cap` metrics in and take them out again give back each round's metrics in
order. -/
theorem Out_drains_in_order (b : buffer) (rounds : List (List (Option Metric)))
    (hrounds : ∀ metrics ∈ rounds, metrics.length ≤ b.cap) :
    b.Out.1 = b.ch ∧ b.Out.2 = { b with ch := [] } ∧
    (b.ch = [] → b.Out.1 = []) ∧
    b.Out.2.rounds rounds = some (rounds, b.Out.2) := by
  refine ⟨by rw [Out_eq], by rw [Out_eq], ?_, ?_⟩
  · intro h
    rw [Out_eq, h]
  · rw [Out_eq]
    exact rounds_of_empty rounds _ rfl hrounds

/-- Two rounds on a buffer of capacity 2 that starts with one metric queued. -/
theorem Out_drains_in_order_witness :
    (buffer.Out { database := "db", ch := [some (sample "a")], cap := 2 }).1
      = [some (sample "a")] ∧
    (buffer.Out { database := "db", ch := [some (sample "a")], cap := 2 }).2.rounds
        [[some (sample "b"), some (sample "c")], [some (sample "d")]]
      = some ([[some (sample "b"), some (sample "c")], [some (sample "d")]],
          { database := "db", ch := [], cap := 2 }) :=
  let h := Out_drains_in_order { database := "db", ch := [some (sample "a")], cap := 2 }
    [[some (sample "b"), some (sample "c")], [some (sample "d")]] (by decide)
  ⟨h.1, h.2.2.2⟩

/-! ## The client front end -/

/-- The method `client.write` on a dropped metric. -/
theorem write_of_dropped (b : buffer) (now : Int) (metric : Option Metric)
    (h : dropped metric = true) : client.write b now metric = .returned (none, b) := by
  cases metric with
  | none => rfl
  | some m =>
    simp only [dropped, Bool.or_eq_true, decide_eq_true_eq] at h
    unfold client.write
    rcases h with h | h
    · simp [h]
    · by_cases hn : m.Name = ""
      · simp [hn]
      · simp [hn, h]

/-- The loop of `WriteList` over dropped metrics only. -/
theorem loop_of_dropped (now : Nat → Int) (metrics : List (Option Metric)) :
    ∀ (i : Nat) (b : buffer), (∀ m ∈ metrics, dropped m = true) →
      client.WriteList.loop now i b metrics = (.returned none, b) := by
  induction metrics with
  | nil => intro i b _; rfl
  | cons metric rest ih =>
    intro i b h
    rw [client.WriteList.loop, write_of_dropped b (now i) metric (h metric (List.mem_cons_self _ _))]
    exact ih (i + 1) b (fun m hm => h m (List.mem_cons_of_mem _ hm))

/-- Looking a database up in a list of entries one of which was replaced. -/
theorem find_map_replace (database db : String) (b : buffer) (es : List (String × buffer)) :
    ((es.map (fun e => if e.1 = database then (e.1, b) else e)).find?
        (fun e => e.1 = db)).map Prod.snd
      = if db = database ∧ ((es.find? (fun e => e.1 = database)).isSome) then some b
        else (es.find? (fun e => e.1 = db)).map Prod.snd := by
  induction es with
  | nil => simp
  | cons e rest ih =>
    by_cases h1 : e.1 = database
    · by_cases h2 : db = database
      · subst h2
        simp [List.find?_cons, h1]
      · have h3 : ¬ e.1 = db := fun h => h2 (h ▸ h1)
        simp only [List.map_cons, h1, if_true, List.find?_cons]
        have h4 : ¬ database = db := fun h => h2 h.symm
        simp only [h4, decide_False, h3]
        rw [ih]
        simp [h2]
    · by_cases h2 : e.1 = db
      · have h3 : ¬ db = database := fun h => h1 (h2.trans h)
        simp [List.find?_cons, h1, h2, h3]
      · simp only [List.map_cons, h1, if_false, List.find?_cons, h2, decide_False]
        rw [ih]

/-- The buffers after a buffer was stored: the stored one for its database, the
old ones for the others. -/
theorem load_store (c : client S) (database db : String) (b : buffer) :
    (c.store database b).load db = if db = database then some b else c.load db := by
  unfold client.store
  by_cases hsome : (c.load database).isSome
  · rw [if_pos hsome]
    unfold client.load at hsome ⊢
    simp only
    rw [find_map_replace]
    by_cases hd : db = database
    · have : (c.bufferMap.find? (fun e => e.1 = database)).isSome := by
        simpa using hsome
      simp [hd, this]
    · simp [hd]
  · rw [if_neg hsome]
    unfold client.load at hsome ⊢
    simp only [List.find?_append]
    by_cases hd : db = database
    · subst hd
      have hnone : c.bufferMap.find? (fun e => e.1 = db) = none := by
        cases hfind : c.bufferMap.find? (fun e => decide (e.1 = db)) with
        | none => rfl
        | some e =>
          rw [hfind] at hsome
          simp at hsome
      simp [hnone]
    · have hd1 : ¬ database = db := fun h => hd h.symm
      cases hf : c.bufferMap.find? (fun e => decide (e.1 = db)) with
      | none => simp [hd, hd1]
      | some e => simp [hd]

/-- Storing a buffer with the contents the database already had leaves every
database's queue as it was. -/
theorem queued_store (c : client S) (database db : String) (b : buffer)
    (h : b.ch = c.queued database) : (c.store database b).queued db = c.queued db := by
  unfold client.queued at h ⊢
  rw [load_store]
  by_cases hd : db = database
  · subst hd
    simpa using h
  · simp [hd]

/-- A list of dropped metrics leaves every queue as it was. -/
theorem WriteList_of_dropped (c : client S) (now : Nat → Int) (ml : MetricList)
    (h : ∀ m ∈ ml.Metrics, dropped m = true) (db : String) :
    (c.WriteList now (some ml)).2.queued db = c.queued db := by
  unfold client.WriteList
  by_cases hc : c.closed = 1
  · simp [hc]
  · rw [if_neg hc]
    simp only
    by_cases hm : ml.Metrics.length = 0
    · rw [if_pos hm]
    · rw [if_neg hm]
      rcases hl : c.load ml.Database with _ | b
      · simp only
        by_cases hlock : c.locker4map = true
        · simp [hlock]
        · simp only [hlock, Bool.false_eq_true, if_false]
          by_cases hnum : c.databaseNum > c.clientConfig.DatabaseLimit
          · rw [if_pos hnum]
            rfl
          · rw [if_neg hnum]
            unfold NewBuffer
            by_cases hsize : c.clientConfig.BufferSize < 0
            · rw [if_pos hsize]
              rfl
            · rw [if_neg hsize]
              simp only [loop_of_dropped now ml.Metrics 0 _ h]
              apply queued_store
              simp [client.queued, hl]
      · simp only [loop_of_dropped now ml.Metrics 0 b h]
        apply queued_store
        simp [client.queued, hl]

/-- C9: a metric that is nil, has an empty name or has no field makes
`client.write` return nil with the buffer unchanged; `WriteList` of a list of
such metrics and `Write` of one such metric leave the queue of every database
as it was; and `AddPoint` with a nil point or a point that is not valid
returns with the writer unchanged: nothing is queued and nothing is
reported. -/
theorem dropped_metrics_not_buffered (c : client S) (b : buffer) (w : api.write) :
    (∀ (now : Int) (metric : Option Metric), dropped metric = true →
      client.write b now metric = .returned (none, b)) ∧
    (∀ (now : Nat → Int) (ml : MetricList), (∀ m ∈ ml.Metrics, dropped m = true) →
      ∀ db, (c.WriteList now (some ml)).2.queued db = c.queued db) ∧
    (∀ (now : Nat → Int) (database : String) (metric : Option Metric),
      dropped metric = true →
      ∀ db, (c.Write now database metric).2.queued db = c.queued db) ∧
    (∀ (ctxDone pick : Bool) (point : Option api.Point),
      (point = none ∨ ∃ p, point = some p ∧ p.Valid = false) →
      w.AddPoint ctxDone pick point = .returned w) := by
  refine ⟨fun now metric h => write_of_dropped b now metric h,
    fun now ml h db => WriteList_of_dropped c now ml h db, ?_, ?_⟩
  · intro now database metric h db
    unfold client.Write
    exact WriteList_of_dropped c now _ (by simpa using h) db
  · intro ctxDone pick point h
    rcases h with h | ⟨p, h, hv⟩
    · subst h
      rfl
    · subst h
      simp [api.write.AddPoint, hv]

/-- A client after `Close` is closed. -/
theorem Close_closed (wire : Wire) (send : S → Bytes → S) (c : client S) :
    (client.Close wire send c).2.closed = 1 := rfl

/-- Calls on a closed client return `errClientClosed` and leave it as it is. -/
theorem calls_of_closed (ks : List Call) :
    ∀ c : client S, c.closed = 1 →
      c.calls ks = (ks.map (fun _ => .returned (some Error.errClientClosed)), c) := by
  induction ks with
  | nil => intro c _; rfl
  | cons k rest ih =>
    intro c hc
    have hk : c.call k = (.returned (some Error.errClientClosed), c) := by
      cases k <;> simp [client.call, client.Write, client.WriteList, hc]
    rw [client.calls, hk]
    simp only
    rw [ih c hc]
    rfl

/-- C10: after `Close`, every `WriteList` and every `Write`, whatever its
argument (a nil list and an empty list included), returns `errClientClosed`,
and the client, with all its buffers, stays exactly as `Close` left it, over
any sequence of such calls. -/
theorem closed_client_rejects (wire : Wire) (send : S → Bytes → S) (c : client S)
    (ks : List Call) :
    (client.Close wire send c).1 = none ∧
    (client.Close wire send c).2.calls ks
      = (ks.map (fun _ => .returned (some Error.errClientClosed)),
          (client.Close wire send c).2) ∧
    (∀ (now : Nat → Int) (metricList : Option MetricList),
      (client.Close wire send c).2.WriteList now metricList
        = (.returned (some Error.errClientClosed), (client.Close wire send c).2)) ∧
    (∀ (now : Nat → Int) (database : String) (metric : Option Metric),
      (client.Close wire send c).2.Write now database metric
        = (.returned (some Error.errClientClosed), (client.Close wire send c).2)) := by
  have hc := Close_closed wire send c
  refine ⟨rfl, calls_of_closed ks _ hc, ?_, ?_⟩
  · intro now metricList
    simp [client.WriteList, hc]
  · intro now database metric
    simp [client.Write, client.WriteList, hc]

/-! ## The database limit -/

/-- The method `client.write` never returns `errTooManyDatabases`. -/
theorem write_not_too_many (b : buffer) (now : Int) (metric : Option Metric) :
    ∀ b1, client.write b now metric ≠ .returned (some Error.errTooManyDatabases, b1) := by
  intro b1
  unfold client.write
  cases metric with
  | none => simp
  | some m =>
    simp only
    by_cases h1 : m.Name = ""
    · simp [h1]
    · by_cases h2 : m.Fields.length = 0
      · simp [h1, h2]
      · rw [if_neg h1, if_neg h2]
        unfold buffer.In
        by_cases h3 : b.ch.length < b.cap
        · simp [h3]
        · simp [h3]

/-- The loop of `WriteList` never ends with `errTooManyDatabases`. -/
theorem loop_not_too_many (now : Nat → Int) (metrics : List (Option Metric)) :
    ∀ (i : Nat) (b : buffer),
      (client.WriteList.loop now i b metrics).1
        ≠ .returned (some Error.errTooManyDatabases) := by
  induction metrics with
  | nil => intro i b; simp [client.WriteList.loop]
  | cons metric rest ih =>
    intro i b
    unfold client.WriteList.loop
    rcases hw : client.write b (now i) metric with ⟨⟨_ | err, b1⟩⟩ | _ | _
    · exact ih (i + 1) b1
    · intro h
      simp only [Outcome.returned.injEq, Option.some.injEq] at h
      subst h
      exact write_not_too_many b (now i) metric b1 hw
    · simp
    · simp

/-- Storing a buffer changes neither `databaseNum` nor the configuration. -/
theorem store_databaseNum (c : client S) (database : String) (b : buffer) :
    (c.store database b).databaseNum = c.databaseNum ∧
    (c.store database b).clientConfig = c.clientConfig := by
  unfold client.store
  by_cases h : (c.load database).isSome
  · rw [if_pos h]
    exact ⟨rfl, rfl⟩
  · rw [if_neg h]
    exact ⟨rfl, rfl⟩

/-- The method `WriteList` changes neither `databaseNum` nor the
configuration. -/
theorem WriteList_databaseNum (c : client S) (now : Nat → Int) (ml : Option MetricList) :
    (c.WriteList now ml).2.databaseNum = c.databaseNum ∧
    (c.WriteList now ml).2.clientConfig = c.clientConfig := by
  unfold client.WriteList
  by_cases hc : c.closed = 1
  · rw [if_pos hc]
    exact ⟨rfl, rfl⟩
  · rw [if_neg hc]
    cases ml with
    | none => exact ⟨rfl, rfl⟩
    | some ml =>
      simp only
      by_cases hm : ml.Metrics.length = 0
      · rw [if_pos hm]
        exact ⟨rfl, rfl⟩
      · rw [if_neg hm]
        cases hl : c.load ml.Database with
        | some b => exact store_databaseNum c _ _
        | none =>
          simp only
          by_cases hlock : c.locker4map = true
          · rw [if_pos hlock]
            exact ⟨rfl, rfl⟩
          · rw [if_neg hlock]
            by_cases hnum : c.databaseNum > c.clientConfig.DatabaseLimit
            · rw [if_pos hnum]
              exact ⟨rfl, rfl⟩
            · rw [if_neg hnum]
              cases NewBuffer ml.Database c.clientConfig.BufferSize with
              | none => exact ⟨rfl, rfl⟩
              | some b => exact store_databaseNum c _ _

/-- While `databaseNum` does not exceed the limit `WriteList` does not return
`errTooManyDatabases`. -/
theorem WriteList_not_too_many (c : client S) (now : Nat → Int) (ml : Option MetricList)
    (h : c.databaseNum ≤ c.clientConfig.DatabaseLimit) :
    (c.WriteList now ml).1 ≠ .returned (some Error.errTooManyDatabases) := by
  unfold client.WriteList
  by_cases hc : c.closed = 1
  · rw [if_pos hc]
    simp
  · rw [if_neg hc]
    cases ml with
    | none => simp
    | some ml =>
      simp only
      by_cases hm : ml.Metrics.length = 0
      · rw [if_pos hm]
        simp
      · rw [if_neg hm]
        cases hl : c.load ml.Database with
        | some b => exact loop_not_too_many now ml.Metrics 0 b
        | none =>
          simp only
          by_cases hlock : c.locker4map = true
          · rw [if_pos hlock]
            simp
          · rw [if_neg hlock]
            have hnum : ¬ c.databaseNum > c.clientConfig.DatabaseLimit := by omega
            rw [if_neg hnum]
            cases NewBuffer ml.Database c.clientConfig.BufferSize with
            | none => simp
            | some b => exact loop_not_too_many now ml.Metrics 0 b

/-- No call changes `databaseNum` or the configuration. -/
theorem call_databaseNum (c : client S) (k : Call) :
    (c.call k).2.databaseNum = c.databaseNum ∧
    (c.call k).2.clientConfig = c.clientConfig := by
  cases k with
  | WriteList now ml => exact WriteList_databaseNum c now ml
  | Write now database metric => exact WriteList_databaseNum c now _

/-- While `databaseNum` does not exceed the limit no call returns
`errTooManyDatabases`. -/
theorem call_not_too_many (c : client S) (k : Call)
    (h : c.databaseNum ≤ c.clientConfig.DatabaseLimit) :
    (c.call k).1 ≠ .returned (some Error.errTooManyDatabases) := by
  cases k with
  | WriteList now ml => exact WriteList_not_too_many c now ml h
  | Write now database metric => exact WriteList_not_too_many c now _ h

/-- Over a sequence of calls `databaseNum` stays put and, while it does not
exceed the limit, no call returns `errTooManyDatabases`. -/
theorem calls_not_too_many (ks : List Call) :
    ∀ c : client S, c.databaseNum ≤ c.clientConfig.DatabaseLimit →
      (∀ r ∈ (c.calls ks).1, r ≠ .returned (some Error.errTooManyDatabases)) ∧
      (c.calls ks).2.databaseNum = c.databaseNum := by
  induction ks with
  | nil => intro c _; exact ⟨by simp [client.calls], rfl⟩
  | cons k rest ih =>
    intro c h
    have h1 := call_databaseNum c k
    have h2 := ih (c.call k).2 (by rw [h1.1, h1.2]; exact h)
    unfold client.calls
    simp only [List.mem_cons]
    refine ⟨?_, by rw [h2.2, h1.1]⟩
    intro r hr
    rcases hr with hr | hr
    · rw [hr]
      exact call_not_too_many c k h
    · exact h2.1 r hr

/-- C11 (as the code behaves): nothing ever adds to `databaseNum`, so for a
client made by `newClient` with a database limit `L >= 0` the test
`databaseNum > DatabaseLimit` is never true: over any sequence of `WriteList`
and `Write` calls, however many databases they name, `databaseNum` stays 0 and
no call returns `errTooManyDatabases`. -/
theorem WriteList_never_too_many (cfg : config.ClientConfig) (s : S) (ks : List Call)
    (hL : 0 ≤ cfg.DatabaseLimit) :
    (∀ r ∈ ((newClient cfg s).calls ks).1,
      r ≠ .returned (some Error.errTooManyDatabases)) ∧
    ((newClient cfg s).calls ks).2.databaseNum = 0 :=
  calls_not_too_many ks (newClient cfg s) hL

/-- The failing input of C11: the database limit is 0 and three writes name
three databases in turn. Every write returns nil and every database gets a
buffer holding its metric. -/
theorem WriteList_never_too_many_witness :
    ((newClient (limitedConfig "http://broker" 0) ()).calls
        [sampleWrite "a", sampleWrite "b", sampleWrite "c"]).1
      = [.returned none, .returned none, .returned none] ∧
    ((newClient (limitedConfig "http://broker" 0) ()).calls
        [sampleWrite "a", sampleWrite "b", sampleWrite "c"]).2.bufferMap.map Prod.fst
      = ["a", "b", "c"] ∧
    ((newClient (limitedConfig "http://broker" 0) ()).calls
        [sampleWrite "a", sampleWrite "b", sampleWrite "c"]).2.queued "c"
      = [some (sample "cpu")] ∧
    ∀ r ∈ ((newClient (limitedConfig "http://broker" 0) ()).calls
        [sampleWrite "a", sampleWrite "b", sampleWrite "c"]).1,
      r ≠ .returned (some Error.errTooManyDatabases) :=
  ⟨by decide, by decide, by decide,
    (WriteList_never_too_many (limitedConfig "http://broker" 0) ()
      [sampleWrite "a", sampleWrite "b", sampleWrite "c"] (by decide)).1⟩

/-! ## The sender -/

variable {σ C : Type}

/-- The method `connect` makes one connect attempt and nothing else on the
network; the connection changes only when the attempt succeeds. -/
theorem connect_events (net : Network σ C) (s : sender σ C) :
    ∃ r : Option C, (sender.connect net s).events = s.events ++ [.connect r] ∧
      (sender.connect net s).retryLimit = s.retryLimit ∧
      ((r = none ∧ (sender.connect net s).conn = s.conn) ∨
        (r ≠ none ∧ (sender.connect net s).conn = r)) := by
  unfold sender.connect
  rcases h1 : net.RandomNext s.world with ⟨_ | node, w⟩
  · exact ⟨none, rfl, rfl, Or.inl ⟨rfl, rfl⟩⟩
  · simp only
    rcases h2 : net.Dial node w with ⟨_ | conn, w1⟩
    · exact ⟨none, rfl, rfl, Or.inl ⟨rfl, rfl⟩⟩
    · exact ⟨some conn, rfl, rfl, Or.inr ⟨by simp, rfl⟩⟩

/-- The method `closeConn` on an open connection closes it and clears it. -/
theorem closeConn_events (net : Network σ C) (s : sender σ C) (c : C)
    (h : s.conn = some c) :
    (sender.closeConn net s).events = s.events ++ [.close c] ∧
    (sender.closeConn net s).conn = none ∧
    (sender.closeConn net s).retryLimit = s.retryLimit := by
  unfold sender.closeConn
  rw [h]
  exact ⟨rfl, rfl, rfl⟩

/-- On a connected sender with an iteration left the loop makes exactly one
write and ends: after a failed write it closes the connection, makes one
connect attempt and leaves the loop all the same. -/
theorem loop_connected (net : Network σ C) (data : Bytes) (n : Nat) (s : sender σ C)
    (c : C) (h : s.conn = some c) :
    (sender.Send.loop net data (n + 1) s).1 = 1 ∧
    (∀ w, net.Write c data s.world = (true, w) →
      (sender.Send.loop net data (n + 1) s).2
        = { s with world := w, events := s.events ++ [.write c data true] }) ∧
    (∀ w, net.Write c data s.world = (false, w) →
      (sender.Send.loop net data (n + 1) s).2
        = sender.connect net (sender.closeConn net
            { s with world := w, events := s.events ++ [.write c data false] })) := by
  unfold sender.Send.loop
  rw [h]
  simp only
  rcases hw : net.Write c data s.world with ⟨_ | _, w⟩
  · refine ⟨rfl, ?_, ?_⟩
    · intro w1 h1
      cases h1
    · intro w1 h1
      cases h1
      rfl
  · refine ⟨rfl, ?_, ?_⟩
    · intro w1 h1
      cases h1
      rfl
    · intro w1 h1
      cases h1

/-- C18 (as the code behaves): on a connected sender with `retryLimit >= 1`
(so also with `retryLimit >= 2`) `Send` runs one loop iteration and makes
exactly one write. When that write fails, `Send` closes the connection, makes
one connect attempt and returns: the `break` after the error branch ends the
loop, and the data is not written again, whether or not the reconnect
succeeded. -/
theorem Send_does_not_retry_write (net : Network σ C) (s : sender σ C) (data : Bytes)
    (c : C) (w : σ) (hconn : s.conn = some c) (hlimit : 1 ≤ s.retryLimit)
    (hfail : net.Write c data s.world = (false, w)) :
    sender.Send.iterations net s data = 1 ∧
    sender.Send net s data
      = sender.connect net (sender.closeConn net
          { s with world := w, events := s.events ++ [.write c data false] }) ∧
    ∃ r : Option C,
      (sender.Send net s data).events
        = s.events ++ [.write c data false, .close c, .connect r] := by
  obtain ⟨n, hn⟩ : ∃ n, s.retryLimit.toNat = n + 1 := ⟨s.retryLimit.toNat - 1, by omega⟩
  have hl := loop_connected net data n s c hconn
  have hsend : sender.Send net s data
      = sender.connect net (sender.closeConn net
          { s with world := w, events := s.events ++ [.write c data false] }) := by
    unfold sender.Send
    rw [hn]
    exact hl.2.2 w hfail
  refine ⟨?_, hsend, ?_⟩
  · unfold sender.Send.iterations
    rw [hn]
    exact hl.1
  · rw [hsend]
    have h1 := closeConn_events net
      { s with world := w, events := s.events ++ [.write c data false] } c hconn
    obtain ⟨r, h2, _, _⟩ := connect_events net (sender.closeConn net
      { s with world := w, events := s.events ++ [.write c data false] })
    refine ⟨r, ?_⟩
    rw [h2, h1.1]
    simp

/-- The failing input of C18: a sender with `retryLimit = 2` whose connection
0 is stale, and a network on which the reconnect succeeds with the connection
1. `Send` writes once on the connection 0, fails, reconnects, and returns
without writing on the connection 1. -/
theorem Send_does_not_retry_write_witness :
    (sender.Send staleNet (staleSender 2) [1, 2]).events
      = [.write 0 [1, 2] false, .close 0, .connect (some 1)] ∧
    (sender.Send staleNet (staleSender 2) [1, 2]).conn = some 1 ∧
    sender.Send.iterations staleNet (staleSender 2) [1, 2] = 1 :=
  ⟨by decide, by decide,
    (Send_does_not_retry_write staleNet (staleSender 2) [1, 2] 0 () rfl (by decide) rfl).1⟩

/-- The loop of `Send` with `n` iterations left: it runs at most `n`
iterations, every iteration acts on the network (between one and three events),
at most one of the new events is a write, and a successful write is the last
event, made with the data of the call on the connection the sender keeps. -/
theorem loop_spec (net : Network σ C) (data : Bytes) (n : Nat) :
    ∀ s : sender σ C,
      (sender.Send.loop net data n s).1 ≤ n ∧
      ∃ es : List (NetEvent C),
        (sender.Send.loop net data n s).2.events = s.events ++ es ∧
        (sender.Send.loop net data n s).1 ≤ es.length ∧
        es.length ≤ (sender.Send.loop net data n s).1 + 2 ∧
        (writes es).length ≤ 1 ∧
        ∀ c d, NetEvent.write c d true ∈ es →
          es.getLast? = some (.write c d true) ∧ d = data ∧
          (sender.Send.loop net data n s).2.conn = some c := by
  induction n with
  | zero =>
    intro s
    exact ⟨Nat.le_refl _, [], by simp [sender.Send.loop], by simp [sender.Send.loop],
      by simp, by simp [writes], by simp⟩
  | succ n ih =>
    intro s
    cases hc : s.conn with
    | none =>
      obtain ⟨r, hr, _, _⟩ := connect_events net s
      obtain ⟨h1, es, h2, h3, h4, h5, h6⟩ := ih (sender.connect net s)
      have hloop : sender.Send.loop net data (n + 1) s
          = ((sender.Send.loop net data n (sender.connect net s)).1 + 1,
              (sender.Send.loop net data n (sender.connect net s)).2) := by
        rw [sender.Send.loop, hc]
      rw [hloop]
      refine ⟨by simpa using h1, .connect r :: es, ?_, ?_, ?_, ?_, ?_⟩
      · simp only
        rw [h2, hr]
        simp
      · simp only [List.length_cons]
        omega
      · simp only [List.length_cons]
        omega
      · simpa [writes] using h5
      · intro c d hmem
        simp only [List.mem_cons] at hmem
        rcases hmem with hmem | hmem
        · cases hmem
        · obtain ⟨k1, k2, k3⟩ := h6 c d hmem
          refine ⟨?_, k2, k3⟩
          cases es with
          | nil => cases hmem
          | cons e rest =>
            rw [List.getLast?_cons_cons]
            exact k1
    | some c =>
      have hl := loop_connected net data n s c hc
      rcases hw : net.Write c data s.world with ⟨_ | _, w⟩
      · have h1 := closeConn_events net
          { s with world := w, events := s.events ++ [.write c data false] } c hc
        obtain ⟨r, h2, _, _⟩ := connect_events net (sender.closeConn net
          { s with world := w, events := s.events ++ [.write c data false] })
        refine ⟨by rw [hl.1]; omega, [.write c data false, .close c, .connect r],
          ?_, ?_, ?_, ?_, ?_⟩
        · rw [hl.2.2 w hw, h2, h1.1]
          simp
        · rw [hl.1]
          simp
        · rw [hl.1]
          simp
        · simp [writes]
        · intro c1 d hmem
          simp at hmem
      · refine ⟨by rw [hl.1]; omega, [.write c data true], ?_, ?_, ?_, ?_, ?_⟩
        · rw [hl.2.1 w hw]
        · rw [hl.1]
          simp
        · rw [hl.1]
          simp
        · simp [writes]
        · intro c1 d hmem
          simp only [List.mem_singleton, NetEvent.write.injEq, and_true] at hmem
          obtain ⟨e1, e2⟩ := hmem
          subst e1 e2
          refine ⟨rfl, rfl, ?_⟩
          rw [hl.2.1 w hw]
          exact hc

/-- The events of the loop of `Send` split into one block per iteration, each
block a connect attempt or a write (with the close and the reconnect that
follow a failed write). -/
theorem loop_blocks (net : Network σ C) (data : Bytes) (n : Nat) :
    ∀ s : sender σ C, ∃ bs : List (List (NetEvent C)),
      (sender.Send.loop net data n s).2.events = s.events ++ bs.flatten ∧
      bs.length = (sender.Send.loop net data n s).1 ∧
      ∀ b ∈ bs, isIteration data b := by
  induction n with
  | zero =>
    intro s
    exact ⟨[], by simp [sender.Send.loop], by simp [sender.Send.loop], by simp⟩
  | succ n ih =>
    intro s
    cases hc : s.conn with
    | none =>
      obtain ⟨r, hr, _, _⟩ := connect_events net s
      obtain ⟨bs, h1, h2, h3⟩ := ih (sender.connect net s)
      have hloop : sender.Send.loop net data (n + 1) s
          = ((sender.Send.loop net data n (sender.connect net s)).1 + 1,
              (sender.Send.loop net data n (sender.connect net s)).2) := by
        rw [sender.Send.loop, hc]
      rw [hloop]
      refine ⟨[.connect r] :: bs, ?_, by simp [h2], ?_⟩
      · simp only
        rw [h1, hr]
        simp
      · intro b hb
        simp only [List.mem_cons] at hb
        rcases hb with hb | hb
        · exact Or.inl ⟨r, hb⟩
        · exact h3 b hb
    | some c =>
      have hl := loop_connected net data n s c hc
      rcases hw : net.Write c data s.world with ⟨_ | _, w⟩
      · have h1 := closeConn_events net
          { s with world := w, events := s.events ++ [.write c data false] } c hc
        obtain ⟨r, h2, _, _⟩ := connect_events net (sender.closeConn net
          { s with world := w, events := s.events ++ [.write c data false] })
        refine ⟨[[.write c data false, .close c, .connect r]], ?_, by rw [hl.1]; rfl, ?_⟩
        · rw [hl.2.2 w hw, h2, h1.1]
          simp
        · intro b hb
          simp only [List.mem_singleton] at hb
          exact Or.inr (Or.inr ⟨c, r, hb⟩)
      · refine ⟨[[.write c data true]], ?_, by rw [hl.1]; rfl, ?_⟩
        · rw [hl.2.1 w hw]
          simp
        · intro b hb
          simp only [List.mem_singleton] at hb
          exact Or.inr (Or.inl ⟨c, hb⟩)

/-- C19: for every sender and every `retryLimit`, `Send` runs at most
`retryLimit` loop iterations (none when `retryLimit <= 0`, which leaves the
sender as it was); what the call does on the network splits into one block per
iteration, each block a connect attempt or a write (a failed write being
followed by the close of the connection and a connect attempt); the call makes
at most one write, and a write that succeeds is the last thing the call does,
so that the sender returns with the connection it wrote on still open. -/
theorem Send_bounded (net : Network σ C) (s : sender σ C) (data : Bytes) :
    (sender.Send.iterations net s data : Int) ≤ max s.retryLimit 0 ∧
    (s.retryLimit ≤ 0 →
      sender.Send net s data = s ∧ sender.Send.iterations net s data = 0) ∧
    (∃ bs : List (List (NetEvent C)),
      (sender.Send net s data).events = s.events ++ bs.flatten ∧
      bs.length = sender.Send.iterations net s data ∧
      ∀ b ∈ bs, isIteration data b) ∧
    ∃ es : List (NetEvent C),
      (sender.Send net s data).events = s.events ++ es ∧
      (writes es).length ≤ 1 ∧
      ∀ c d, NetEvent.write c d true ∈ es →
        es.getLast? = some (.write c d true) ∧ d = data ∧
        (sender.Send net s data).conn = some c := by
  obtain ⟨h1, es, h2, _, _, h5, h6⟩ := loop_spec net data s.retryLimit.toNat s
  refine ⟨?_, ?_, loop_blocks net data s.retryLimit.toNat s, es, h2, h5, h6⟩
  · unfold sender.Send.iterations
    have : ((s.retryLimit.toNat : Nat) : Int) = max s.retryLimit 0 := Int.toNat_eq_max _
    omega
  · intro h0
    have hz : s.retryLimit.toNat = 0 := by omega
    unfold sender.Send sender.Send.iterations
    rw [hz]
    exact ⟨rfl, rfl⟩


/-! ## The frames of `client.flush` -/

theorem int32_of_small (n : Int) (h0 : 0 ≤ n) (h1 : n < 2 ^ 31) : int32 n = n := by
  unfold int32
  norm_num at h1 ⊢
  omega

theorem visit_frame (wire : Wire) (acc : Int × List Bytes) (e : String × buffer)
    (hsize : (wire.Size { Database := e.1, Metrics := e.2.ch } : Int) < 2 ^ 31) :
    (client.flush.visit wire recordSend acc e).1.2
      = acc.2 ++ (specFrame wire e).toList := by
  unfold client.flush.visit specFrame
  rw [Out_eq]
  simp only []
  by_cases hch : e.2.ch = []
  · simp [hch]
  · have hlen : ¬ e.2.ch.length = 0 := fun h => hch (List.length_eq_zero.mp h)
    rw [if_neg hlen, if_neg hch, int32_of_small _ (Int.natCast_nonneg _) hsize]
    cases wire.MarshalTo { Database := e.1, Metrics := e.2.ch }
        (List.replicate (wire.Size { Database := e.1, Metrics := e.2.ch }) 0) with
    | error err => simp
    | ok body => simp [recordSend]

theorem range_frames (wire : Wire) (es : List (String × buffer)) :
    ∀ acc : Int × List Bytes,
      (∀ e ∈ es, (wire.Size { Database := e.1, Metrics := e.2.ch } : Int) < 2 ^ 31) →
      (client.flush.range wire recordSend acc es).1.2
        = acc.2 ++ es.filterMap (specFrame wire) := by
  induction es with
  | nil => intro acc _; simp [client.flush.range]
  | cons e rest ih =>
    intro acc hsize
    rw [client.flush.range]
    simp only []
    rw [ih _ (fun x hx => hsize x (List.mem_cons_of_mem _ hx)),
      visit_frame wire acc e (hsize e (List.mem_cons_self _ _))]
    cases hsf : specFrame wire e <;> simp [List.filterMap_cons, hsf]

theorem specFrame_shape (wire : Wire) (e : String × buffer) (frame : Bytes)
    (hPut : ∀ dst v, (wire.PutInt32 dst v).length = dst.length)
    (hMarshal : ∀ ml dst body, wire.MarshalTo ml dst = .ok body → body.length = dst.length)
    (h : specFrame wire e = some frame) :
    e.2.ch ≠ [] ∧
    frame.length = 4 + wire.Size { Database := e.1, Metrics := e.2.ch } ∧
    frame.take 4
      = wire.PutInt32 (List.replicate 4 0) (wire.Size { Database := e.1, Metrics := e.2.ch }) ∧
    wire.MarshalTo { Database := e.1, Metrics := e.2.ch }
        (List.replicate (wire.Size { Database := e.1, Metrics := e.2.ch }) 0)
      = .ok (frame.drop 4) ∧
    (frame.drop 4).length = wire.Size { Database := e.1, Metrics := e.2.ch } := by
  unfold specFrame at h
  by_cases hch : e.2.ch = []
  · rw [if_pos hch] at h; cases h
  · rw [if_neg hch] at h
    simp only [] at h
    cases hm : wire.MarshalTo { Database := e.1, Metrics := e.2.ch }
        (List.replicate (wire.Size { Database := e.1, Metrics := e.2.ch }) 0) with
    | error err => rw [hm] at h; cases h
    | ok body =>
      rw [hm] at h
      simp only [Option.some.injEq] at h
      have hb := hMarshal _ _ _ hm
      have hp := hPut (List.replicate 4 0)
        (wire.Size { Database := e.1, Metrics := e.2.ch })
      rw [List.length_replicate] at hb hp
      subst h
      refine ⟨hch, ?_, ?_, ?_, ?_⟩
      · rw [List.length_append, hp, hb]
      · exact List.take_left' hp
      · rw [List.drop_left' hp]
      · rw [List.drop_left' hp, hb]

theorem sampleWire_PutInt32 (size : MetricList → Nat) (dst : Bytes) (v : Int) :
    ((sampleWire size).PutInt32 dst v).length = dst.length := by
  simp only [sampleWire, littleEndian32, List.length_append, List.length_take,
    List.length_drop, List.length_cons, List.length_nil]
  omega

theorem sampleWire_MarshalTo (size : MetricList → Nat) (ml : MetricList) (dst body : Bytes)
    (h : (sampleWire size).MarshalTo ml dst = .ok body) : body.length = dst.length := by
  simp only [sampleWire, Except.ok.injEq] at h
  rw [← h, List.length_replicate]

/-- C26, amended: while every serialized size stays below 2^31, `client.flush`
hands the sender, in the order of the traversal, exactly one frame for every
database whose drained batch is non-empty and serializes, and none for the
others; such a frame has `4 + S` bytes, its first four bytes are what
`PutInt32` writes for the number `S`, and the `S` bytes after them are the
serialized list. The two hypotheses on the wire say that writing into a slice
keeps its length. -/
theorem flush_frames (wire : Wire) (c : client (List Bytes))
    (hPut : ∀ dst v, (wire.PutInt32 dst v).length = dst.length)
    (hMarshal : ∀ ml dst body, wire.MarshalTo ml dst = .ok body → body.length = dst.length)
    (hsize : ∀ e ∈ c.bufferMap,
      (wire.Size { Database := e.1, Metrics := e.2.ch } : Int) < 2 ^ 31) :
    (client.flush wire recordSend c).2.sender
      = c.sender ++ c.bufferMap.filterMap (specFrame wire) ∧
    (∀ e ∈ c.bufferMap, ∀ body, e.2.ch ≠ [] →
      wire.MarshalTo { Database := e.1, Metrics := e.2.ch }
          (List.replicate (wire.Size { Database := e.1, Metrics := e.2.ch }) 0) = .ok body →
      specFrame wire e
        = some (wire.PutInt32 (List.replicate 4 0)
            (wire.Size { Database := e.1, Metrics := e.2.ch }) ++ body)) ∧
    (∀ e ∈ c.bufferMap, ∀ frame, specFrame wire e = some frame →
      e.2.ch ≠ [] ∧
      frame.length = 4 + wire.Size { Database := e.1, Metrics := e.2.ch } ∧
      frame.take 4 = wire.PutInt32 (List.replicate 4 0)
        (wire.Size { Database := e.1, Metrics := e.2.ch }) ∧
      wire.MarshalTo { Database := e.1, Metrics := e.2.ch }
          (List.replicate (wire.Size { Database := e.1, Metrics := e.2.ch }) 0)
        = .ok (frame.drop 4) ∧
      (frame.drop 4).length = wire.Size { Database := e.1, Metrics := e.2.ch }) := by
  refine ⟨?_, ?_, ?_⟩
  · simp only [client.flush]
    exact range_frames wire c.bufferMap (0, c.sender) hsize
  · intro e _ body hch hm
    simp [specFrame, hch, hm]
  · intro e _ frame hf
    exact specFrame_shape wire e frame hPut hMarshal hf

/-- Witness for C26: two metrics that serialize to six bytes leave in one frame
of ten bytes, whose first four bytes are the little-endian form of 6. -/
theorem flush_frames_witness :
    (client.flush (sampleWire (fun ml => 3 * ml.Metrics.length)) recordSend
        (oneDatabase [some (sample "cpu"), some (sample "mem")])).2.sender
      = [[6, 0, 0, 0, 7, 7, 7, 7, 7, 7]] :=
  (flush_frames (sampleWire (fun ml => 3 * ml.Metrics.length))
    (oneDatabase [some (sample "cpu"), some (sample "mem")])
    (sampleWire_PutInt32 _) (sampleWire_MarshalTo _)
    (by intro e he; simp [oneDatabase, newClient] at he; subst he; decide)).1.trans
    (by decide)

/-- Counterexample to C26 as stated: a batch that serializes to 2^32 bytes
leaves in a frame whose four-byte prefix is that of the number 0
(`int32(1 << 32)` is 0) while 2^32 bytes follow it. -/
theorem flush_prefix_wraps :
    ∃ body : Bytes,
      (client.flush (sampleWire (fun _ => 2 ^ 32)) recordSend
          (oneDatabase [some (sample "cpu")])).2.sender
        = [(sampleWire (fun _ => 2 ^ 32)).PutInt32 (List.replicate 4 0) 0 ++ body] ∧
      (sampleWire (fun _ => 2 ^ 32)).PutInt32 (List.replicate 4 0) 0 = [0, 0, 0, 0] ∧
      body.length = 2 ^ 32 := by
  refine ⟨List.replicate (2 ^ 32) 7, ?_, by decide, List.length_replicate _ _⟩
  have h32 : int32 ((2 ^ 32 : Nat) : Int) = 0 := by decide
  simp only [client.flush, oneDatabase, newClient, client.flush.range, client.flush.visit,
    Out_eq, List.length_singleton, one_ne_zero, if_false, sampleWire, h32,
    List.length_replicate, recordSend, List.nil_append]

end client

namespace config

/-! ## The address manager -/

/-- With at least one node `RandomNext` returns the node at an index inside the
list, and no error. -/
theorem RandomNext_of_nodes (m : addressManager) (draw : Nat) (h : m.nodes ≠ []) :
    ∃ node ∈ m.nodes, m.RandomNext draw = (some node, none) := by
  have hlen : 0 < m.nodes.length := List.length_pos.mpr h
  have hidx : Intn draw m.nodes.length < m.nodes.length := Nat.mod_lt _ hlen
  refine ⟨m.nodes[Intn draw m.nodes.length], List.getElem_mem _, ?_⟩
  unfold addressManager.RandomNext
  simp only
  rw [if_neg (by omega), List.getElem?_eq_getElem hidx]

/-- C20: `RandomNext` returns `errNoAvailableNode`, and no node, if and only if
the node list is empty; otherwise, whatever the random source yields, it
returns a node of the current list and no error. With one node it returns that
node, and a node that is not in the current list (for instance one that the
last refresh removed) is never returned. -/
theorem RandomNext_spec (m : addressManager) (draw : Nat) :
    ((m.RandomNext draw).2 = some Error.errNoAvailableNode ↔ m.nodes = []) ∧
    (m.nodes = [] → m.RandomNext draw = (none, some Error.errNoAvailableNode)) ∧
    (m.nodes ≠ [] → ∃ node ∈ m.nodes, m.RandomNext draw = (some node, none)) ∧
    (∀ node, m.nodes = [node] → m.RandomNext draw = (some node, none)) ∧
    (∀ node, (m.RandomNext draw).1 = some node → node ∈ m.nodes) ∧
    (∀ (list : List Node) (node : Node), node ∉ list →
      ({ m with nodes := list } : addressManager).RandomNext draw ≠ (some node, none)) := by
  have hempty : m.nodes = [] → m.RandomNext draw = (none, some Error.errNoAvailableNode) := by
    intro h
    simp [addressManager.RandomNext, h]
  have hmem : ∀ (m1 : addressManager) (node : Node),
      (m1.RandomNext draw).1 = some node → node ∈ m1.nodes := by
    intro m1 node h
    by_cases hn : m1.nodes = []
    · simp [addressManager.RandomNext, hn] at h
    · obtain ⟨n1, hin, heq⟩ := RandomNext_of_nodes m1 draw hn
      rw [heq] at h
      simp only [Option.some.injEq] at h
      rw [← h]
      exact hin
  refine ⟨?_, hempty, RandomNext_of_nodes m draw, ?_, hmem m, ?_⟩
  · constructor
    · intro h
      by_contra hn
      obtain ⟨n1, _, heq⟩ := RandomNext_of_nodes m draw hn
      rw [heq] at h
      cases h
    · intro h
      rw [hempty h]
  · intro node h
    obtain ⟨n1, hin, heq⟩ := RandomNext_of_nodes m draw (by rw [h]; simp)
    rw [h] at hin
    simp only [List.mem_singleton] at hin
    rw [heq, hin]
  · intro list node hnot h
    exact hnot (hmem { m with nodes := list } node (by rw [h]))


/-! ## The discovery poll -/

/-- C21: a poll that fails leaves the manager as it was, so the endpoint list
is the one from before: this holds when the GET request fails, when the body
cannot be read, when the body does not decode to a slice of node descriptors,
and when the decoded slice is empty. The method has no result, so no error
reaches its caller. -/
theorem failed_poll_keeps_nodes (poll : Poll) (m : addressManager) :
    (∀ err, poll.Get m.url = .error err → m.syncBrokerAddressList poll = m) ∧
    (∀ err, poll.Get m.url = .ok (.error err) → m.syncBrokerAddressList poll = m) ∧
    (∀ body err, poll.Get m.url = .ok (.ok body) → poll.Unmarshal body = .error err →
      m.syncBrokerAddressList poll = m) ∧
    (∀ body, poll.Get m.url = .ok (.ok body) → poll.Unmarshal body = .ok [] →
      m.syncBrokerAddressList poll = m) := by
  refine ⟨?_, ?_, ?_, ?_⟩
  · intro err h; simp [addressManager.syncBrokerAddressList, h]
  · intro err h; simp [addressManager.syncBrokerAddressList, h]
  · intro body err h hu; simp [addressManager.syncBrokerAddressList, h, hu]
  · intro body h hu; simp [addressManager.syncBrokerAddressList, h, hu]

theorem loop_shared (init : List ActiveNode) (last : ActiveNode) :
    ∀ (cells : List ActiveNode) (list : List Nat),
      syncBrokerAddressList.loop false (init ++ [last]) (cells, list)
        = ([last], list ++ List.replicate (init.length + 1) 0) := by
  induction init with
  | nil => intro cells list; simp [syncBrokerAddressList.loop]
  | cons d rest ih =>
    intro cells list
    rw [List.cons_append, syncBrokerAddressList.loop]
    simp only [Bool.false_eq_true, if_false]
    rw [ih, List.append_assoc]
    rfl

theorem deref_shared (last : ActiveNode) (k : Nat) :
    syncBrokerAddressList.deref ([last], List.replicate k 0) = List.replicate k last.Node := by
  induction k with
  | zero => rfl
  | succ k ih =>
    simp only [syncBrokerAddressList.deref] at ih ⊢
    rw [List.replicate_succ, List.filterMap_cons, List.replicate_succ]
    simp [ih]

theorem deref_snoc (cells : List ActiveNode) (list : List Nat) (d : ActiveNode)
    (h : ∀ i ∈ list, i < cells.length) :
    syncBrokerAddressList.deref (cells ++ [d], list ++ [cells.length])
      = syncBrokerAddressList.deref (cells, list) ++ [d.Node] := by
  simp only [syncBrokerAddressList.deref, List.filterMap_append]
  congr 1
  · apply List.filterMap_congr
    intro i hi
    rw [List.getElem?_append_left (h i hi)]
  · simp

theorem deref_per_iteration (ds : List ActiveNode) :
    ∀ (cells : List ActiveNode) (list : List Nat), (∀ i ∈ list, i < cells.length) →
      syncBrokerAddressList.deref (syncBrokerAddressList.loop true ds (cells, list))
        = syncBrokerAddressList.deref (cells, list) ++ ds.map (fun d => d.Node) := by
  induction ds with
  | nil => intro cells list _; simp [syncBrokerAddressList.loop]
  | cons d rest ih =>
    intro cells list h
    rw [syncBrokerAddressList.loop]
    simp only [if_true]
    rw [ih, deref_snoc cells list d h, List.append_assoc]
    · rfl
    · intro i hi
      rw [List.length_append, List.length_singleton]
      rcases List.mem_append.mp hi with hi | hi
      · exact Nat.lt_succ_of_lt (h i hi)
      · rw [List.mem_singleton] at hi
        omega

/-- C22: after a poll that decodes the non-empty array `init ++ [last]`, the
list has as many entries as the array, whatever it held before. Built with a
language version from Go 1.22 on, the entries are the nodes of the
descriptors, in order; built with an earlier version, every entry is the node
of the last descriptor, since all of them point into the one loop variable. -/
theorem sync_aliases_loop_variable (poll : Poll) (m : addressManager) (body : Bytes)
    (init : List ActiveNode) (last : ActiveNode)
    (hget : poll.Get m.url = .ok (.ok body))
    (hdec : poll.Unmarshal body = .ok (init ++ [last])) :
    (m.syncBrokerAddressList poll).nodes.length = (init ++ [last]).length ∧
    (poll.loopVarPerIteration = true →
      (m.syncBrokerAddressList poll).nodes = (init ++ [last]).map (fun d => d.Node)) ∧
    (poll.loopVarPerIteration = false →
      (m.syncBrokerAddressList poll).nodes = List.replicate (init.length + 1) last.Node) := by
  have hne : ¬ (init ++ [last]).length = 0 := by simp
  have hper : poll.loopVarPerIteration = true →
      (m.syncBrokerAddressList poll).nodes = (init ++ [last]).map (fun d => d.Node) := by
    intro hv
    simp only [addressManager.syncBrokerAddressList, hget, hdec, if_neg hne, hv]
    rw [deref_per_iteration _ [] [] (by intro i hi; cases hi)]
    rfl
  have hold : poll.loopVarPerIteration = false →
      (m.syncBrokerAddressList poll).nodes = List.replicate (init.length + 1) last.Node := by
    intro hv
    simp only [addressManager.syncBrokerAddressList, hget, hdec, if_neg hne, hv]
    rw [loop_shared, List.nil_append, deref_shared]
  refine ⟨?_, hper, hold⟩
  cases hv : poll.loopVarPerIteration with
  | true => rw [hper hv, List.length_map]
  | false => rw [hold hv, List.length_replicate, List.length_append, List.length_singleton]

/-- Witness for C22: a poll that decodes two descriptors, built with a
language version before Go 1.22, leaves the second node twice. -/
theorem sync_aliases_loop_variable_witness :
    ((⟨NewDefaultConfig, "http://broker/broker/node/state", []⟩ : addressManager).syncBrokerAddressList
        (answers (.ok [activeNode "10.0.0.1" 9000, activeNode "10.0.0.2" 9000]) false)).nodes
      = [{ IP := "10.0.0.2", TCPPort := 9000 }, { IP := "10.0.0.2", TCPPort := 9000 }] :=
  ((sync_aliases_loop_variable
      (answers (.ok [activeNode "10.0.0.1" 9000, activeNode "10.0.0.2" 9000]) false)
      ⟨NewDefaultConfig, "http://broker/broker/node/state", []⟩ []
      [activeNode "10.0.0.1" 9000] (activeNode "10.0.0.2" 9000) rfl rfl).2.2 rfl).trans
    (by decide)


/-! ## The broker URL is required -/

theorem LoadConfig_of_file (files : String → Option (Except Error TomlFile)) (path : String)
    (file : TomlFile) (h : files path = some (.ok file)) :
    LoadConfig files path
      = if (DecodeToml file NewDefaultConfig).BrokerURL = "" then
          (none, some (Error.errorf "broker url is not provided"))
        else (some (DecodeToml file NewDefaultConfig), none) := by
  simp [LoadConfig, h]

theorem LoadConfig_some (files : String → Option (Except Error TomlFile)) (path : String)
    (c : ClientConfig) (h : (LoadConfig files path).1 = some c) :
    ∃ file, files path = some (.ok file) ∧ c = DecodeToml file NewDefaultConfig ∧
      c.BrokerURL ≠ "" ∧ (LoadConfig files path).2 = none := by
  cases hf : files path with
  | none => simp [LoadConfig, hf] at h
  | some decoded =>
    cases decoded with
    | error err => simp [LoadConfig, hf] at h
    | ok file =>
      rw [LoadConfig_of_file files path file hf] at h ⊢
      by_cases hb : (DecodeToml file NewDefaultConfig).BrokerURL = ""
      · rw [if_pos hb] at h; cases h
      · rw [if_neg hb] at h ⊢
        simp only [Option.some.injEq] at h
        subst h
        exact ⟨file, rfl, rfl, hb, rfl⟩

/-- The cases of `Test_LoadConfig`: a missing file, the file of an empty
configuration, and the file of a configuration with a broker URL. -/
theorem LoadConfig_test_cases :
    (LoadConfig (oneFile (EncodeToml NewDefaultConfig)) "none.toml").1 = none ∧
    (LoadConfig (oneFile (EncodeToml ⟨"", 0, 0, 0, 0, 0, 0⟩)) "cfg.toml")
      = (none, some (Error.errorf "broker url is not provided")) ∧
    (LoadConfig (oneFile (EncodeToml ⟨"http://127.0.0.1:9000", 0, 0, 0, 0, 0, 0⟩)) "cfg.toml")
      = (some ⟨"http://127.0.0.1:9000", 0, 0, 0, 0, 0, 0⟩, none) ∧
    (LoadConfig (oneFile ⟨some "http://127.0.0.1:9000", none, none, some 3, none, none, none⟩)
        "cfg.toml")
      = (some { NewDefaultConfig with BrokerURL := "http://127.0.0.1:9000", DialTimeout := 3 },
          none) := by
  decide

/-- C25: `NewClient` with an empty broker URL returns no client and an error.
`LoadConfig` returns no configuration and an error when the file does not
exist, when it cannot be decoded, and when the decoded configuration has an
empty `BrokerURL`; it never returns both or neither. A configuration that it
returns comes without error, has a non-empty `BrokerURL`, and every member
whose key the file does not hold has the value of `NewDefaultConfig`. -/
theorem broker_url_required (S : Type) (sender : S)
    (files : String → Option (Except Error TomlFile)) (path : String) :
    client.NewClient "" sender
      = (none, some (client.Error.errorf "broker url is not provided")) ∧
    (files path = none → ∃ err, LoadConfig files path = (none, some err)) ∧
    (∀ e, files path = some (.error e) → ∃ err, LoadConfig files path = (none, some err)) ∧
    (∀ file, files path = some (.ok file) →
      (DecodeToml file NewDefaultConfig).BrokerURL = "" →
      LoadConfig files path = (none, some (Error.errorf "broker url is not provided"))) ∧
    ((LoadConfig files path).1 = none ↔ (LoadConfig files path).2 ≠ none) ∧
    (∀ c, (LoadConfig files path).1 = some c →
      (LoadConfig files path).2 = none ∧ c.BrokerURL ≠ "" ∧
      ∃ file, files path = some (.ok file) ∧
        (file.brokerURL = some c.BrokerURL) ∧
        (file.syncAddressInterval = none → c.SyncAddressInterval = 60) ∧
        (file.syncAddressTimeout = none → c.SyncAddressTimeout = 5) ∧
        (file.dialTimeout = none → c.DialTimeout = 1) ∧
        (file.retryLimit = none → c.RetryLimit = 2) ∧
        (file.bufferSize = none → c.BufferSize = 1024) ∧
        (file.databaseLimit = none → c.DatabaseLimit = 30) ∧
        (∀ v, file.syncAddressInterval = some v → c.SyncAddressInterval = v) ∧
        (∀ v, file.syncAddressTimeout = some v → c.SyncAddressTimeout = v) ∧
        (∀ v, file.dialTimeout = some v → c.DialTimeout = v) ∧
        (∀ v, file.retryLimit = some v → c.RetryLimit = v) ∧
        (∀ v, file.bufferSize = some v → c.BufferSize = v) ∧
        (∀ v, file.databaseLimit = some v → c.DatabaseLimit = v)) := by
  refine ⟨by simp [client.NewClient], ?_, ?_, ?_, ?_, ?_⟩
  · intro h
    exact ⟨Error.errorf ("config path:" ++ path ++ " not exists"), by simp [LoadConfig, h]⟩
  · intro e h
    exact ⟨Error.errorf ("load config from path:" ++ path ++ " err:" ++ e.Error),
      by simp [LoadConfig, h]⟩
  · intro file h hb; rw [LoadConfig_of_file files path file h, if_pos hb]
  · cases hf : files path with
    | none => simp [LoadConfig, hf]
    | some decoded =>
      cases decoded with
      | error err => simp [LoadConfig, hf]
      | ok file =>
        rw [LoadConfig_of_file files path file hf]
        by_cases hb : (DecodeToml file NewDefaultConfig).BrokerURL = "" <;> simp [hb]
  · intro c hc
    obtain ⟨file, hf, hd, hb, he⟩ := LoadConfig_some files path c hc
    refine ⟨he, hb, file, hf, ?_⟩
    subst hd
    have hurl : file.brokerURL = some (DecodeToml file NewDefaultConfig).BrokerURL := by
      cases hu : file.brokerURL with
      | none => simp [DecodeToml, hu, NewDefaultConfig] at hb
      | some u => simp [DecodeToml, hu]
    refine ⟨hurl, ?_, ?_, ?_, ?_, ?_, ?_, ?_, ?_, ?_, ?_, ?_, ?_⟩
    · intro h; simp [DecodeToml, h, NewDefaultConfig]
    · intro h; simp [DecodeToml, h, NewDefaultConfig]
    · intro h; simp [DecodeToml, h, NewDefaultConfig]
    · intro h; simp [DecodeToml, h, NewDefaultConfig]
    · intro h; simp [DecodeToml, h, NewDefaultConfig]
    · intro h; simp [DecodeToml, h, NewDefaultConfig]
    · intro v h; simp [DecodeToml, h]
    · intro v h; simp [DecodeToml, h]
    · intro v h; simp [DecodeToml, h]
    · intro v h; simp [DecodeToml, h]
    · intro v h; simp [DecodeToml, h]
    · intro v h; simp [DecodeToml, h]

end config

namespace http


/-! ## The PUT helper -/

variable {Q R : Type}

theorem DoPut_of_status (cli : Client Q R) (endpoint : String) (body : Bytes) (req : Q)
    (resp : Response R) (hreq : cli.newRequestFn endpoint body = .ok req)
    (hdo : cli.Do req = .ok resp) (hs : resp.StatusCode ≠ 200) :
    DoPut cli endpoint body
      = match cli.readAllFn resp.Body with
        | .error err0 => (none, some err0)
        | .ok b => (none, some (Error.new b)) := by
  simp [DoPut, hreq, hdo, hs]

theorem DoPut_of_plain (cli : Client Q R) (endpoint : String) (body : Bytes) (req : Q)
    (resp : Response R) (hreq : cli.newRequestFn endpoint body = .ok req)
    (hdo : cli.Do req = .ok resp) (hs : resp.StatusCode = 200)
    (hz : resp.ContentEncoding ≠ "gzip") :
    DoPut cli endpoint body
      = match cli.readAllFn resp.Body with
        | .error err => (none, some err)
        | .ok respData => (some respData, none) := by
  simp [DoPut, hreq, hdo, hs, hz]

theorem DoPut_of_gzip (cli : Client Q R) (endpoint : String) (body : Bytes) (req : Q)
    (resp : Response R) (hreq : cli.newRequestFn endpoint body = .ok req)
    (hdo : cli.Do req = .ok resp) (hs : resp.StatusCode = 200)
    (hz : resp.ContentEncoding = "gzip") :
    DoPut cli endpoint body
      = match cli.newGzipReaderFn resp.Body with
        | .error err0 => (none, some err0)
        | .ok respBody =>
          match cli.readAllFn respBody with
          | .error err => (none, some err)
          | .ok respData => (some respData, none) := by
  simp [DoPut, hreq, hdo, hs, hz]

/-- The result of `DoPut` is either data without error or an error without
data. -/
theorem DoPut_cases (cli : Client Q R) (endpoint : String) (body : Bytes) :
    (∃ data, DoPut cli endpoint body = (some data, none)) ∨
    (∃ err, DoPut cli endpoint body = (none, some err)) := by
  cases hreq : cli.newRequestFn endpoint body with
  | error err => right; exact ⟨err, by simp [DoPut, hreq]⟩
  | ok req =>
    cases hdo : cli.Do req with
    | error err => right; exact ⟨err, by simp [DoPut, hreq, hdo]⟩
    | ok resp =>
      by_cases hs : resp.StatusCode = 200
      · by_cases hz : resp.ContentEncoding = "gzip"
        · rw [DoPut_of_gzip cli endpoint body req resp hreq hdo hs hz]
          cases cli.newGzipReaderFn resp.Body with
          | error err0 => right; exact ⟨err0, rfl⟩
          | ok respBody =>
            dsimp only
            cases cli.readAllFn respBody with
            | error err => right; exact ⟨err, rfl⟩
            | ok respData => left; exact ⟨respData, rfl⟩
        · rw [DoPut_of_plain cli endpoint body req resp hreq hdo hs hz]
          cases cli.readAllFn resp.Body with
          | error err => right; exact ⟨err, rfl⟩
          | ok respData => left; exact ⟨respData, rfl⟩
      · rw [DoPut_of_status cli endpoint body req resp hreq hdo hs]
        cases cli.readAllFn resp.Body with
        | error err0 => right; exact ⟨err0, rfl⟩
        | ok b => right; exact ⟨Error.new b, rfl⟩

theorem DoPut_success_iff (cli : Client Q R) (endpoint : String) (body data : Bytes) :
    DoPut cli endpoint body = (some data, none) ↔
      ∃ req resp, cli.newRequestFn endpoint body = .ok req ∧ cli.Do req = .ok resp ∧
        resp.StatusCode = 200 ∧
        ((resp.ContentEncoding = "gzip" ∧
            ∃ respBody, cli.newGzipReaderFn resp.Body = .ok respBody ∧
              cli.readAllFn respBody = .ok data) ∨
          (resp.ContentEncoding ≠ "gzip" ∧ cli.readAllFn resp.Body = .ok data)) := by
  constructor
  · intro h
    cases hreq : cli.newRequestFn endpoint body with
    | error err => simp [DoPut, hreq] at h
    | ok req =>
      cases hdo : cli.Do req with
      | error err => simp [DoPut, hreq, hdo] at h
      | ok resp =>
        refine ⟨req, resp, rfl, hdo, ?_⟩
        by_cases hs : resp.StatusCode = 200
        · refine ⟨hs, ?_⟩
          by_cases hz : resp.ContentEncoding = "gzip"
          · left
            rw [DoPut_of_gzip cli endpoint body req resp hreq hdo hs hz] at h
            cases hg : cli.newGzipReaderFn resp.Body with
            | error err0 => rw [hg] at h; cases h
            | ok respBody =>
              rw [hg] at h
              dsimp only at h
              cases hr : cli.readAllFn respBody with
              | error err => rw [hr] at h; cases h
              | ok respData =>
                rw [hr] at h
                cases h
                exact ⟨hz, respBody, rfl, hr⟩
          · right
            rw [DoPut_of_plain cli endpoint body req resp hreq hdo hs hz] at h
            cases hr : cli.readAllFn resp.Body with
            | error err => rw [hr] at h; cases h
            | ok respData =>
              rw [hr] at h
              cases h
              exact ⟨hz, rfl⟩
        · rw [DoPut_of_status cli endpoint body req resp hreq hdo hs] at h
          cases hr : cli.readAllFn resp.Body with
          | error err0 => rw [hr] at h; cases h
          | ok b => rw [hr] at h; cases h
  · rintro ⟨req, resp, hreq, hdo, hs, hz | hz⟩
    · obtain ⟨hz, respBody, hg, hr⟩ := hz
      rw [DoPut_of_gzip cli endpoint body req resp hreq hdo hs hz, hg]
      simp only [hr]
    · rw [DoPut_of_plain cli endpoint body req resp hreq hdo hs hz.1, hz.2]

/-- The cases of `TestDoPut` that reach the server: an internal error, a plain
body, a gzip body, and a body announced as gzip that is none. -/
theorem DoPut_test_cases :
    DoPut (server ⟨500, "", [111, 111, 112, 115]⟩) "http://broker" [1]
      = (none, some (Error.new [111, 111, 112, 115])) ∧
    DoPut (server ⟨200, "", [71, 111, 111, 100, 33]⟩) "http://broker" [1]
      = (some [71, 111, 111, 100, 33], none) ∧
    DoPut (server ⟨200, "gzip", [31, 139, 103, 122, 105, 112]⟩) "http://broker" [1]
      = (some [103, 122, 105, 112], none) ∧
    DoPut (server ⟨200, "gzip", [71, 111, 111, 100, 33]⟩) "http://broker" [1]
      = (none, some (Error.lib [103, 122, 105, 112])) := by
  decide

/-- C24: `DoPut` returns data without error exactly when the request is
created, the transport succeeds, the status is 200 and the body is read
without error, through a gzip reader when the header `Content-Encoding` is
`gzip`; the data are the bytes read. In every other case it returns no data
and an error, and for a status other than 200 whose body reads as `b` the
error is `errors.New(string(b))`, whose message is `b`. -/
theorem DoPut_spec (cli : Client Q R) (endpoint : String) (body : Bytes) :
    (∀ data, DoPut cli endpoint body = (some data, none) ↔
      ∃ req resp, cli.newRequestFn endpoint body = .ok req ∧ cli.Do req = .ok resp ∧
        resp.StatusCode = 200 ∧
        ((resp.ContentEncoding = "gzip" ∧
            ∃ respBody, cli.newGzipReaderFn resp.Body = .ok respBody ∧
              cli.readAllFn respBody = .ok data) ∨
          (resp.ContentEncoding ≠ "gzip" ∧ cli.readAllFn resp.Body = .ok data))) ∧
    ((∃ data, DoPut cli endpoint body = (some data, none)) ∨
      (∃ err, DoPut cli endpoint body = (none, some err))) ∧
    (∀ req resp b, cli.newRequestFn endpoint body = .ok req → cli.Do req = .ok resp →
      resp.StatusCode ≠ 200 → cli.readAllFn resp.Body = .ok b →
      DoPut cli endpoint body = (none, some (Error.new b)) ∧ (Error.new b).Error = b) := by
  refine ⟨fun data => DoPut_success_iff cli endpoint body data, DoPut_cases cli endpoint body,
    ?_⟩
  intro req resp b hreq hdo hs hr
  rw [DoPut_of_status cli endpoint body req resp hreq hdo hs, hr]
  exact ⟨rfl, rfl⟩

end http
